import Mathlib

/-!
# Verification development for `em` (declarative OpenTelemetry instrument binder)

A shallow embedding of `initializer.go`, `instruments.go` and `provider.go`.

* Go strings are byte sequences (`GoString`); tag values, type names, identifiers and error
  messages are all byte lists, so that byte indexing (`typeName[0]`, `typeName[3:]`) is exact.
* `reflect.Type` is the inductive `GoType`; a blueprint is therefore a type of finite nesting.
* `[]attribute.KeyValue` slices are modelled with their backing arrays (`Heap`, `Slice`,
  `goAppend`), because `initRef` extends the inherited slice with `append` and the handles keep
  the slice they are given.
* Calls that leave the package (`strings.TrimSpace`, `strconv.ParseFloat`, slice growth of the Go
  runtime, the OpenTelemetry meter) are fields of `Env`.
* A Go function returning `(value, error)` returns a pair whose second component is
  `Option GoString` (the text of the error); a panic is the separate outcome `Flow.panic`.
-/

namespace Em

/-! ## Strings -/

/-- A Go string: a sequence of bytes (each below 256). -/
abbrev GoString := List Nat

/-- UTF-8 encoding of the code point `n`, the bytes Go's `string(rune(n))` produces. -/
def runeBytes (n : Nat) : GoString :=
  if n < 0x80 then [n]
  else if n < 0x800 then [0xC0 + n / 64, 0x80 + n % 64]
  else if n < 0x10000 then [0xE0 + n / 4096, 0x80 + n / 64 % 64, 0x80 + n % 64]
  else [0xF0 + n / 262144, 0x80 + n / 4096 % 64, 0x80 + n / 64 % 64, 0x80 + n % 64]

/-- Bytes of a string literal of the source. -/
def str (s : String) : GoString := s.toList.foldr (fun c acc => runeBytes c.toNat ++ acc) []

/-- Go's `strings.Split(s, sep)` for a one-byte separator `sep`: the pieces of `s` between
occurrences of `sep`, always at least one piece. -/
def Split (s : GoString) (sep : Nat) : List GoString :=
  match s with
  | [] => [[]]
  | c :: rest =>
    if c = sep then [] :: Split rest sep
    else
      match Split rest sep with
      | [] => [[c]]
      | tok :: toks => (c :: tok) :: toks

/-- The byte `','`. -/
def comma : Nat := 44

/-- Go's `fmt` rendering of a non-negative `int` with `%d`. -/
def fmtInt (n : Nat) : GoString := str (toString n)

/-! ## Attributes (`go.opentelemetry.io/otel/attribute`) -/

/-- Model of `attribute.Value`: the invalid zero value, a string value (the only kind this package
builds, through `attribute.String`), or a value of another type supplied by the caller. -/
inductive AttrValue where
  | INVALID
  | STRING (v : GoString)
  | OTHER (vtype : Nat) (repr : GoString)
  deriving DecidableEq, Repr

/-- Model of `attribute.KeyValue`. -/
structure KeyValue where
  Key : GoString
  Value : AttrValue
  deriving DecidableEq, Repr

/-- Model of `attribute.String(k, v)`. -/
def attribute_String (k v : GoString) : KeyValue := { Key := k, Value := .STRING v }

/-- The zero `attribute.KeyValue`, the content of freshly allocated array slots. -/
def KeyValue.zero : KeyValue := { Key := [], Value := .INVALID }

/-- A `float64`, identified by its IEEE-754 bit pattern. -/
structure Float64 where
  bits : Nat
  deriving DecidableEq, Repr

/-! ## Struct fields and tags (`reflect.StructField`) -/

/-- Model of `reflect.StructField` without its type: the field name, whether it is exported
(`IsExported`), and its tag as the list of key/value pairs `Tag.Get` looks up. -/
structure StructField where
  Name : GoString
  exported : Bool
  Tag : List (GoString × GoString)
  deriving DecidableEq, Repr

/-- Model of `reflect.StructTag.Get`: the value of the first pair with the key, `""` if none. -/
def StructTag_Get (tag : List (GoString × GoString)) (key : GoString) : GoString :=
  match tag with
  | [] => []
  | (k, v) :: rest => if k = key then v else StructTag_Get rest key

/-- The tag key `"id"`. -/
def idTag : GoString := str "id"
/-- The tag key `"buckets"`. -/
def bucketsTag : GoString := str "buckets"
/-- The tag key `"attrs"`. -/
def attrsTag : GoString := str "attrs"

/-- The domain letter `"I"` of the `int64` instruments. -/
def i64Type : GoString := str "I"
/-- The domain letter `"F"` of the `float64` instruments. -/
def f64Type : GoString := str "F"

/-- The kind `"Counter"`. -/
def counter : GoString := str "Counter"
/-- The kind `"UpDownCounter"`. -/
def upDownCounter : GoString := str "UpDownCounter"
/-- The kind `"Gauge"`. -/
def gauge : GoString := str "Gauge"
/-- The kind `"Histogram"`. -/
def histogram : GoString := str "Histogram"

/-! ## Tag resolvers -/

/-- The two library functions the tag resolvers call: `strings.TrimSpace` and
`strconv.ParseFloat(_, 64)` (its result is the parsed number or the text of its error). -/
structure Stdlib where
  TrimSpace : GoString → GoString
  ParseFloat : GoString → Except GoString Float64

/-- Embedding of `getID`. -/
def getID (f : StructField) : GoString × Option GoString :=
  let id := StructTag_Get f.Tag idTag
  if id = [] then
    ([], some (str "missing id tag for field " ++ f.Name))
  else (id, none)

/-- The loop of `getBounds`: trims and parses the tokens in order, appending to `bounds`;
stops at the first token that does not parse. -/
def getBounds.loop (lib : Stdlib) (rawBounds : GoString) :
    List GoString → List Float64 → List Float64 × Option GoString
  | [], bounds => (bounds, none)
  | b :: rest, bounds =>
    match lib.ParseFloat (lib.TrimSpace b) with
    | .error err =>
      ([], some (str "failed parsing buckets [" ++ rawBounds ++ str "]: " ++ err))
    | .ok bucket => getBounds.loop lib rawBounds rest (bounds ++ [bucket])

/-- Embedding of `getBounds`. -/
def getBounds (lib : Stdlib) (f : StructField) : List Float64 × Option GoString :=
  let rawBounds := StructTag_Get f.Tag bucketsTag
  if rawBounds = [] then ([], none)
  else getBounds.loop lib rawBounds (Split rawBounds comma) []

/-- The loop of `getAttrs` (`for i := 0; i < len(sAttrs)-1; i += 2`): `sAttrs` is what is left
from index `i` on; each round takes two tokens and appends one attribute. -/
def getAttrs.loop (lib : Stdlib) : List GoString → List KeyValue → List KeyValue
  | k :: v :: rest, attrs =>
    getAttrs.loop lib rest (attrs ++ [attribute_String (lib.TrimSpace k) (lib.TrimSpace v)])
  | _, attrs => attrs

/-- Embedding of `getAttrs`. -/
def getAttrs (lib : Stdlib) (f : StructField) : List KeyValue × Option GoString :=
  let rawAttrs := StructTag_Get f.Tag attrsTag
  if rawAttrs = [] then ([], none)
  else
    let sAttrs := Split rawAttrs comma
    if sAttrs.length % 2 ≠ 0 then
      ([], some (str "invalid number of attributes on field " ++ f.Name ++ str ": "
        ++ fmtInt sAttrs.length))
    else (getAttrs.loop lib sAttrs [], none)

/-! ## Types (`reflect.Type`) -/

/-- The numeric domain of an instrument: `int64` or `float64`. -/
inductive Domain where
  | I64
  | F64
  deriving DecidableEq, Repr

/-- A method of a type's method set. The four methods of the capability interfaces are identified
by name and signature (instantiated at a numeric domain); every other method is `other`. -/
inductive Method where
  | Add (T : Domain)
  | AddCtx (T : Domain)
  | Record (T : Domain)
  | RecordCtx (T : Domain)
  | other (name : GoString) (signature : GoString)
  deriving DecidableEq, Repr

/-- Method set of the interface `add[T]`. -/
def add (T : Domain) : List Method := [.Add T, .AddCtx T]

/-- Method set of the interface `record[T]`. -/
def record (T : Domain) : List Method := [.Record T, .RecordCtx T]

/-- The interface type `add[int64]`. -/
def i64c : List Method := add .I64
/-- The interface type `add[float64]`. -/
def f64c : List Method := add .F64
/-- The interface type `record[int64]`. -/
def i64r : List Method := record .I64
/-- The interface type `record[float64]`. -/
def f64r : List Method := record .F64
/-- The capability sets an instrument field may implement. -/
def supported : List (List Method) := [i64c, i64r, f64c, f64r]

/-- Model of `reflect.Type.Implements`: the method set `t1` contains every method of the
interface `t`. -/
def Implements (t1 t : List Method) : Bool := t.all (fun m => decide (m ∈ t1))

/-- Embedding of `implementsOneOf`. -/
def implementsOneOf (t1 : List Method) : List (List Method) → Bool
  | [] => false
  | t :: types => if Implements t1 t then true else implementsOneOf t1 types

/-- The values of `reflect.Kind` other than `Struct` and `Pointer` (those two are the
constructors `GoType.struct` and `GoType.pointer`). -/
inductive Kind where
  | Invalid | Bool | Int | Int8 | Int16 | Int32 | Int64
  | Uint | Uint8 | Uint16 | Uint32 | Uint64 | Uintptr
  | Float32 | Float64 | Complex64 | Complex128
  | Array | Chan | Func | Interface | Map | Slice | String | UnsafePointer
  deriving DecidableEq, Repr

/-- Model of `reflect.Kind.String` (the name `String` is taken by the kind). -/
def Kind.text : Kind → GoString
  | .Invalid => str "invalid" | .Bool => str "bool" | .Int => str "int" | .Int8 => str "int8"
  | .Int16 => str "int16" | .Int32 => str "int32" | .Int64 => str "int64" | .Uint => str "uint"
  | .Uint8 => str "uint8" | .Uint16 => str "uint16" | .Uint32 => str "uint32"
  | .Uint64 => str "uint64" | .Uintptr => str "uintptr" | .Float32 => str "float32"
  | .Float64 => str "float64" | .Complex64 => str "complex64" | .Complex128 => str "complex128"
  | .Array => str "array" | .Chan => str "chan" | .Func => str "func"
  | .Interface => str "interface" | .Map => str "map" | .Slice => str "slice"
  | .String => str "string" | .UnsafePointer => str "unsafe.Pointer"

mutual
/-- Model of `reflect.Type` as far as `initRef` inspects it. `basic` is any type whose kind is
neither `Struct` nor `Pointer`, with its `Name()` (`""` for an unnamed type) and method set. -/
inductive GoType where
  | basic (kind : Kind) (name : GoString) (methods : List Method)
  | struct (name : GoString) (fields : FieldList)
  | pointer (elem : GoType)
/-- The fields of a struct type in declaration order, each with its type. -/
inductive FieldList where
  | nil
  | cons (field : StructField) (type : GoType) (rest : FieldList)
end

/-! ## Attribute slices and their backing arrays -/

/-- A `[]attribute.KeyValue` slice value: the backing array it points to (an index into the
heap), its length and its capacity. The nil slice has `len = cap = 0`. -/
structure Slice where
  arr : Nat
  len : Nat
  cap : Nat
  deriving DecidableEq, Repr

/-- The backing arrays allocated so far. -/
abbrev Heap := List (List KeyValue)

/-- The backing array number `i` (empty if there is none). -/
def Heap.array (h : Heap) (i : Nat) : List KeyValue := (h[i]?).getD []

/-- The elements a slice denotes in a heap. -/
def Heap.read (h : Heap) (s : Slice) : List KeyValue := (h.array s.arr).take s.len

/-- Go's `append(s, xs...)`. If the capacity of `s` suffices, the elements are written into the
backing array of `s` right after its length and the result shares that array; otherwise a new
array is allocated (capacity chosen by the runtime, `growslice`, at least the needed length),
the old elements are copied and the new ones written after them. -/
def goAppend (growslice : Nat → Nat → Nat) (h : Heap) (s : Slice) (xs : List KeyValue) :
    Slice × Heap :=
  let newLen := s.len + xs.length
  if newLen ≤ s.cap then
    let a := h.array s.arr
    ({ s with len := newLen }, h.set s.arr (a.take s.len ++ xs ++ a.drop newLen))
  else
    let newCap := max (growslice s.cap newLen) newLen
    ({ arr := h.length, len := newLen, cap := newCap },
      h ++ [h.read s ++ xs ++ List.replicate (newCap - newLen) KeyValue.zero])

/-! ## The backend and the trace of calls -/

/-- The eight instrument-creation calls on `metric.Meter`. -/
inductive MeterCall where
  | Int64Counter (id : GoString)
  | Int64UpDownCounter (id : GoString)
  | Int64Gauge (id : GoString)
  | Int64Histogram (id : GoString) (bounds : List Float64)
  | Float64Counter (id : GoString)
  | Float64UpDownCounter (id : GoString)
  | Float64Gauge (id : GoString)
  | Float64Histogram (id : GoString) (bounds : List Float64)
  deriving DecidableEq, Repr

/-- The four dispatcher methods of `provider`. -/
inductive Dispatcher where
  | i64c | f64c | i64r | f64r
  deriving DecidableEq, Repr

/-- A measured value: an `int64` or a `float64`. -/
inductive Num where
  | i64 (n : Int)
  | f64 (x : Float64)
  deriving DecidableEq, Repr

/-- Model of `context.Context`: the background context or one supplied by the caller. -/
inductive Context where
  | Background
  | other (id : Nat)
  deriving DecidableEq, Repr

/-- Model of `metric.AddOption` / `metric.RecordOption`: `metric.WithAttributes(attrs...)` or an
option supplied by the caller. -/
inductive MeasurementOption where
  | WithAttributes (attrs : List KeyValue)
  | other (id : Nat)
  deriving DecidableEq, Repr

/-- What the walk and the handles do, in order. `visit`, `resolve` and `dispatch` are ghost
events: the loop of `initRef` takes up an exported field, a tag resolver is run on a field, and
a dispatcher of `provider` is invoked (with the elements of its `attrs` argument at the time of
the call). `meter`, `Add` and `Record` are the calls made to the backend: an instrument creation
with its outcome, and a measurement on the instrument created by creation call number `inst`
(counted from 0). -/
inductive Event where
  | visit (field : GoString)
  | resolve (field : GoString) (tag : GoString)
  | dispatch (fn : Dispatcher) (kind id : GoString) (bounds : List Float64)
      (attrs : List KeyValue)
  | meter (call : MeterCall) (err : Option GoString)
  | Add (inst : Nat) (ctx : Context) (n : Num) (opts : List MeasurementOption)
  | Record (inst : Nat) (ctx : Context) (n : Num) (opts : List MeasurementOption)
  deriving DecidableEq, Repr

/-- The mutable state: attribute backing arrays and the trace of events so far. -/
structure World where
  heap : Heap
  trace : List Event
  deriving DecidableEq, Repr

/-- The backend creation calls recorded in a trace. -/
def meterCalls : List Event → List MeterCall
  | [] => []
  | .meter call _ :: rest => call :: meterCalls rest
  | _ :: rest => meterCalls rest

/-- The measurements recorded in a trace: the `Add` and `Record` calls on backend
instruments. -/
def measurements : List Event → List Event
  | [] => []
  | .Add inst ctx n opts :: rest => .Add inst ctx n opts :: measurements rest
  | .Record inst ctx n opts :: rest => .Record inst ctx n opts :: measurements rest
  | _ :: rest => measurements rest

/-- The calls the backend has received: the trace without the ghost events. -/
def backendCalls : List Event → List Event
  | [] => []
  | .visit _ :: rest => backendCalls rest
  | .resolve _ _ :: rest => backendCalls rest
  | .dispatch _ _ _ _ _ :: rest => backendCalls rest
  | e :: rest => e :: backendCalls rest

/-- Appends an event to the trace. -/
def World.log (w : World) (e : Event) : World := { w with trace := w.trace ++ [e] }

/-- Model of `metric.Meter`: given the calls the backend has received so far and a creation
call, the backend either creates the instrument (`none`) or fails with an error. -/
abbrev Meter := List Event → MeterCall → Option GoString

/-- Embedding of `provider` (provider.go). -/
structure provider where
  m : Meter

/-- What the package takes from outside: the library functions of the tag resolvers, the
capacity the Go runtime picks when `append` reallocates (old capacity, needed length), and the
package variable `prov` (`none` is the nil provider). -/
structure Env where
  lib : Stdlib
  growslice : Nat → Nat → Nat
  prov : Option provider

/-- A call on the meter: the outcome is logged; on success the new instrument is identified by
the number of creation calls made before this one. -/
def provider.create (p : provider) (call : MeterCall) (w : World) :
    (Option Nat × Option GoString) × World :=
  match p.m (backendCalls w.trace) call with
  | some err => ((none, some err), w.log (.meter call (some err)))
  | none => ((some (meterCalls w.trace).length, none), w.log (.meter call none))

/-! ## Instrument handles (instruments.go) -/

/-- Embedding of `nilProv[T]`. -/
structure nilProv where
  T : Domain
  deriving DecidableEq, Repr

/-- Embedding of `addImpl[T]`; `baseAdd` is the backend instrument (`none` is a nil interface). -/
structure addImpl where
  T : Domain
  baseAdd : Option Nat
  parentAttrs : Slice
  deriving DecidableEq, Repr

/-- Embedding of `recordImpl[T]`. -/
structure recordImpl where
  T : Domain
  baseRecord : Option Nat
  attrs : Slice
  deriving DecidableEq, Repr

/-- The dynamic value of an instrument field: a pointer to one of the three handle structs. -/
inductive Handle where
  | nilProv (h : nilProv)
  | addImpl (h : addImpl)
  | recordImpl (h : recordImpl)
  deriving DecidableEq, Repr

/-- Method set of the handle's dynamic type (`*nilProv[T]`, `*addImpl[T]`, `*recordImpl[T]`). -/
def Handle.methods : Handle → List Method
  | .nilProv h => [.Add h.T, .AddCtx h.T, .Record h.T, .RecordCtx h.T]
  | .addImpl h => [.Add h.T, .AddCtx h.T]
  | .recordImpl h => [.Record h.T, .RecordCtx h.T]

/-- The outcome of a call: it returns, or it panics. -/
inductive Flow (α : Type) where
  | ret (a : α)
  | panic (msg : GoString)
  deriving DecidableEq, Repr

/-- Embedding of `addImpl.AddCtx`: one `Add` on the backend instrument with the option list
`metric.WithAttributes(a.parentAttrs...)` followed by `opts`. -/
def addImpl.AddCtx (a : addImpl) (ctx : Context) (n : Num) (opts : List MeasurementOption)
    (w : World) : Flow Unit × World :=
  let o := MeasurementOption.WithAttributes (w.heap.read a.parentAttrs) :: opts
  match a.baseAdd with
  | none => (.panic (str "invalid memory address or nil pointer dereference"), w)
  | some inst => (.ret (), w.log (.Add inst ctx n o))

/-- Embedding of `addImpl.Add`. -/
def addImpl.Add (a : addImpl) (n : Num) (opts : List MeasurementOption) (w : World) :
    Flow Unit × World :=
  a.AddCtx .Background n opts w

/-- Embedding of `recordImpl.RecordCtx`. -/
def recordImpl.RecordCtx (r : recordImpl) (ctx : Context) (n : Num)
    (opts : List MeasurementOption) (w : World) : Flow Unit × World :=
  let o := MeasurementOption.WithAttributes (w.heap.read r.attrs) :: opts
  match r.baseRecord with
  | none => (.panic (str "invalid memory address or nil pointer dereference"), w)
  | some inst => (.ret (), w.log (.Record inst ctx n o))

/-- Embedding of `recordImpl.Record`. -/
def recordImpl.Record (r : recordImpl) (n : Num) (opts : List MeasurementOption) (w : World) :
    Flow Unit × World :=
  r.RecordCtx .Background n opts w

/-- Embedding of `nilProv.Add`. -/
def nilProv.Add (_n2 : nilProv) (_n : Num) (_opts : List MeasurementOption) (w : World) :
    Flow Unit × World := (.ret (), w)

/-- Embedding of `nilProv.AddCtx`. -/
def nilProv.AddCtx (_n2 : nilProv) (_ctx : Context) (_n : Num) (_opts : List MeasurementOption)
    (w : World) : Flow Unit × World := (.ret (), w)

/-- Embedding of `nilProv.Record`. -/
def nilProv.Record (_n2 : nilProv) (_n : Num) (_opts : List MeasurementOption) (w : World) :
    Flow Unit × World := (.ret (), w)

/-- Embedding of `nilProv.RecordCtx`. -/
def nilProv.RecordCtx (_n2 : nilProv) (_ctx : Context) (_n : Num)
    (_opts : List MeasurementOption) (w : World) : Flow Unit × World := (.ret (), w)

/-! ## The dispatchers of `provider` (instruments.go)

Every call site is `prov.i64c(...)`, so the receiver `p` and the package variable `prov` the
bodies read are the same value. -/

/-- Embedding of `provider.i64c`. -/
def provider.i64c (p : Option provider) (kind id : GoString) (attrs : Slice) (w : World) :
    (Option Handle × Option GoString) × World :=
  match p with
  | none => ((some (.nilProv { T := .I64 }), none), w)
  | some prov =>
    let ((base, err), w) :=
      if kind = counter then prov.create (.Int64Counter id) w
      else if kind = upDownCounter then prov.create (.Int64UpDownCounter id) w
      else ((none, none), w)
    match err with
    | some e => ((none, some e), w)
    | none => ((some (.addImpl { T := .I64, baseAdd := base, parentAttrs := attrs }), none), w)

/-- Embedding of `provider.f64c`. -/
def provider.f64c (p : Option provider) (kind id : GoString) (attrs : Slice) (w : World) :
    (Option Handle × Option GoString) × World :=
  match p with
  | none => ((some (.nilProv { T := .F64 }), none), w)
  | some prov =>
    let ((base, err), w) :=
      if kind = counter then prov.create (.Float64Counter id) w
      else if kind = upDownCounter then prov.create (.Float64UpDownCounter id) w
      else ((none, none), w)
    match err with
    | some e => ((none, some e), w)
    | none => ((some (.addImpl { T := .F64, baseAdd := base, parentAttrs := attrs }), none), w)

/-- Embedding of `provider.i64r`. -/
def provider.i64r (p : Option provider) (kind id : GoString) (bounds : List Float64)
    (attrs : Slice) (w : World) : (Option Handle × Option GoString) × World :=
  match p with
  | none => ((some (.nilProv { T := .I64 }), none), w)
  | some prov =>
    let ((base, err), w) :=
      if kind = gauge then prov.create (.Int64Gauge id) w
      else if kind = histogram then prov.create (.Int64Histogram id bounds) w
      else ((none, none), w)
    match err with
    | some e => ((none, some e), w)
    | none => ((some (.recordImpl { T := .I64, baseRecord := base, attrs := attrs }), none), w)

/-- Embedding of `provider.f64r`. -/
def provider.f64r (p : Option provider) (kind id : GoString) (bounds : List Float64)
    (attrs : Slice) (w : World) : (Option Handle × Option GoString) × World :=
  match p with
  | none => ((some (.nilProv { T := .F64 }), none), w)
  | some prov =>
    let ((base, err), w) :=
      if kind = gauge then prov.create (.Float64Gauge id) w
      else if kind = histogram then prov.create (.Float64Histogram id bounds) w
      else ((none, none), w)
    match err with
    | some e => ((none, some e), w)
    | none => ((some (.recordImpl { T := .F64, baseRecord := base, attrs := attrs }), none), w)

/-! ## The binder (initializer.go) -/

/-- Embedding of `typeAndKindFor`: `string(typeName[0])` and `typeName[3:]`. Indexing an empty
name and slicing a name shorter than three bytes panic. -/
def typeAndKindFor (typeName : GoString) : Flow (GoString × GoString) :=
  match typeName with
  | [] => .panic (str "runtime error: index out of range [0] with length 0")
  | c :: _ =>
    if typeName.length < 3 then
      .panic (str "runtime error: slice bounds out of range [3:" ++ fmtInt typeName.length
        ++ str "]")
    else .ret (runeBytes c, typeName.drop 3)

/-- Embedding of `extractTag`: runs the resolver `fn` on the field and replaces the value by the
zero value when it fails. `tag` only labels the ghost event. -/
def extractTag {T : Type} [Inhabited T] (tag : GoString) (f : StructField)
    (fn : StructField → T × Option GoString) (w : World) : (T × Option GoString) × World :=
  match fn f with
  | (_, some err) => ((default, some err), w.log (.resolve f.Name tag))
  | (res, none) => ((res, none), w.log (.resolve f.Name tag))

/-- The end of `initializeByKind`, after the `switch`. -/
def initializeByKind.finish (kind : GoString) (r : (Option Handle × Option GoString) × World) :
    (Option Handle × Option GoString) × World :=
  match r with
  | ((_, some err), w) => ((none, some err), w)
  | ((none, none), w) => ((none, some (str "unsupported kind found: " ++ kind)), w)
  | ((some res, none), w) => ((some res, none), w)

/-- Embedding of `initializeByKind`. A dispatcher call is preceded by its ghost event. -/
def initializeByKind (env : Env) (t kind : GoString) (field : StructField) (attrs : Slice)
    (w : World) : (Option Handle × Option GoString) × World :=
  match extractTag idTag field getID w with
  | ((_, some err), w) => ((none, some err), w)
  | ((id, none), w) =>
    if kind = counter ∨ kind = upDownCounter then
      if t = i64Type then
        initializeByKind.finish kind (provider.i64c env.prov kind id attrs
          (w.log (.dispatch .i64c kind id [] (w.heap.read attrs))))
      else
        initializeByKind.finish kind (provider.f64c env.prov kind id attrs
          (w.log (.dispatch .f64c kind id [] (w.heap.read attrs))))
    else if kind = gauge ∨ kind = histogram then
      match (if kind = histogram then extractTag bucketsTag field (getBounds env.lib) w
             else (([], none), w)) with
      | ((_, some err), w) => ((none, some err), w)
      | ((bounds, none), w) =>
        if t = i64Type then
          initializeByKind.finish kind (provider.i64r env.prov kind id bounds attrs
            (w.log (.dispatch .i64r kind id bounds (w.heap.read attrs))))
        else
          initializeByKind.finish kind (provider.f64r env.prov kind id bounds attrs
            (w.log (.dispatch .f64r kind id bounds (w.heap.read attrs))))
    else initializeByKind.finish kind ((none, none), w)

/-- The value of a struct (field by field), of a pointer or of an instrument field. `zero` is
the zero value of a field the walk did not set. -/
inductive Value where
  | zero
  | handle (h : Handle)
  | struct (fields : List Value)
  | pointer (elem : Value)

/-- The zero values of the fields of a freshly allocated struct. -/
def zeroValues : FieldList → List Value
  | .nil => []
  | .cons _ _ rest => .zero :: zeroValues rest

/-- Model of `fVal.Set(reflect.ValueOf(val))` on an instrument field: the handle must be
assignable to the field's type, i.e. the type is an interface the handle implements. -/
def assignable (h : Handle) (kind : Kind) (methods : List Method) : Bool :=
  decide (kind = .Interface) && Implements h.methods methods

/-- The instrument-leaf branch of the loop of `initRef` (`if implementsOneOf(...)`), for a field
whose type has the given kind, name and method set; `sName` is `sType.Name()`. Returns
`.ret none` when the loop goes on, and the new value of the field. -/
def initRef.leaf (env : Env) (sName : GoString) (field : StructField) (kind : Kind)
    (name : GoString) (methods : List Method) (attrs : Slice) (w : World) :
    Flow (Option GoString) × Value × World :=
  if implementsOneOf methods supported then
    match typeAndKindFor (if name = [] then sName else name) with
    | .panic msg => (.panic msg, .zero, w)
    | .ret (t, k) =>
      match initializeByKind env t k field attrs w with
      | ((_, some err), w) =>
        (.ret (some (str "error initializing field: " ++ err)), .zero, w)
      | ((none, none), w) =>
        (.panic (str "reflect: call of reflect.Value.Set on zero Value"), .zero, w)
      | ((some val, none), w) =>
        if assignable val kind methods then (.ret none, .handle val, w)
        else (.panic (str "reflect.Set: value is not assignable to type " ++ name), .zero, w)
  else (.ret none, .zero, w)

/-- The sub-tree branch of the loop of `initRef` (`fVal.Kind() == reflect.Struct || ... Ptr`).
`recur` is the recursive call `initRef(n.Interface(), eAttrs...)` on the freshly allocated `n`,
`isPtr` tells whether the field is a pointer. Returns `.ret none` when the loop goes on
(`continue`), and the new value of the field. -/
def initRef.subtree (env : Env) (field : StructField) (isPtr : Bool) (attrs : Slice) (w : World)
    (recur : Slice → World → Flow (Option GoString) × Value × World) :
    Flow (Option GoString) × Value × World :=
  match extractTag attrsTag field (getAttrs env.lib) w with
  | ((_, some err), w) => (.ret (some err), .zero, w)
  | ((innerAttrs, none), w) =>
    match goAppend env.growslice w.heap attrs innerAttrs with
    | (eAttrs, heap) =>
      match recur eAttrs { w with heap := heap } with
      | (.panic msg, _, w) => (.panic msg, .zero, w)
      | (.ret (some err), _, w) =>
        (.ret (some (str "field initialization failed: " ++ err)), .zero, w)
      | (.ret none, n, w) => (.ret none, if isPtr then .pointer n else n, w)

mutual
/-- Embedding of `initRef`, applied to the type `base` points to (every caller passes a pointer,
so the first `if` always dereferences it once). Returns the error (or panic), the value of the
struct `base` points to after the call, and the state. -/
def initRef (env : Env) : GoType → Slice → World → Flow (Option GoString) × Value × World
  | .struct name fields, attrs, w =>
    match initRef.loop env name fields attrs w with
    | (r, vals, w) => (r, .struct vals, w)
  | .pointer _, _, w => (.ret (some (str "expected a struct type, got " ++ str "ptr")), .zero, w)
  | .basic kind _ _, _, w =>
    (.ret (some (str "expected a struct type, got " ++ kind.text)), .zero, w)
/-- The `for` loop of `initRef` over the fields from index `i` on; `sName` is `sType.Name()`.
Returns the values of these fields; the fields after an abort keep their zero value. Taking up
an exported field is recorded by the ghost event `visit`. -/
def initRef.loop (env : Env) (sName : GoString) :
    FieldList → Slice → World → Flow (Option GoString) × List Value × World
  | .nil, _, w => (.ret none, [], w)
  | .cons field type rest, attrs, w =>
    if !field.exported then
      match initRef.loop env sName rest attrs w with
      | (r, vals, w) => (r, .zero :: vals, w)
    else
      match (match type with
        | .struct name fields =>
          initRef.subtree env field false attrs (w.log (.visit field.Name))
            (fun eAttrs w => initRef env (.struct name fields) eAttrs w)
        | .pointer elem =>
          initRef.subtree env field true attrs (w.log (.visit field.Name))
            (fun eAttrs w => initRef env elem eAttrs w)
        | .basic kind name methods =>
          initRef.leaf env sName field kind name methods attrs (w.log (.visit field.Name))) with
      | (.ret none, v, w) =>
        match initRef.loop env sName rest attrs w with
        | (r, vals, w) => (r, v :: vals, w)
      | (r, v, w) => (r, v :: zeroValues rest, w)
end

/-- Embedding of `Init`: the tree (`none` is the nil pointer) and the error. -/
def Init (env : Env) (T : GoType) (attrs : Slice) (w : World) :
    Flow (Option Value × Option GoString) × World :=
  match initRef env T attrs w with
  | (.panic msg, _, w) => (.panic msg, w)
  | (.ret (some err), _, w) => (.ret (none, some err), w)
  | (.ret none, s, w) => (.ret (some s, none), w)

/-- Embedding of `MustInit`: panics with the error of `Init`. -/
def MustInit (env : Env) (T : GoType) (attrs : Slice) (w : World) : Flow (Option Value) × World :=
  match Init env T attrs w with
  | (.panic msg, w) => (.panic msg, w)
  | (.ret (_, some err), w) => (.panic err, w)
  | (.ret (res, none), w) => (.ret res, w)

/-! ## Specification-side definitions -/

/-- A slice is well-formed in a heap: its backing array exists and has room for its capacity,
and its length does not exceed its capacity. -/
def Slice.valid (h : Heap) (s : Slice) : Prop :=
  s.arr < h.length ∧ s.len ≤ s.cap ∧ s.cap ≤ (h.array s.arr).length

/-- The heap `h2` differs from `h1` at most outside the elements of `s` and of the other arrays
of `h1`: every array of `h1` keeps its length, every array other than the one of `s` keeps its
content, and the array of `s` keeps its first `s.len` elements. -/
def Frame (s : Slice) (h1 h2 : Heap) : Prop :=
  h1.length ≤ h2.length ∧
  ∀ i, i < h1.length →
    (h2.array i).length = (h1.array i).length ∧
    (i ≠ s.arr → h2.array i = h1.array i) ∧
    (h2.array i).take s.len = (h1.array i).take s.len

/-- An instrument leaf of a blueprint: the leaf field and the sub-tree fields that enclose it,
outermost first. -/
structure Leaf where
  enclosing : List StructField
  field : StructField
  deriving DecidableEq, Repr

/-- Puts a leaf under one more enclosing sub-tree field. -/
def Leaf.under (f : StructField) (l : Leaf) : Leaf := { l with enclosing := f :: l.enclosing }

mutual
/-- The instrument leaves of a blueprint in depth-first declaration order: the exported fields
implementing a capability set, inside exported struct or pointer fields. -/
def leaves : GoType → List Leaf
  | .struct _ fields => leavesOfFields fields
  | .pointer _ => []
  | .basic _ _ _ => []
/-- The instrument leaves of a list of fields. -/
def leavesOfFields : FieldList → List Leaf
  | .nil => []
  | .cons field (.struct name fields) rest =>
    if !field.exported then leavesOfFields rest
    else (leaves (.struct name fields)).map (Leaf.under field) ++ leavesOfFields rest
  | .cons field (.pointer elem) rest =>
    if !field.exported then leavesOfFields rest
    else (leaves elem).map (Leaf.under field) ++ leavesOfFields rest
  | .cons field (.basic _ _ methods) rest =>
    if !field.exported then leavesOfFields rest
    else if implementsOneOf methods supported then
      { enclosing := [], field := field } :: leavesOfFields rest
    else leavesOfFields rest
end

/-- The attributes of the `attrs` tags of the given sub-tree fields, concatenated in order. -/
def pathAttrs (lib : Stdlib) : List StructField → List KeyValue
  | [] => []
  | f :: fs => (getAttrs lib f).1 ++ pathAttrs lib fs

/-- What a leaf is expected to be bound with: its `id` tag, and the base attributes followed by
the `attrs` tags of its enclosing sub-tree fields in root-to-leaf order. -/
def Leaf.expected (lib : Stdlib) (base : List KeyValue) (l : Leaf) :
    GoString × List KeyValue :=
  (StructTag_Get l.field.Tag idTag, base ++ pathAttrs lib l.enclosing)

/-- The bindings recorded in a trace: for every dispatcher call, in order, the identifier and
the attribute list handed to it. -/
def dispatched : List Event → List (GoString × List KeyValue)
  | [] => []
  | .dispatch _ _ id _ attrs :: rest => (id, attrs) :: dispatched rest
  | _ :: rest => dispatched rest

/-- The argument of a call `Init[T](base...)`: a slice over an array that holds the elements
`base` followed by the `spare` slots of its unused capacity, in a state with nothing else. -/
def callerSlice (base spare : List KeyValue) : Slice × World :=
  ({ arr := 0, len := base.length, cap := base.length + spare.length },
   { heap := [base ++ spare], trace := [] })

/-- The call `Init[T](base...)` on the slice `callerSlice base spare`. -/
def InitWith (env : Env) (T : GoType) (base spare : List KeyValue) :
    Flow (Option Value × Option GoString) × World :=
  Init env T (callerSlice base spare).1 (callerSlice base spare).2

/-! ## Sample inputs for the closed examples -/

/-- The ASCII white space of `strings.TrimSpace`: tab, line feed, vertical tab, form feed,
carriage return, space. -/
def asciiSpace (c : Nat) : Bool := c = 9 || c = 10 || c = 11 || c = 12 || c = 13 || c = 32

/-- Drops leading ASCII white space. -/
def trimLeft : GoString → GoString
  | [] => []
  | c :: s => if asciiSpace c then trimLeft s else c :: s

/-- A library instance for the closed examples: `TrimSpace` removes leading and trailing ASCII
white space (what `strings.TrimSpace` does on ASCII input), and `ParseFloat` reads the six
literals of the tests (to their IEEE-754 bit patterns) and rejects everything else in the way
`strconv` words it. -/
def sampleLib : Stdlib where
  TrimSpace s := (trimLeft (trimLeft s).reverse).reverse
  ParseFloat s :=
    if s = str "1.0" then .ok { bits := 0x3FF0000000000000 }
    else if s = str "2.0" then .ok { bits := 0x4000000000000000 }
    else if s = str "3.0" then .ok { bits := 0x4008000000000000 }
    else if s = str "0.5874697321" then .ok { bits := 0x3FE2CC8D52D84CDA }
    else if s = str "5.343" then .ok { bits := 0x40155F3B645A1CAC }
    else if s = str "0.9" then .ok { bits := 0x3FECCCCCCCCCCCCD }
    else .error (str "strconv.ParseFloat: parsing \"" ++ s ++ str "\": invalid syntax")

/-- No provider configured (`prov == nil`). -/
def envNil : Env := { lib := sampleLib, growslice := fun _ n => n, prov := none }

/-- A provider whose meter creates every instrument. -/
def envLive : Env :=
  { lib := sampleLib, growslice := fun _ n => n, prov := some { m := fun _ _ => none } }

/-- An exported field with the given name and tag. -/
def field (name : String) (tag : List (String × String)) : StructField :=
  { Name := str name, exported := true, Tag := tag.map (fun kv => (str kv.1, str kv.2)) }

/-- The attribute `attribute.String(k, v)` of two literals. -/
def kv (k v : String) : KeyValue := attribute_String (str k) (str v)

/-- The declared instrument type `I64Counter`. -/
def I64Counter : GoType := .basic .Interface (str "I64Counter") (add .I64)
/-- The declared instrument type `I64UpDownCounter`. -/
def I64UpDownCounter : GoType := .basic .Interface (str "I64UpDownCounter") (add .I64)
/-- The declared instrument type `F64Counter`. -/
def F64Counter : GoType := .basic .Interface (str "F64Counter") (add .F64)
/-- The declared instrument type `F64UpDownCounter`. -/
def F64UpDownCounter : GoType := .basic .Interface (str "F64UpDownCounter") (add .F64)
/-- The declared instrument type `I64Gauge`. -/
def I64Gauge : GoType := .basic .Interface (str "I64Gauge") (record .I64)
/-- The declared instrument type `I64Histogram`. -/
def I64Histogram : GoType := .basic .Interface (str "I64Histogram") (record .I64)
/-- The declared instrument type `F64Gauge`. -/
def F64Gauge : GoType := .basic .Interface (str "F64Gauge") (record .F64)
/-- The declared instrument type `F64Histogram`. -/
def F64Histogram : GoType := .basic .Interface (str "F64Histogram") (record .F64)

/-- The blueprint of the scenario: `struct { A I64Counter (id A); Sub struct { B I64Gauge (id B) }
(attrs sub,x) }`. -/
def scenario : GoType :=
  .struct (str "scenario")
    (.cons (field "A" [("id", "A")]) I64Counter
    (.cons (field "Sub" [("attrs", "sub,x")])
      (.struct [] (.cons (field "B" [("id", "B")]) I64Gauge .nil))
    .nil))

/-- Two sibling sub-trees with different `attrs` tags:
`struct { A struct { C I64Counter (id a) } (attrs sub,a); B struct { D I64Counter (id b) }
(attrs sub,b) }`. -/
def siblings : GoType :=
  .struct (str "siblings")
    (.cons (field "A" [("attrs", "sub,a")])
      (.struct [] (.cons (field "C" [("id", "a")]) I64Counter .nil))
    (.cons (field "B" [("attrs", "sub,b")])
      (.struct [] (.cons (field "D" [("id", "b")]) I64Counter .nil))
    .nil))

/-- What a call of the walk on slice `s` from state `w` guarantees when it ends in `w2` with
outcome `r`, `E` being the expected bindings of the leaves it is to visit: the heap is framed,
and the bindings it recorded are a prefix of `E`, all of `E` if it ended without fault. -/
def Post (E : List (GoString × List KeyValue)) (s : Slice) (w : World)
    (r : Flow (Option GoString)) (w2 : World) : Prop :=
  Frame s w.heap w2.heap ∧
  ∃ l, l <+: E ∧ dispatched w2.trace = dispatched w.trace ++ l ∧ (r = .ret none → l = E)

/-- The state `w2` has the heap of `w` and no binding recorded beyond those of `w`. -/
def Quiet (w w2 : World) : Prop :=
  w2.heap = w.heap ∧ dispatched w2.trace = dispatched w.trace

/-- An interface type declared by the user with the method set of `add[int64]` and the
two-byte name `Op`. -/
def Op : GoType := .basic .Interface (str "Op") (add .I64)

/-- The blueprint `struct { X Op (id x); C I64Counter }`: the leaf `C` has no `id` tag. -/
def opThenCounter : GoType :=
  .struct (str "opThenCounter")
    (.cons (field "X" [("id", "x")]) Op
    (.cons (field "C" []) I64Counter
    .nil))

/-- The blueprint `struct { C I64Counter }` whose only leaf has no `id` tag. -/
def missingId : GoType :=
  .struct (str "missingId") (.cons (field "C" []) I64Counter .nil)

/-- The field `Embed` with the tag `attrs:"k1,v1,k2,v2"`. -/
def embedEven : StructField := field "Embed" [("attrs", "k1,v1,k2,v2")]

/-- The field `Embed` with the tag `attrs:"bad,attr,count"` of the test. -/
def embedOdd : StructField := field "Embed" [("attrs", "bad,attr,count")]

/-- The `attrs` tag of the field is non-empty and splits on `','` into an odd number of
tokens. -/
def oddAttrs (f : StructField) : Bool :=
  decide (StructTag_Get f.Tag attrsTag ≠ []) &&
    decide ((Split (StructTag_Get f.Tag attrsTag) comma).length % 2 = 1)

mutual
/-- The blueprint has an exported struct or pointer field with an odd `attrs` tag that is
reachable from the root through exported struct or pointer-to-struct fields. -/
def hasOddAttrs : GoType → Bool
  | .struct _ fields => hasOddAttrsFields fields
  | .pointer _ => false
  | .basic _ _ _ => false
/-- One of the fields, or a field below it, is such a field. -/
def hasOddAttrsFields : FieldList → Bool
  | .nil => false
  | .cons field (.struct name fields) rest =>
    (field.exported && (oddAttrs field || hasOddAttrs (.struct name fields)))
      || hasOddAttrsFields rest
  | .cons field (.pointer elem) rest =>
    (field.exported && (oddAttrs field || hasOddAttrs elem)) || hasOddAttrsFields rest
  | .cons _ (.basic _ _ _) rest => hasOddAttrsFields rest
end

/-- The blueprint `struct { Embed struct {} (attrs bad,attr,count) }`. -/
def oddBlueprint : GoType :=
  .struct (str "oddBlueprint") (.cons embedOdd (.struct [] .nil) .nil)

/-- The blueprint `struct { embed struct {} (attrs bad,attr,count) }` with an unexported
field. -/
def oddUnexported : GoType :=
  .struct (str "oddUnexported")
    (.cons { embedOdd with Name := str "embed", exported := false } (.struct [] .nil) .nil)

/-- The field `Bounds` with the tag `buckets:"1.0,0.5874697321, 5.343, 0.9"` of the test. -/
def boundsGood : StructField := field "Bounds" [("buckets", "1.0,0.5874697321, 5.343, 0.9")]

/-- The field `Bounds` with the tag `buckets:"1.0,2.0,3.0,something"` of the test. -/
def boundsBad : StructField := field "Bounds" [("buckets", "1.0,2.0,3.0,something")]

/-- The field `Bounds` with the tag `buckets:"1.0,"`, which ends in a comma. -/
def boundsTrailing : StructField := field "Bounds" [("buckets", "1.0,")]

/-- The eight declared instrument types (instruments.go): name and method set. -/
def declaredInstruments : List (GoString × List Method) :=
  [(str "I64Counter", add .I64), (str "I64UpDownCounter", add .I64),
   (str "F64Counter", add .F64), (str "F64UpDownCounter", add .F64),
   (str "I64Gauge", record .I64), (str "I64Histogram", record .I64),
   (str "F64Gauge", record .F64), (str "F64Histogram", record .F64)]

/-- A leaf field that resolves: its type is one of the eight declared instrument types, its
`id` tag is non-empty and, for a histogram, its `buckets` tag is empty or parses. -/
def leafResolves (lib : Stdlib) (field : StructField) (kind : Kind) (name : GoString)
    (methods : List Method) : Bool :=
  decide (kind = .Interface) && decide ((name, methods) ∈ declaredInstruments) &&
    decide (StructTag_Get field.Tag idTag ≠ []) &&
    (decide (name.drop 3 ≠ histogram) || decide ((getBounds lib field).2 = none))

mutual
/-- A blueprint every exported field of which, at every depth, resolves: a struct whose
exported struct or pointer fields have an `attrs` tag that is empty or of even token count and
lead to such a struct again, and whose exported fields implementing a capability set satisfy
`leafResolves`. -/
def resolves (lib : Stdlib) : GoType → Bool
  | .struct _ fields => resolvesFields lib fields
  | .pointer _ => false
  | .basic _ _ _ => false
/-- Every exported field of the list resolves. -/
def resolvesFields (lib : Stdlib) : FieldList → Bool
  | .nil => true
  | .cons field (.struct name fields) rest =>
    (!field.exported || (!oddAttrs field && resolves lib (.struct name fields)))
      && resolvesFields lib rest
  | .cons field (.pointer elem) rest =>
    (!field.exported || (!oddAttrs field && resolves lib elem)) && resolvesFields lib rest
  | .cons field (.basic kind name methods) rest =>
    (!field.exported || !implementsOneOf methods supported
      || leafResolves lib field kind name methods) && resolvesFields lib rest
end

/-- The blueprint `samplers` of `TestInitialize`. -/
def samplers : GoType :=
  .struct (str "samplers")
    (.cons (field "I64Counter" [("id", "i64counter"), ("kind", "c")]) I64Counter
    (.cons (field "I64UDC" [("id", "i64udc"), ("kind", "udc")]) I64UpDownCounter
    (.cons (field "I64Gauge" [("id", "i64gauge"), ("kind", "g")]) I64Gauge
    (.cons (field "I64Histogram"
        [("id", "i64histogram"), ("kind", "h"), ("buckets", "1.0,2.0,3.0")]) I64Histogram
    (.cons (field "F64Counter" [("id", "f64counter"), ("kind", "c")]) F64Counter
    (.cons (field "F64UDC" [("id", "f64udc"), ("kind", "udc")]) F64UpDownCounter
    (.cons (field "F64Gauge" [("id", "f64gauge"), ("kind", "g")]) F64Gauge
    (.cons (field "F64Histogram"
        [("id", "f64histogram"), ("kind", "h"), ("buckets", "1.0,2.0,3.0")]) F64Histogram
    (.cons (field "Embed" [("attrs", "embed,1")])
      (.struct [] (.cons (field "EmbedCounter" [("id", "embedcounter"), ("kind", "c")])
        I64Counter .nil))
    .nil)))))))))

/-- The capacity the Go runtime gives a small slice that `append` has to reallocate: twice the
old capacity, or the needed length when that is larger. -/
def doubling (oldCap needed : Nat) : Nat := if 2 * oldCap < needed then needed else 2 * oldCap

/-- A provider whose meter creates every instrument, with the doubling growth of slices. -/
def envDoubling : Env := { envLive with growslice := doubling }

/-- Two sibling sub-trees three levels down:
`struct { N struct { M struct { X struct { C I64Counter (id x) } (attrs c,3);
Y struct { D I64Counter (id y) } (attrs c,4) } (attrs b,2) } (attrs a,1) }`. -/
def deepSiblings : GoType :=
  .struct (str "deepSiblings")
    (.cons (field "N" [("attrs", "a,1")])
      (.struct []
        (.cons (field "M" [("attrs", "b,2")])
          (.struct []
            (.cons (field "X" [("attrs", "c,3")])
              (.struct [] (.cons (field "C" [("id", "x")]) I64Counter .nil))
            (.cons (field "Y" [("attrs", "c,4")])
              (.struct [] (.cons (field "D" [("id", "y")]) I64Counter .nil))
            .nil)))
        .nil))
    .nil)

mutual
/-- The blueprint has an exported field implementing a capability set, with an absent or empty
`id` tag, that is reachable from the root through exported struct or pointer-to-struct
fields. -/
def hasMissingId : GoType → Bool
  | .struct _ fields => hasMissingIdFields fields
  | .pointer _ => false
  | .basic _ _ _ => false
/-- One of the fields, or a field below it, is such a leaf. -/
def hasMissingIdFields : FieldList → Bool
  | .nil => false
  | .cons field (.struct name fields) rest =>
    (field.exported && hasMissingId (.struct name fields)) || hasMissingIdFields rest
  | .cons field (.pointer elem) rest =>
    (field.exported && hasMissingId elem) || hasMissingIdFields rest
  | .cons field (.basic _ _ methods) rest =>
    (field.exported && implementsOneOf methods supported
      && decide (StructTag_Get field.Tag idTag = [])) || hasMissingIdFields rest
end

/-- What binding through a live provider `p` amounts to, from state `w`: after the ghost events
`ghost`, exactly one creation `call` on the meter; when the backend creates the instrument, the
handle `wrap inst` around it and no error; when it fails, no handle and the backend's error.
The heap is left as it was. -/
def createdBy (p : provider) (w : World) (ghost : List Event) (call : MeterCall)
    (wrap : Nat → Handle) : (Option Handle × Option GoString) × World :=
  match p.m (backendCalls (w.trace ++ ghost)) call with
  | none =>
    ((some (wrap (meterCalls (w.trace ++ ghost)).length), none),
      { heap := w.heap, trace := w.trace ++ ghost ++ [.meter call none] })
  | some err =>
    ((none, some err), { heap := w.heap, trace := w.trace ++ ghost ++ [.meter call (some err)] })

/-- A provider whose meter refuses every instrument. -/
def envFailing : Env :=
  { lib := sampleLib, growslice := fun _ n => n,
    prov := some { m := fun _ _ => some (str "backend down") } }

/-- The state with one empty attribute array and an empty trace. -/
def emptyWorld : World := { heap := [[]], trace := [] }

/-- The nil attribute slice. -/
def nilSlice : Slice := { arr := 0, len := 0, cap := 0 }

/-- The blueprint `struct { P *int }`. -/
def ptrToInt : GoType :=
  .struct (str "ptrToInt") (.cons (field "P" []) (.pointer (.basic .Int (str "int") [])) .nil)

/-- The blueprint `struct { N int; S string; L []string; M map[string]int; C I64Counter (id c) }`:
four fields that are no instruments, then a leaf. -/
def plainThenCounter : GoType :=
  .struct (str "plainThenCounter")
    (.cons (field "N" []) (.basic .Int (str "int") [])
    (.cons (field "S" []) (.basic .String (str "string") [])
    (.cons (field "L" []) (.basic .Slice [] [])
    (.cons (field "M" []) (.basic .Map [] [])
    (.cons (field "C" [("id", "c")]) I64Counter .nil)))))

mutual
/-- The blueprint with its unexported fields removed, at every depth. -/
def exportedOnly : GoType → GoType
  | .struct name fields => .struct name (exportedOnlyFields fields)
  | .pointer elem => .pointer (exportedOnly elem)
  | .basic kind name methods => .basic kind name methods
/-- The exported fields among `fields`, each with its type so reduced. -/
def exportedOnlyFields : FieldList → FieldList
  | .nil => .nil
  | .cons field type rest =>
    if field.exported then .cons field (exportedOnly type) (exportedOnlyFields rest)
    else exportedOnlyFields rest
end

mutual
/-- A value of the type `exportedOnly T` read as a value of `T`: the zero value is put at every
unexported field. -/
def withUnexported : GoType → Value → Value
  | .struct _ fields, .struct vals => .struct (withUnexportedFields fields vals)
  | .pointer elem, .pointer v => .pointer (withUnexported elem v)
  | _, v => v
/-- The field values of `exportedOnlyFields fields` read as field values of `fields`. -/
def withUnexportedFields : FieldList → List Value → List Value
  | .nil, _ => []
  | .cons field type rest, vals =>
    if field.exported then
      match vals with
      | [] => []
      | v :: vals => withUnexported type v :: withUnexportedFields rest vals
    else .zero :: withUnexportedFields rest vals
end

/-- Applies `f` to the tree of an outcome of `Init`. -/
def onTree (f : Value → Value) :
    Flow (Option Value × Option GoString) → Flow (Option Value × Option GoString)
  | .ret (some tree, err) => .ret (some (f tree), err)
  | r => r

/-- The blueprint `struct { c I64Counter; sub struct { X I64Counter (id x) } (attrs odd);
C I64Counter (id c) }`: an unexported leaf without `id` tag, an unexported sub-tree with a
malformed `attrs` tag, and an exported leaf. -/
def hiddenFaults : GoType :=
  .struct (str "hiddenFaults")
    (.cons { Name := str "c", exported := false, Tag := [] } I64Counter
    (.cons { Name := str "sub", exported := false, Tag := [(str "attrs", str "odd")] }
      (.struct [] (.cons (field "X" [("id", "x")]) I64Counter .nil))
    (.cons (field "C" [("id", "c")]) I64Counter .nil)))

/-- The handle is ready for calls: a no-op handle, or a handle around a backend instrument
(not around a nil interface). -/
def Handle.ready : Handle → Bool
  | .nilProv _ => true
  | .addImpl h => h.baseAdd.isSome
  | .recordImpl h => h.baseRecord.isSome

/-- An instrument-leaf field, i.e. a field whose type implements one of the capability sets,
holds a handle that is ready and assignable to the field's type; any other field of a type
that is neither struct nor pointer is free. -/
def leafPopulated (kind : Kind) (methods : List Method) (v : Value) : Bool :=
  !implementsOneOf methods supported ||
    match v with
    | .handle h => h.ready && assignable h kind methods
    | _ => false

mutual
/-- The value is a fully populated tree of the blueprint. -/
def populated : GoType → Value → Bool
  | .struct _ fields, .struct vals => populatedFields fields vals
  | _, _ => false
/-- The values are those of the fields, one each, and every exported field is populated: a
struct field holds a populated tree, a pointer field points to a populated tree (it is not
nil), an instrument-leaf field holds a handle. -/
def populatedFields : FieldList → List Value → Bool
  | .nil, vals => vals.isEmpty
  | .cons _ _ _, [] => false
  | .cons field (.struct name fields) rest, v :: vals =>
    (!field.exported || populated (.struct name fields) v) && populatedFields rest vals
  | .cons field (.pointer elem) rest, v :: vals =>
    (!field.exported ||
      match v with
      | .pointer n => populated elem n
      | _ => false) && populatedFields rest vals
  | .cons field (.basic kind _ methods) rest, v :: vals =>
    (!field.exported || leafPopulated kind methods v) && populatedFields rest vals
end

/-- The tree `Init` returns for `scenario` through a live provider, called with no base
attributes. -/
def scenarioTree : Value :=
  .struct [
    .handle (.addImpl
      { T := .I64, baseAdd := some 0, parentAttrs := { arr := 0, len := 0, cap := 0 } }),
    .struct [.handle (.recordImpl
      { T := .I64, baseRecord := some 1, attrs := { arr := 1, len := 1, cap := 1 } })]]

/-- An interface type declared by the user with the method set of `add[int64]` and the name
`FooCounter`, whose first letter names the other numeric domain. -/
def FooCounter : GoType := .basic .Interface (str "FooCounter") (add .I64)

/-- The blueprint `struct { X FooCounter (id x) }`. -/
def fooCounter : GoType :=
  .struct (str "fooCounter") (.cons (field "X" [("id", "x")]) FooCounter .nil)

/-- The blueprint `struct { X Op (id x); H I64Histogram (id h, buckets 1.0,bad) }`. -/
def opThenHistogram : GoType :=
  .struct (str "opThenHistogram")
    (.cons (field "X" [("id", "x")]) Op
    (.cons (field "H" [("id", "h"), ("buckets", "1.0,bad")]) I64Histogram .nil))

/-- The blueprint `struct { S struct { X interface { Add; AddCtx } (id x) } }` with unnamed
types for `S` and `X`. -/
def anonLeaf : GoType :=
  .struct (str "anonLeaf")
    (.cons (field "S" [])
      (.struct [] (.cons (field "X" [("id", "x")]) (.basic .Interface [] (add .I64)) .nil))
    .nil)

/-- The argument of a later call `Init[T](base...)`: the caller's slice lies in a backing array
of its own, `base` followed by spare capacity, next to the arrays of the state `w`. -/
def callerSliceIn (w : World) (base spare : List KeyValue) : Slice × World :=
  ({ arr := w.heap.length, len := base.length, cap := base.length + spare.length },
   { w with heap := w.heap ++ [base ++ spare] })

/-- The call `Init[T](base...)` made in state `w` on the slice `callerSliceIn w base spare`. -/
def InitIn (env : Env) (T : GoType) (w : World) (base spare : List KeyValue) :
    Flow (Option Value × Option GoString) × World :=
  Init env T (callerSliceIn w base spare).1 (callerSliceIn w base spare).2

mutual
/-- An exported field marked by `bad` is reachable from the root of the blueprint through
exported struct and pointer-to-struct fields. -/
def reaches (bad : StructField → GoType → Bool) : GoType → Bool
  | .struct _ fields => reachesFields bad fields
  | .pointer _ => false
  | .basic _ _ _ => false
/-- One of the fields, or a field below it, is such a field. -/
def reachesFields (bad : StructField → GoType → Bool) : FieldList → Bool
  | .nil => false
  | .cons field (.struct name fields) rest =>
    (field.exported && (bad field (.struct name fields) || reaches bad (.struct name fields)))
      || reachesFields bad rest
  | .cons field (.pointer elem) rest =>
    (field.exported && (bad field (.pointer elem) || reaches bad elem))
      || reachesFields bad rest
  | .cons field (.basic kind name methods) rest =>
    (field.exported && bad field (.basic kind name methods)) || reachesFields bad rest
end

/-- The type is a pointer whose referent is not a struct. -/
def pointsToNonStruct (_field : StructField) : GoType → Bool
  | .pointer (.struct _ _) => false
  | .pointer _ => true
  | _ => false

/-- The blueprint `struct { A I64Counter (id a); Sub struct { P *int } }`. -/
def nestedPtrToInt : GoType :=
  .struct (str "nestedPtrToInt")
    (.cons (field "A" [("id", "a")]) I64Counter
    (.cons (field "Sub" [])
      (.struct [] (.cons (field "P" []) (.pointer (.basic .Int (str "int") [])) .nil))
    .nil))

/-- The event has to do with boundaries: the `buckets` tag is resolved, a dispatcher is handed
a non-empty boundary list, or a histogram is created on the meter. -/
def Event.usesBuckets : Event → Bool
  | .resolve _ tag => decide (tag = bucketsTag)
  | .dispatch _ _ _ bounds _ => !bounds.isEmpty
  | .meter (.Int64Histogram _ _) _ => true
  | .meter (.Float64Histogram _ _) _ => true
  | _ => false

/-- An instrument leaf whose type name ends in `Histogram` from byte 3 on and whose `buckets`
tag does not resolve. -/
def badHistogram (lib : Stdlib) (field : StructField) : GoType → Bool
  | .basic _ name methods =>
    implementsOneOf methods supported && decide (3 ≤ name.length) &&
      decide (name.drop 3 = histogram) && (getBounds lib field).2.isSome
  | _ => false

/-- The blueprint `struct { G I64Gauge (id g, buckets 1.0,bad); Sub struct { H F64Histogram
(id h, buckets 1.0,bad) } }`. -/
def gaugeThenHistogram : GoType :=
  .struct (str "gaugeThenHistogram")
    (.cons (field "G" [("id", "g"), ("buckets", "1.0,bad")]) I64Gauge
    (.cons (field "Sub" [])
      (.struct [] (.cons (field "H" [("id", "h"), ("buckets", "1.0,bad")]) F64Histogram .nil))
    .nil))

/-- The name `Écart` of an exported Go type: its first byte is `0xC3`, the first of the two
bytes of `É` in UTF-8. -/
def ecart : GoString := str "Écart"

/-- The blueprint `struct { X Op (id x) }`. -/
def opOnly : GoType := .struct (str "opOnly") (.cons (field "X" [("id", "x")]) Op .nil)

/-- The blueprint `type T struct { X interface { Add; AddCtx } (id x) }`: the unnamed type of
`X` makes the walk use the name `T` of the struct. -/
def anonInT : GoType :=
  .struct (str "T") (.cons (field "X" [("id", "x")]) (.basic .Interface [] (add .I64)) .nil)

/-- The blueprint `struct { X I64Timer (id x) }`, `I64Timer` being an interface declared by the
user with the method set of `add[int64]`. -/
def timer : GoType :=
  .struct (str "timer")
    (.cons (field "X" [("id", "x")]) (.basic .Interface (str "I64Timer") (add .I64)) .nil)

/-- The fields the loop of `initRef` has taken up, in order: the names in the ghost events
`visit` of a trace. -/
def visits : List Event → List GoString
  | [] => []
  | .visit f :: rest => f :: visits rest
  | _ :: rest => visits rest

mutual
/-- The exported fields of a blueprint in depth-first declaration order: every exported field
of the struct, each sub-tree field followed by the exported fields of its referent. -/
def visitOrder : GoType → List GoString
  | .struct _ fields => visitOrderFields fields
  | .pointer _ => []
  | .basic _ _ _ => []
/-- The exported fields among `fields` and below them, in depth-first declaration order. -/
def visitOrderFields : FieldList → List GoString
  | .nil => []
  | .cons field (.struct name fields) rest =>
    if !field.exported then visitOrderFields rest
    else field.Name :: (visitOrder (.struct name fields) ++ visitOrderFields rest)
  | .cons field (.pointer elem) rest =>
    if !field.exported then visitOrderFields rest
    else field.Name :: (visitOrder elem ++ visitOrderFields rest)
  | .cons field (.basic _ _ _) rest =>
    if !field.exported then visitOrderFields rest
    else field.Name :: visitOrderFields rest
end

/-- What a call of the walk from state `w` guarantees about the fields it takes up when it ends
in `w2` with outcome `r`, `E` being the exported fields in order: the fields taken up are a
prefix of `E`, all of `E` if it ended without fault. -/
def Walked (E : List GoString) (w : World) (r : Flow (Option GoString)) (w2 : World) : Prop :=
  ∃ l, l <+: E ∧ visits w2.trace = visits w.trace ++ l ∧ (r = .ret none → l = E)

/-- The blueprint `struct { C I64Counter; D I64Counter (id d) }`: the first leaf has no `id`
tag. -/
def faultThenLeaf : GoType :=
  .struct (str "faultThenLeaf")
    (.cons (field "C" []) I64Counter
    (.cons (field "D" [("id", "d")]) I64Counter .nil))

/-- The blueprint `struct { P *struct { C I64Counter (id c) } (attrs odd) }`: a pointer field
with a malformed `attrs` tag. -/
def oddPointer : GoType :=
  .struct (str "oddPointer")
    (.cons (field "P" [("attrs", "odd")])
      (.pointer (.struct (str "Inner") (.cons (field "C" [("id", "c")]) I64Counter .nil)))
    .nil)

/-- The sub-tree branch of the loop when the recursive call runs on a bounded stack: `recur`
gives `none` when the stack gives out, and so does the branch. -/
def initRef.subtreeN (env : Env) (field : StructField) (isPtr : Bool) (attrs : Slice)
    (w : World) (recur : Slice → World → Option (Flow (Option GoString) × Value × World)) :
    Option (Flow (Option GoString) × Value × World) :=
  match extractTag attrsTag field (getAttrs env.lib) w with
  | ((_, some err), w) => some (.ret (some err), .zero, w)
  | ((innerAttrs, none), w) =>
    match goAppend env.growslice w.heap attrs innerAttrs with
    | (eAttrs, heap) =>
      match recur eAttrs { w with heap := heap } with
      | none => none
      | some (.panic msg, _, w) => some (.panic msg, .zero, w)
      | some (.ret (some err), _, w) =>
        some (.ret (some (str "field initialization failed: " ++ err)), .zero, w)
      | some (.ret none, n, w) => some (.ret none, if isPtr then .pointer n else n, w)

/-- The `for` loop of `initRef` when the recursive calls run on a bounded stack: `recur` is the
call `initRef(n.Interface(), eAttrs...)` on a value of the given type. -/
def initRef.loopN (env : Env)
    (recur : GoType → Slice → World → Option (Flow (Option GoString) × Value × World))
    (sName : GoString) :
    FieldList → Slice → World → Option (Flow (Option GoString) × List Value × World)
  | .nil, _, w => some (.ret none, [], w)
  | .cons field type rest, attrs, w =>
    if !field.exported then
      match initRef.loopN env recur sName rest attrs w with
      | none => none
      | some (r, vals, w) => some (r, .zero :: vals, w)
    else
      match (match type with
        | .struct name fields =>
          initRef.subtreeN env field false attrs (w.log (.visit field.Name))
            (recur (.struct name fields))
        | .pointer elem =>
          initRef.subtreeN env field true attrs (w.log (.visit field.Name)) (recur elem)
        | .basic kind name methods =>
          some (initRef.leaf env sName field kind name methods attrs
            (w.log (.visit field.Name)))) with
      | none => none
      | some (.ret none, v, w) =>
        match initRef.loopN env recur sName rest attrs w with
        | none => none
        | some (r, vals, w) => some (r, v :: vals, w)
      | some (r, v, w) => some (r, v :: zeroValues rest, w)

/-- The function `initRef` run with room for `n` nested calls of itself: `none` when a call
would need more. The recursion is on `n`, not on the type. -/
def initRefN (env : Env) :
    Nat → GoType → Slice → World → Option (Flow (Option GoString) × Value × World)
  | 0, _, _, _ => none
  | n + 1, .struct name fields, attrs, w =>
    match initRef.loopN env (fun T s w1 => initRefN env n T s w1) name fields attrs w with
    | none => none
    | some (r, vals, w) => some (r, .struct vals, w)
  | _ + 1, .pointer _, _, w =>
    some (.ret (some (str "expected a struct type, got " ++ str "ptr")), .zero, w)
  | _ + 1, .basic kind _ _, _, w =>
    some (.ret (some (str "expected a struct type, got " ++ kind.text)), .zero, w)

mutual
/-- The nesting depth of a blueprint: the largest number of descents into exported struct and
pointer fields on a path from the root. -/
def depth : GoType → Nat
  | .struct _ fields => depthFields fields
  | .pointer _ => 0
  | .basic _ _ _ => 0
/-- One more than the nesting depth of the deepest referent of an exported struct or pointer
field among `fields`; zero when there is none. -/
def depthFields : FieldList → Nat
  | .nil => 0
  | .cons field (.struct name fields) rest =>
    max (if field.exported then depth (.struct name fields) + 1 else 0) (depthFields rest)
  | .cons field (.pointer elem) rest =>
    max (if field.exported then depth elem + 1 else 0) (depthFields rest)
  | .cons _ (.basic _ _ _) rest => depthFields rest
end

/-- The types `initRef` is called on from the loop over `fields`: the referents of the exported
struct and pointer fields. -/
def referents : FieldList → List GoType
  | .nil => []
  | .cons field (.struct name fields) rest =>
    if field.exported then .struct name fields :: referents rest else referents rest
  | .cons field (.pointer elem) rest =>
    if field.exported then elem :: referents rest else referents rest
  | .cons _ (.basic _ _ _) rest => referents rest

mutual
/-- What the handles of a tree of the blueprint hold in heap `h`: for every exported instrument
leaf whose field holds a handle around a backend instrument, in depth-first declaration order,
the `id` tag of the leaf and the elements the slice stored in the handle reads in `h`. -/
def effective (h : Heap) : GoType → Value → List (GoString × List KeyValue)
  | .struct _ fields, .struct vals => effectiveFields h fields vals
  | _, _ => []
/-- What the handles in the values of the fields hold in heap `h`. -/
def effectiveFields (h : Heap) : FieldList → List Value → List (GoString × List KeyValue)
  | .cons field (.struct name fields) rest, v :: vals =>
    (if field.exported then effective h (.struct name fields) v else [])
      ++ effectiveFields h rest vals
  | .cons field (.pointer elem) rest, v :: vals =>
    (if field.exported then
      match v with
      | .pointer n => effective h elem n
      | _ => []
     else []) ++ effectiveFields h rest vals
  | .cons field (.basic _ _ _) rest, v :: vals =>
    (match v with
      | .handle (.addImpl a) => [(StructTag_Get field.Tag idTag, h.read a.parentAttrs)]
      | .handle (.recordImpl r) => [(StructTag_Get field.Tag idTag, h.read r.attrs)]
      | _ => []) ++ effectiveFields h rest vals
  | _, _ => []
end

/-- The effective attribute lists of the leaves after a call of `Init` on the blueprint `T`
with outcome `r`: what the handles of the returned tree hold in the heap the call leaves. -/
def boundAttributes (T : GoType) (r : Flow (Option Value × Option GoString) × World) :
    List (GoString × List KeyValue) :=
  match r.1 with
  | .ret (some tree, _) => effective r.2.heap T tree
  | _ => []

/-! ## Lemmas on heaps and traces -/

theorem Heap.array_set_eq (h : Heap) (i : Nat) (a : List KeyValue) (hi : i < h.length) :
    Heap.array (h.set i a) i = a := by
  simp [Heap.array, hi]

theorem Heap.array_set_ne (h : Heap) (i j : Nat) (a : List KeyValue) (hij : j ≠ i) :
    Heap.array (h.set i a) j = Heap.array h j := by
  simp [Heap.array, List.getElem?_set_ne (Ne.symm hij)]

theorem Heap.array_append_lt (h : Heap) (a : List KeyValue) (i : Nat) (hi : i < h.length) :
    Heap.array (h ++ [a]) i = Heap.array h i := by
  simp [Heap.array, List.getElem?_append_left hi]

theorem Heap.array_append_length (h : Heap) (a : List KeyValue) :
    Heap.array (h ++ [a]) h.length = a := by
  simp [Heap.array]

/-- A heap is framed by itself. -/
theorem Frame.same (s : Slice) (h : Heap) : Frame s h h :=
  ⟨le_refl _, fun _ _ => ⟨rfl, fun _ => rfl, rfl⟩⟩

/-- Frames for the same slice compose. -/
theorem Frame.compose {s : Slice} {h1 h2 h3 : Heap} (a : Frame s h1 h2) (b : Frame s h2 h3) :
    Frame s h1 h3 := by
  refine ⟨le_trans a.1 b.1, fun i hi => ?_⟩
  have ha := a.2 i hi
  have hb := b.2 i (lt_of_lt_of_le hi a.1)
  refine ⟨hb.1.trans ha.1, fun hne => (hb.2.1 hne).trans (ha.2.1 hne), hb.2.2.trans ha.2.2⟩

/-- A frame keeps the slice well-formed. -/
theorem Frame.valid {s : Slice} {h1 h2 : Heap} (a : Frame s h1 h2) (hv : s.valid h1) :
    s.valid h2 := by
  obtain ⟨h1a, h1b, h1c⟩ := hv
  refine ⟨lt_of_lt_of_le h1a a.1, h1b, ?_⟩
  rw [(a.2 s.arr h1a).1]
  exact h1c

/-- A frame keeps what the slice reads. -/
theorem Frame.read {s : Slice} {h1 h2 : Heap} (a : Frame s h1 h2) (hv : s.valid h1) :
    h2.read s = h1.read s :=
  (a.2 s.arr hv.1).2.2

/-- A frame for a slice `e` that extends `s` in place, or lives in an array allocated later,
is a frame for `s`. -/
theorem Frame.extend {s e : Slice} {h h1 h3 : Heap} (a : Frame s h h1) (b : Frame e h1 h3)
    (hx : (e.arr = s.arr ∧ s.len ≤ e.len) ∨ h.length ≤ e.arr) : Frame s h h3 := by
  refine ⟨le_trans a.1 b.1, fun i hi => ?_⟩
  have ha := a.2 i hi
  have hb := b.2 i (lt_of_lt_of_le hi a.1)
  refine ⟨hb.1.trans ha.1, fun hne => ?_, ?_⟩
  · have hne2 : i ≠ e.arr := by
      rcases hx with ⟨h1, _⟩ | h2
      · rw [h1]; exact hne
      · omega
    exact (hb.2.1 hne2).trans (ha.2.1 hne)
  · by_cases hie : i = e.arr
    · rcases hx with ⟨_, h2⟩ | h2
      · have := congrArg (List.take s.len) hb.2.2
        rw [List.take_take, List.take_take, Nat.min_eq_left h2] at this
        exact this.trans ha.2.2
      · omega
    · rw [hb.2.1 hie]
      exact ha.2.2

/-- What `append` guarantees on a well-formed slice: the result is well-formed and reads the
old elements followed by the new ones, the heap is framed for the old slice, and so is every
heap framed for the result. -/
theorem goAppend_spec (g : Nat → Nat → Nat) (h : Heap) (s : Slice) (xs : List KeyValue)
    (hv : s.valid h) :
    (goAppend g h s xs).1.valid (goAppend g h s xs).2 ∧
    (goAppend g h s xs).2.read (goAppend g h s xs).1 = h.read s ++ xs ∧
    Frame s h (goAppend g h s xs).2 ∧
    ∀ h3, Frame (goAppend g h s xs).1 (goAppend g h s xs).2 h3 → Frame s h h3 := by
  obtain ⟨hv1, hv2, hv3⟩ := hv
  have hlen : (List.take s.len (h.array s.arr)).length = s.len := by
    rw [List.length_take]; omega
  unfold goAppend
  by_cases hc : s.len + xs.length ≤ s.cap
  · simp only [hc, if_true]
    have hF : Frame s h (h.set s.arr (List.take s.len (h.array s.arr) ++ xs
        ++ List.drop (s.len + xs.length) (h.array s.arr))) := by
      refine ⟨by simp, fun i hi => ?_⟩
      by_cases hi2 : i = s.arr
      · subst hi2
        rw [Heap.array_set_eq _ _ _ hi]
        refine ⟨?_, fun hne => absurd rfl hne, ?_⟩
        · simp only [List.length_append, List.length_drop, hlen]; omega
        · rw [List.append_assoc, List.take_left' hlen]
      · rw [Heap.array_set_ne _ _ _ _ hi2]
        exact ⟨rfl, fun _ => rfl, rfl⟩
    refine ⟨?_, ?_, hF, fun h3 hb => Frame.extend hF hb (Or.inl ⟨rfl, by simp⟩)⟩
    · refine ⟨by simpa using hv1, hc, ?_⟩
      simp only [Heap.array_set_eq _ _ _ hv1, List.length_append, List.length_drop, hlen]
      omega
    · simp only [Heap.read, Heap.array_set_eq _ _ _ hv1]
      rw [List.take_left']
      simp [hlen]
  · simp only [hc, if_false]
    have hF : Frame s h (h ++ [h.read s ++ xs ++ List.replicate
        (max (g s.cap (s.len + xs.length)) (s.len + xs.length) - (s.len + xs.length))
        KeyValue.zero]) := by
      refine ⟨by simp, fun i hi => ?_⟩
      rw [Heap.array_append_lt _ _ _ hi]
      exact ⟨rfl, fun _ => rfl, rfl⟩
    refine ⟨?_, ?_, hF, fun h3 hb => Frame.extend hF hb (Or.inr (le_refl _))⟩
    · refine ⟨by simp, le_max_right _ _, ?_⟩
      simp only [Heap.array_append_length, List.length_append, List.length_replicate, Heap.read,
        hlen]
      omega
    · simp only [Heap.read, Heap.array_append_length]
      rw [List.take_left']
      simp [hlen]

/-- The bindings of a concatenated trace. -/
theorem dispatched_append (a b : List Event) :
    dispatched (a ++ b) = dispatched a ++ dispatched b := by
  induction a with
  | nil => rfl
  | cons e a ih => cases e <;> simp [dispatched, ih]

theorem Quiet.here (w : World) : Quiet w w := ⟨rfl, rfl⟩

theorem Quiet.andThen {w1 w2 w3 : World} (a : Quiet w1 w2) (b : Quiet w2 w3) : Quiet w1 w3 :=
  ⟨b.1.trans a.1, b.2.trans a.2⟩

theorem Quiet.log_resolve (w : World) (f t : GoString) : Quiet w (w.log (.resolve f t)) := by
  simp [Quiet, World.log, dispatched_append, dispatched]

theorem provider.create_quiet (p : provider) (call : MeterCall) (w : World) :
    Quiet w (p.create call w).2 := by
  unfold provider.create
  cases p.m (backendCalls w.trace) call <;>
    simp [Quiet, World.log, dispatched_append, dispatched]

theorem provider.i64c_quiet (p : Option provider) (kind id : GoString) (attrs : Slice)
    (w : World) : Quiet w (provider.i64c p kind id attrs w).2 := by
  unfold provider.i64c
  cases p with
  | none => exact Quiet.here w
  | some prov =>
    simp only []
    split_ifs
    · have := provider.create_quiet prov (.Int64Counter id) w
      revert this
      cases prov.create (.Int64Counter id) w with
      | mk r w2 => cases r with | mk b e => cases e <;> exact fun h => h
    · have := provider.create_quiet prov (.Int64UpDownCounter id) w
      revert this
      cases prov.create (.Int64UpDownCounter id) w with
      | mk r w2 => cases r with | mk b e => cases e <;> exact fun h => h
    · exact Quiet.here w

theorem provider.f64c_quiet (p : Option provider) (kind id : GoString) (attrs : Slice)
    (w : World) : Quiet w (provider.f64c p kind id attrs w).2 := by
  unfold provider.f64c
  cases p with
  | none => exact Quiet.here w
  | some prov =>
    simp only []
    split_ifs
    · have := provider.create_quiet prov (.Float64Counter id) w
      revert this
      cases prov.create (.Float64Counter id) w with
      | mk r w2 => cases r with | mk b e => cases e <;> exact fun h => h
    · have := provider.create_quiet prov (.Float64UpDownCounter id) w
      revert this
      cases prov.create (.Float64UpDownCounter id) w with
      | mk r w2 => cases r with | mk b e => cases e <;> exact fun h => h
    · exact Quiet.here w

theorem provider.i64r_quiet (p : Option provider) (kind id : GoString) (bounds : List Float64)
    (attrs : Slice) (w : World) : Quiet w (provider.i64r p kind id bounds attrs w).2 := by
  unfold provider.i64r
  cases p with
  | none => exact Quiet.here w
  | some prov =>
    simp only []
    split_ifs
    · have := provider.create_quiet prov (.Int64Gauge id) w
      revert this
      cases prov.create (.Int64Gauge id) w with
      | mk r w2 => cases r with | mk b e => cases e <;> exact fun h => h
    · have := provider.create_quiet prov (.Int64Histogram id bounds) w
      revert this
      cases prov.create (.Int64Histogram id bounds) w with
      | mk r w2 => cases r with | mk b e => cases e <;> exact fun h => h
    · exact Quiet.here w

theorem provider.f64r_quiet (p : Option provider) (kind id : GoString) (bounds : List Float64)
    (attrs : Slice) (w : World) : Quiet w (provider.f64r p kind id bounds attrs w).2 := by
  unfold provider.f64r
  cases p with
  | none => exact Quiet.here w
  | some prov =>
    simp only []
    split_ifs
    · have := provider.create_quiet prov (.Float64Gauge id) w
      revert this
      cases prov.create (.Float64Gauge id) w with
      | mk r w2 => cases r with | mk b e => cases e <;> exact fun h => h
    · have := provider.create_quiet prov (.Float64Histogram id bounds) w
      revert this
      cases prov.create (.Float64Histogram id bounds) w with
      | mk r w2 => cases r with | mk b e => cases e <;> exact fun h => h
    · exact Quiet.here w

theorem initializeByKind.finish_world (kind : GoString)
    (r : (Option Handle × Option GoString) × World) :
    (initializeByKind.finish kind r).2 = r.2 := by
  obtain ⟨⟨v, e⟩, w⟩ := r
  cases e <;> cases v <;> rfl

theorem extractTag_world {T : Type} [Inhabited T] (tag : GoString) (f : StructField)
    (fn : StructField → T × Option GoString) (w : World) :
    (extractTag tag f fn w).2 = w.log (.resolve f.Name tag) := by
  unfold extractTag
  rcases fn f with ⟨v, _ | e⟩ <;> rfl

theorem extractTag_fst {T : Type} [Inhabited T] (tag : GoString) (f : StructField)
    (fn : StructField → T × Option GoString) (w : World) :
    (extractTag tag f fn w).1 =
      (match (fn f).2 with | some err => (default, some err) | none => ((fn f).1, none)) := by
  unfold extractTag
  rcases fn f with ⟨v, _ | e⟩ <;> rfl

/-- The bindings `initializeByKind` records: either exactly one, of the field's `id` tag with
the elements of `attrs`, or none, and then it returns an error. -/
theorem initializeByKind_dispatched (env : Env) (t kind : GoString) (field : StructField)
    (attrs : Slice) (w : World) :
    (initializeByKind env t kind field attrs w).2.heap = w.heap ∧
    (dispatched (initializeByKind env t kind field attrs w).2.trace
        = dispatched w.trace ++ [(StructTag_Get field.Tag idTag, w.heap.read attrs)] ∨
     (dispatched (initializeByKind env t kind field attrs w).2.trace = dispatched w.trace ∧
      ∃ e, (initializeByKind env t kind field attrs w).1 = (none, some e))) := by
  have hq := Quiet.log_resolve w field.Name idTag
  by_cases hid : StructTag_Get field.Tag idTag = []
  · refine ⟨?_, Or.inr ⟨?_, ?_⟩⟩ <;>
      simp [initializeByKind, extractTag, getID, hid, hq.1, hq.2]
  · have hD : ∀ (fn : Dispatcher) (k : GoString) (b : List Float64) (w1 w2 : World) (x : Prop),
        Quiet w w1 →
        Quiet (w1.log (.dispatch fn k (StructTag_Get field.Tag idTag) b (w1.heap.read attrs)))
          w2 →
        w2.heap = w.heap ∧ (dispatched w2.trace
          = dispatched w.trace ++ [(StructTag_Get field.Tag idTag, w.heap.read attrs)] ∨ x) := by
      intro fn k b w1 w2 x q1 q2
      refine ⟨q2.1.trans q1.1, Or.inl ?_⟩
      rw [q2.2]
      simp [World.log, dispatched_append, dispatched, q1.1, q1.2]
    simp only [initializeByKind, extractTag, getID, hid, if_false]
    by_cases hk1 : kind = counter ∨ kind = upDownCounter
    · simp only [hk1, if_true]
      by_cases ht : t = i64Type
      · simp only [ht, if_true, initializeByKind.finish_world]
        exact hD _ _ _ _ _ _ hq (provider.i64c_quiet _ _ _ _ _)
      · simp only [ht, if_false, initializeByKind.finish_world]
        exact hD _ _ _ _ _ _ hq (provider.f64c_quiet _ _ _ _ _)
    · simp only [hk1, if_false]
      by_cases hk2 : kind = gauge ∨ kind = histogram
      · simp only [hk2, if_true]
        by_cases hk3 : kind = histogram
        · simp only [hk3, if_true]
          have hq2 := hq.andThen (Quiet.log_resolve (w.log (.resolve field.Name idTag))
            field.Name bucketsTag)
          rcases hb : getBounds env.lib field with ⟨bounds, _ | e⟩
          · simp only []
            by_cases ht : t = i64Type
            · simp only [ht, if_true, initializeByKind.finish_world]
              exact hD _ _ _ _ _ _ hq2 (provider.i64r_quiet _ _ _ _ _ _)
            · simp only [ht, if_false, initializeByKind.finish_world]
              exact hD _ _ _ _ _ _ hq2 (provider.f64r_quiet _ _ _ _ _ _)
          · exact ⟨hq2.1, Or.inr ⟨hq2.2, _, rfl⟩⟩
        · simp only [hk3, if_false]
          by_cases ht : t = i64Type
          · simp only [ht, if_true, initializeByKind.finish_world]
            exact hD _ _ _ _ _ _ hq (provider.i64r_quiet _ _ _ _ _ _)
          · simp only [ht, if_false, initializeByKind.finish_world]
            exact hD _ _ _ _ _ _ hq (provider.f64r_quiet _ _ _ _ _ _)
      · simp only [hk2, if_false]
        exact ⟨hq.1, Or.inr ⟨hq.2, _, rfl⟩⟩

theorem Post.continue {E1 E2 : List (GoString × List KeyValue)} {s : Slice} {w w1 w2 : World}
    {r2 : Flow (Option GoString)} (a : Post E1 s w (.ret none) w1) (b : Post E2 s w1 r2 w2) :
    Post (E1 ++ E2) s w r2 w2 := by
  obtain ⟨fa, la, pa, da, ea⟩ := a
  obtain ⟨fb, lb, pb, db, eb⟩ := b
  have hla := ea rfl
  subst hla
  refine ⟨fa.compose fb, la ++ lb, (List.prefix_append_right_inj la).mpr pb, ?_, fun h => ?_⟩
  · rw [db, da, List.append_assoc]
  · rw [eb h]

theorem Post.abort {E1 : List (GoString × List KeyValue)} (E2 : List (GoString × List KeyValue))
    {s : Slice} {w w1 : World} {r1 : Flow (Option GoString)} (a : Post E1 s w r1 w1)
    (hr : r1 ≠ .ret none) : Post (E1 ++ E2) s w r1 w1 := by
  obtain ⟨fa, la, pa, da, _⟩ := a
  exact ⟨fa, la, pa.trans (List.prefix_append E1 E2), da, fun h => absurd h hr⟩

theorem Post.quiet {s : Slice} {w w1 : World} (r : Flow (Option GoString)) (q : Quiet w w1)
    (hr : r ≠ .ret none) (E : List (GoString × List KeyValue)) : Post E s w r w1 := by
  refine ⟨?_, [], List.nil_prefix, by simp [q.2], fun h => absurd h hr⟩
  rw [q.1]
  exact Frame.same _ _

theorem Post.after_visit {E : List (GoString × List KeyValue)} {s : Slice} {w w1 : World}
    {r : Flow (Option GoString)} (f : GoString) (h : Post E s (w.log (.visit f)) r w1) :
    Post E s w r w1 := by
  obtain ⟨a, l, p, d, e⟩ := h
  refine ⟨a, l, p, ?_, e⟩
  rw [d]
  simp [World.log, dispatched_append, dispatched]

theorem Post.skip {s : Slice} {w w1 : World} (r : Flow (Option GoString)) (q : Quiet w w1) :
    Post [] s w r w1 := by
  refine ⟨?_, [], List.nil_prefix, by simp [q.2], fun _ => rfl⟩
  rw [q.1]
  exact Frame.same _ _

/-- The leaf branch meets `Post` for the one leaf it is to bind (none if the field implements
no capability set). -/
theorem initRef.leaf_post (env : Env) (sName : GoString) (field : StructField) (kind : Kind)
    (name : GoString) (methods : List Method) (attrs : Slice) (w : World) :
    Post (if implementsOneOf methods supported
          then [Leaf.expected env.lib (w.heap.read attrs) { enclosing := [], field := field }]
          else [])
      attrs w (initRef.leaf env sName field kind name methods attrs w).1
      (initRef.leaf env sName field kind name methods attrs w).2.2 := by
  unfold initRef.leaf
  by_cases hi : implementsOneOf methods supported = true
  · simp only [hi, if_true]
    rcases typeAndKindFor (if name = [] then sName else name) with ⟨t, k⟩ | msg
    · simp only []
      have h := initializeByKind_dispatched env t k field attrs w
      rcases hr : initializeByKind env t k field attrs w with ⟨⟨v, e⟩, w2⟩
      rw [hr] at h
      obtain ⟨hh, hd⟩ := h
      rcases hd with hd | ⟨hd, e2, he2⟩
      · have hF : Frame attrs w.heap w2.heap := by
          simp only [] at hh
          rw [hh]; exact Frame.same _ _
        have hP : ∀ r, Post [Leaf.expected env.lib (w.heap.read attrs)
            { enclosing := [], field := field }] attrs w r w2 := fun r =>
          ⟨hF, _, List.prefix_refl _, by simpa [Leaf.expected, pathAttrs] using hd, fun _ => rfl⟩
        rcases v with _ | val <;> rcases e with _ | e
        · exact hP (.panic _)
        · exact hP (.ret _)
        · simp only []
          split_ifs
          · exact hP (.ret none)
          · exact hP (.panic _)
        · exact hP (.ret _)
      · simp only [Prod.mk.injEq] at he2
        obtain ⟨hv, he⟩ := he2
        subst hv he
        exact Post.quiet _ ⟨hh, hd⟩ (by simp) _
    · exact Post.quiet _ (Quiet.here w) (by simp) _
  · simp only [hi]
    exact Post.skip _ (Quiet.here w)

/-- The sub-tree branch meets `Post` for the leaves of the sub-tree, expected over the inherited
elements followed by the field's own `attrs`, if the recursive call meets `Post`. -/
theorem initRef.subtree_post (env : Env) (field : StructField) (isPtr : Bool) (attrs : Slice)
    (w : World) (recur : Slice → World → Flow (Option GoString) × Value × World)
    (E : List KeyValue → List (GoString × List KeyValue)) (hv : attrs.valid w.heap)
    (hrec : ∀ e w1, e.valid w1.heap →
      Post (E (w1.heap.read e)) e w1 (recur e w1).1 (recur e w1).2.2) :
    Post (E (w.heap.read attrs ++ (getAttrs env.lib field).1)) attrs w
      (initRef.subtree env field isPtr attrs w recur).1
      (initRef.subtree env field isPtr attrs w recur).2.2 := by
  unfold initRef.subtree
  have hq := Quiet.log_resolve w field.Name attrsTag
  simp only [extractTag]
  rcases hg : getAttrs env.lib field with ⟨inner, _ | err⟩
  · simp only []
    have hv1 : attrs.valid (w.log (.resolve field.Name attrsTag)).heap := by rw [hq.1]; exact hv
    obtain ⟨g1, g2, g3, g4⟩ := goAppend_spec env.growslice _ attrs inner hv1
    rcases ha : goAppend env.growslice (w.log (.resolve field.Name attrsTag)).heap attrs inner
      with ⟨e, h1⟩
    rw [ha] at g1 g2 g3 g4
    simp only [] at g1 g2 g3 g4 ⊢
    have hp := hrec e { w.log (.resolve field.Name attrsTag) with heap := h1 } g1
    simp only [g2, hq.1] at hp
    obtain ⟨f1, l, p1, d1, e1⟩ := hp
    have f2 : Frame attrs w.heap h1 := by rw [← hq.1]; exact g3
    have hP : ∀ r, (r = Flow.ret none →
        (recur e { w.log (.resolve field.Name attrsTag) with heap := h1 }).1 = .ret none) →
        Post (E (w.heap.read attrs ++ inner)) attrs w r
          (recur e { w.log (.resolve field.Name attrsTag) with heap := h1 }).2.2 := by
      intro r hr
      refine ⟨?_, l, p1, ?_, fun h => e1 (hr h)⟩
      · have := g4 _ f1
        rw [hq.1] at this
        exact this
      · rw [d1]
        simp [World.log, dispatched_append, dispatched]
    rcases hr : recur e { w.log (.resolve field.Name attrsTag) with heap := h1 }
      with ⟨(_ | err) | msg, n, w2⟩
    all_goals
      rw [hr] at hP
      simp only [] at hP ⊢
    · exact hP _ (by simp)
    · exact hP _ (by simp)
    · exact hP _ (by simp)
  · exact Post.quiet _ hq (by simp) _

theorem Leaf.expected_under (lib : Stdlib) (acc : List KeyValue) (f : StructField) (l : Leaf) :
    Leaf.expected lib acc (l.under f) = Leaf.expected lib (acc ++ (getAttrs lib f).1) l := by
  simp [Leaf.expected, Leaf.under, pathAttrs, List.append_assoc]

/-- One round of the loop followed by the rest of the loop meets `Post`. -/
theorem initRef.loop_step (env : Env) (sName : GoString) (rest : FieldList) (s : Slice)
    (w : World) (E1 : List (GoString × List KeyValue))
    (b : Flow (Option GoString) × Value × World) (hv : s.valid w.heap)
    (hb : Post E1 s w b.1 b.2.2)
    (hrest : ∀ w1, s.valid w1.heap →
      Post ((leavesOfFields rest).map (Leaf.expected env.lib (w1.heap.read s))) s w1
        (initRef.loop env sName rest s w1).1 (initRef.loop env sName rest s w1).2.2) :
    Post (E1 ++ (leavesOfFields rest).map (Leaf.expected env.lib (w.heap.read s))) s w
      (match b with
        | (.ret none, v, w) =>
          match initRef.loop env sName rest s w with
          | (r, vals, w) => (r, v :: vals, w)
        | (r, v, w) => (r, v :: zeroValues rest, w)).1
      (match b with
        | (.ret none, v, w) =>
          match initRef.loop env sName rest s w with
          | (r, vals, w) => (r, v :: vals, w)
        | (r, v, w) => (r, v :: zeroValues rest, w)).2.2 := by
  obtain ⟨(_ | err) | msg, v, w1⟩ := b
  · simp only [] at hb ⊢
    have h2 := hrest w1 (hb.1.valid hv)
    rw [hb.1.read hv] at h2
    exact Post.continue hb h2
  · exact Post.abort _ hb (by simp)
  · exact Post.abort _ hb (by simp)

mutual
/-- The walk meets `Post` for the leaves of the type it is called on. -/
theorem initRef_post (env : Env) : ∀ (T : GoType) (s : Slice) (w : World), s.valid w.heap →
    Post ((leaves T).map (Leaf.expected env.lib (w.heap.read s))) s w
      (initRef env T s w).1 (initRef env T s w).2.2
  | .struct name fields, s, w, hv => by
    have := initRef.loop_post env name fields s w hv
    simpa only [initRef, leaves] using this
  | .pointer _, s, w, _ => by
    simp only [initRef, leaves, List.map_nil]
    exact Post.quiet _ (Quiet.here w) (by simp) _
  | .basic _ _ _, s, w, _ => by
    simp only [initRef, leaves, List.map_nil]
    exact Post.quiet _ (Quiet.here w) (by simp) _
/-- The loop meets `Post` for the leaves of its fields. -/
theorem initRef.loop_post (env : Env) (sName : GoString) :
    ∀ (fs : FieldList) (s : Slice) (w : World), s.valid w.heap →
    Post ((leavesOfFields fs).map (Leaf.expected env.lib (w.heap.read s))) s w
      (initRef.loop env sName fs s w).1 (initRef.loop env sName fs s w).2.2
  | .nil, s, w, _ => by
    simp only [initRef.loop, leavesOfFields, List.map_nil]
    exact Post.skip _ (Quiet.here w)
  | .cons field (.struct name fields) rest, s, w, hv => by
    by_cases hx : field.exported = true
    · have hb := Post.after_visit field.Name (initRef.subtree_post env field false s
        (w.log (.visit field.Name)) (fun e w1 => initRef env (.struct name fields) e w1)
        (fun acc => (leaves (.struct name fields)).map (Leaf.expected env.lib acc)) hv
        (fun e w1 he => initRef_post env (.struct name fields) e w1 he))
      have := initRef.loop_step env sName rest s w _ _ hv hb
        (fun w1 h1 => initRef.loop_post env sName rest s w1 h1)
      simpa [initRef.loop, leavesOfFields, hx, Leaf.expected_under, Function.comp_def]
        using this
    · have := initRef.loop_post env sName rest s w hv
      simpa [initRef.loop, leavesOfFields, hx] using this
  | .cons field (.pointer elem) rest, s, w, hv => by
    by_cases hx : field.exported = true
    · have hb := Post.after_visit field.Name (initRef.subtree_post env field true s
        (w.log (.visit field.Name)) (fun e w1 => initRef env elem e w1)
        (fun acc => (leaves elem).map (Leaf.expected env.lib acc)) hv
        (fun e w1 he => initRef_post env elem e w1 he))
      have := initRef.loop_step env sName rest s w _ _ hv hb
        (fun w1 h1 => initRef.loop_post env sName rest s w1 h1)
      simpa [initRef.loop, leavesOfFields, hx, Leaf.expected_under, Function.comp_def]
        using this
    · have := initRef.loop_post env sName rest s w hv
      simpa [initRef.loop, leavesOfFields, hx] using this
  | .cons field (.basic kind name methods) rest, s, w, hv => by
    by_cases hx : field.exported = true
    · have hb := Post.after_visit field.Name
        (initRef.leaf_post env sName field kind name methods s (w.log (.visit field.Name)))
      have := initRef.loop_step env sName rest s w _ _ hv hb
        (fun w1 h1 => initRef.loop_post env sName rest s w1 h1)
      by_cases hi : implementsOneOf methods supported = true
      · simpa [initRef.loop, leavesOfFields, hx, hi] using this
      · simpa [initRef.loop, leavesOfFields, hx, hi] using this
    · have := initRef.loop_post env sName rest s w hv
      simpa [initRef.loop, leavesOfFields, hx] using this
end

/-! ## The attributes a leaf is bound with -/

theorem callerSlice_valid (base spare : List KeyValue) :
    (callerSlice base spare).1.valid (callerSlice base spare).2.heap := by
  simp [callerSlice, Slice.valid, Heap.array]

theorem callerSlice_read (base spare : List KeyValue) :
    (callerSlice base spare).2.heap.read (callerSlice base spare).1 = base := by
  simp [callerSlice, Heap.read, Heap.array]

theorem Init_world (env : Env) (T : GoType) (s : Slice) (w : World) :
    (Init env T s w).2 = (initRef env T s w).2.2 := by
  unfold Init
  rcases initRef env T s w with ⟨(_ | err) | msg, v, w2⟩ <;> rfl

theorem Init_ok (env : Env) (T : GoType) (s : Slice) (w : World) (tree : Value)
    (h : (Init env T s w).1 = .ret (some tree, none)) : (initRef env T s w).1 = .ret none := by
  unfold Init at h
  rcases hr : initRef env T s w with ⟨(_ | err) | msg, v, w2⟩ <;> rw [hr] at h <;> simp at h ⊢

/-- The attributes at the moment of binding. For every blueprint `T`, every environment and
every caller slice (elements `base`, any spare capacity), the bindings `Init` makes are, in
order, those of the first leaves of `T` in depth-first declaration order, each leaf being
handed, at the moment it is bound, a slice that reads exactly `base` followed by the `attrs`
tags of its enclosing sub-tree fields from the root down (nothing of a sibling sub-tree,
nothing of the leaf's own `attrs` tag); when `Init` succeeds every leaf is bound so. What the
slice reads once later fields are bound is another matter. -/
theorem Init_leaf_attributes (env : Env) (T : GoType) (base spare : List KeyValue) :
    dispatched (InitWith env T base spare).2.trace
        <+: (leaves T).map (Leaf.expected env.lib base) ∧
    ∀ tree, (InitWith env T base spare).1 = .ret (some tree, none) →
      dispatched (InitWith env T base spare).2.trace
        = (leaves T).map (Leaf.expected env.lib base) := by
  have hp := initRef_post env T _ _ (callerSlice_valid base spare)
  rw [callerSlice_read] at hp
  obtain ⟨_, l, p, d, e⟩ := hp
  have hd : dispatched (InitWith env T base spare).2.trace = l := by
    rw [InitWith, Init_world, d]
    simp [callerSlice, dispatched]
  refine ⟨hd ▸ p, fun tree ht => ?_⟩
  rw [hd]
  exact e (Init_ok env T _ _ tree ht)

/-- The scenario: Counter `A` at the root and Gauge `B` inside a sub-tree tagged `sub,x`, bound
with `layer=1`: `A` is bound with `[layer=1]` and `B` with `[layer=1, sub=x]`. -/
theorem Init_leaf_attributes_scenario :
    (∃ tree, (InitWith envLive scenario [kv "layer" "1"] []).1 = .ret (some tree, none)) ∧
    dispatched (InitWith envLive scenario [kv "layer" "1"] []).2.trace
      = [(str "A", [kv "layer" "1"]), (str "B", [kv "layer" "1", kv "sub" "x"])] :=
  ⟨⟨_, rfl⟩, ((Init_leaf_attributes envLive scenario [kv "layer" "1"] []).2 _ rfl).trans
    (by decide)⟩

/-! ## Sharing of the attribute array, panics, and the handles -/

/-- C1, at the failing input. The attribute lists held by the handles of the tree `Init`
returns are not those of the claim. On `deepSiblings`, bound through a provider with the one
base attribute `layer=1` in a slice without spare capacity, on a runtime that doubles
capacities, the leaf `C` under the sub-tree tagged `c,3` holds `[layer=1, a=1, b=2, c=4]`: the
attribute of its sibling sub-tree and not its own. On `siblings`, bound with `layer=1` in a
slice of capacity 2, the leaf `C` under the sub-tree tagged `sub,a` holds `[layer=1, sub=b]`.
On `scenario` the lists held are those of the claim. -/
theorem Init_leaf_effective_attributes :
    (boundAttributes deepSiblings (InitWith envDoubling deepSiblings [kv "layer" "1"] [])
      = [(str "x", [kv "layer" "1", kv "a" "1", kv "b" "2", kv "c" "4"]),
         (str "y", [kv "layer" "1", kv "a" "1", kv "b" "2", kv "c" "4"])] ∧
     (leaves deepSiblings).map (Leaf.expected envDoubling.lib [kv "layer" "1"])
      = [(str "x", [kv "layer" "1", kv "a" "1", kv "b" "2", kv "c" "3"]),
         (str "y", [kv "layer" "1", kv "a" "1", kv "b" "2", kv "c" "4"])]) ∧
    (boundAttributes siblings (InitWith envLive siblings [kv "layer" "1"] [KeyValue.zero])
      = [(str "a", [kv "layer" "1", kv "sub" "b"]), (str "b", [kv "layer" "1", kv "sub" "b"])] ∧
     (leaves siblings).map (Leaf.expected envLive.lib [kv "layer" "1"])
      = [(str "a", [kv "layer" "1", kv "sub" "a"]),
         (str "b", [kv "layer" "1", kv "sub" "b"])]) ∧
    (boundAttributes scenario (InitWith envLive scenario [kv "layer" "1"] [])
      = [(str "A", [kv "layer" "1"]), (str "B", [kv "layer" "1", kv "sub" "x"])] ∧
     (leaves scenario).map (Leaf.expected envLive.lib [kv "layer" "1"])
      = [(str "A", [kv "layer" "1"]), (str "B", [kv "layer" "1", kv "sub" "x"])]) := by
  refine ⟨⟨by decide, by decide⟩, ⟨by decide, by decide⟩, ⟨by decide, by decide⟩⟩

/-- C2, at the failing input: `siblings` bound with a provider on the caller slice `[layer=1]`
of capacity 2. Both sub-trees extend the inherited slice in place, in the same array slot: the
leaf `C` of the first sibling is bound with `[layer=1, sub=a]`, but after `Init` has returned
the slice its handle holds reads `[layer=1, sub=b]`, and that is what its `Add` sends. The same
happens without spare capacity in the caller slice once the runtime has doubled a capacity:
on `deepSiblings` bound with `[layer=1]` the leaf `C`, bound with `c=3`, ends up reading
`c=4`. -/
theorem Init_siblings_overwrite :
    ((InitWith envLive siblings [kv "layer" "1"] [KeyValue.zero]).1
      = .ret (some (.struct [
          .struct [.handle (.addImpl { T := .I64, baseAdd := some 0,
                                       parentAttrs := { arr := 0, len := 2, cap := 2 } })],
          .struct [.handle (.addImpl { T := .I64, baseAdd := some 1,
                                       parentAttrs := { arr := 0, len := 2, cap := 2 } })]]),
          none) ∧
    dispatched (InitWith envLive siblings [kv "layer" "1"] [KeyValue.zero]).2.trace
      = [(str "a", [kv "layer" "1", kv "sub" "a"]), (str "b", [kv "layer" "1", kv "sub" "b"])] ∧
    (InitWith envLive siblings [kv "layer" "1"] [KeyValue.zero]).2.heap.read
        { arr := 0, len := 2, cap := 2 } = [kv "layer" "1", kv "sub" "b"] ∧
    measurements (addImpl.Add
        { T := .I64, baseAdd := some 0, parentAttrs := { arr := 0, len := 2, cap := 2 } }
        (.i64 1) [] (InitWith envLive siblings [kv "layer" "1"] [KeyValue.zero]).2).2.trace
      = [.Add 0 .Background (.i64 1) [.WithAttributes [kv "layer" "1", kv "sub" "b"]]]) ∧
    ((InitWith envDoubling deepSiblings [kv "layer" "1"] []).1
      = .ret (some (.struct [.struct [.struct [
          .struct [.handle (.addImpl { T := .I64, baseAdd := some 0,
                                       parentAttrs := { arr := 2, len := 4, cap := 4 } })],
          .struct [.handle (.addImpl { T := .I64, baseAdd := some 1,
                                       parentAttrs := { arr := 2, len := 4, cap := 4 } })]]]]),
          none) ∧
    dispatched (InitWith envDoubling deepSiblings [kv "layer" "1"] []).2.trace
      = [(str "x", [kv "layer" "1", kv "a" "1", kv "b" "2", kv "c" "3"]),
         (str "y", [kv "layer" "1", kv "a" "1", kv "b" "2", kv "c" "4"])] ∧
    (InitWith envDoubling deepSiblings [kv "layer" "1"] []).2.heap.read
        { arr := 2, len := 4, cap := 4 }
      = [kv "layer" "1", kv "a" "1", kv "b" "2", kv "c" "4"]) := by
  refine ⟨⟨rfl, by decide, by decide, by decide⟩, ⟨rfl, by decide, by decide⟩⟩

/-- C9. With no provider configured each dispatcher returns a no-op handle of its numeric
domain and no error, for every kind, identifier, boundary list and attribute slice, and leaves
the state (heap and trace, hence no backend call) as it was; every `Add`, `AddCtx`, `Record`
and `RecordCtx` on a no-op handle returns and leaves the state as it was. -/
theorem nilProvider_noop (kind id : GoString) (bounds : List Float64) (attrs : Slice)
    (w : World) (n2 : nilProv) (ctx : Context) (n : Num) (opts : List MeasurementOption) :
    provider.i64c none kind id attrs w = ((some (.nilProv { T := .I64 }), none), w) ∧
    provider.f64c none kind id attrs w = ((some (.nilProv { T := .F64 }), none), w) ∧
    provider.i64r none kind id bounds attrs w = ((some (.nilProv { T := .I64 }), none), w) ∧
    provider.f64r none kind id bounds attrs w = ((some (.nilProv { T := .F64 }), none), w) ∧
    n2.Add n opts w = (.ret (), w) ∧ n2.AddCtx ctx n opts w = (.ret (), w) ∧
    n2.Record n opts w = (.ret (), w) ∧ n2.RecordCtx ctx n opts w = (.ret (), w) :=
  ⟨rfl, rfl, rfl, rfl, rfl, rfl, rfl, rfl⟩

/-- C10. A live handle (its backend instrument is `inst`) whose slice reads `A` makes, on
`AddCtx` / `RecordCtx`, exactly one call on that instrument, with the same context and value
and the options `WithAttributes(A)` followed by `opts`; `Add` and `Record` are the same with the
background context; the heap, and so the list the handle reads, is unchanged. -/
theorem handle_forwards (T : Domain) (inst : Nat) (s : Slice) (ctx : Context) (n : Num)
    (opts : List MeasurementOption) (w : World) :
    addImpl.AddCtx { T := T, baseAdd := some inst, parentAttrs := s } ctx n opts w
      = (.ret (), { heap := w.heap, trace := w.trace ++
          [.Add inst ctx n (.WithAttributes (w.heap.read s) :: opts)] }) ∧
    addImpl.Add { T := T, baseAdd := some inst, parentAttrs := s } n opts w
      = addImpl.AddCtx { T := T, baseAdd := some inst, parentAttrs := s } .Background n opts w ∧
    recordImpl.RecordCtx { T := T, baseRecord := some inst, attrs := s } ctx n opts w
      = (.ret (), { heap := w.heap, trace := w.trace ++
          [.Record inst ctx n (.WithAttributes (w.heap.read s) :: opts)] }) ∧
    recordImpl.Record { T := T, baseRecord := some inst, attrs := s } n opts w
      = recordImpl.RecordCtx { T := T, baseRecord := some inst, attrs := s } .Background n
          opts w ∧
    (addImpl.AddCtx { T := T, baseAdd := some inst, parentAttrs := s } ctx n opts w).2.heap.read s
      = w.heap.read s ∧
    (recordImpl.RecordCtx { T := T, baseRecord := some inst, attrs := s } ctx n opts w).2.heap.read
      s = w.heap.read s :=
  ⟨rfl, rfl, rfl, rfl, rfl, rfl⟩

/-! ## The tag resolvers -/

theorem Split_ne_nil (s : GoString) (sep : Nat) : Split s sep ≠ [] := by
  induction s with
  | nil => simp [Split]
  | cons c rest ih =>
    unfold Split
    split_ifs
    · simp
    · rcases h : Split rest sep with _ | ⟨tok, toks⟩
      · exact absurd h ih
      · simp

theorem getAttrs.loop_acc (lib : Stdlib) (n : Nat) :
    ∀ (toks : List GoString) (acc : List KeyValue), toks.length ≤ n →
      getAttrs.loop lib toks acc = acc ++ getAttrs.loop lib toks [] := by
  induction n with
  | zero =>
    intro toks acc h
    have : toks = [] := List.length_eq_zero.mp (Nat.le_zero.mp h)
    subst this
    simp [getAttrs.loop]
  | succ n ih =>
    intro toks acc h
    rcases toks with _ | ⟨k, _ | ⟨v, rest⟩⟩
    · simp [getAttrs.loop]
    · simp [getAttrs.loop]
    · have hr : rest.length ≤ n := by simp at h; omega
      rw [getAttrs.loop, ih rest _ hr, getAttrs.loop, ih rest ([] ++ _) hr]
      simp

/-- The attributes the loop of `getAttrs` builds from `2 * n` tokens: `n` of them, the `i`-th
made of the trimmed tokens `2 * i` and `2 * i + 1`. -/
theorem getAttrs.loop_even (lib : Stdlib) (n : Nat) :
    ∀ (toks : List GoString), toks.length = 2 * n →
      (getAttrs.loop lib toks []).length = n ∧
      ∀ i, i < n → (getAttrs.loop lib toks [])[i]? =
        some (attribute_String (lib.TrimSpace (toks.getD (2 * i) []))
          (lib.TrimSpace (toks.getD (2 * i + 1) []))) := by
  induction n with
  | zero =>
    intro toks h
    have : toks = [] := List.length_eq_zero.mp h
    subst this
    simp [getAttrs.loop]
  | succ n ih =>
    intro toks h
    rcases toks with _ | ⟨k, _ | ⟨v, rest⟩⟩
    · simp at h
    · simp at h; omega
    · have hr : rest.length = 2 * n := by simp at h; omega
      obtain ⟨h1, h2⟩ := ih rest hr
      rw [getAttrs.loop, getAttrs.loop_acc lib _ rest _ (le_refl _)]
      refine ⟨by simp [h1], fun i hi => ?_⟩
      rcases i with _ | i
      · simp
      · have := h2 i (by omega)
        simp only [List.nil_append, List.singleton_append, List.getElem?_cons_succ, this]
        have e1 : 2 * (i + 1) = 2 * i + 1 + 1 := by ring
        rw [e1]
        simp [List.getD_cons_succ]

/-- C4. For every field whose `attrs` tag splits on `','` into `2 * n` tokens, `getAttrs`
returns no error and exactly `n` attributes, the `i`-th being the string attribute of the
trimmed tokens `2 * i` and `2 * i + 1` (tag order, duplicate keys kept); for an absent or empty
tag it returns the empty list and no error. -/
theorem getAttrs_even (lib : Stdlib) (f : StructField) :
    (∀ n, (Split (StructTag_Get f.Tag attrsTag) comma).length = 2 * n →
      (getAttrs lib f).2 = none ∧ (getAttrs lib f).1.length = n ∧
      ∀ i, i < n → (getAttrs lib f).1[i]? =
        some (attribute_String
          (lib.TrimSpace ((Split (StructTag_Get f.Tag attrsTag) comma).getD (2 * i) []))
          (lib.TrimSpace ((Split (StructTag_Get f.Tag attrsTag) comma).getD (2 * i + 1) [])))) ∧
    (StructTag_Get f.Tag attrsTag = [] → getAttrs lib f = ([], none)) := by
  refine ⟨fun n hn => ?_, fun h => by simp [getAttrs, h]⟩
  have hne : StructTag_Get f.Tag attrsTag ≠ [] := by
    intro h
    rw [h] at hn
    simp [Split] at hn
    omega
  have hm : (Split (StructTag_Get f.Tag attrsTag) comma).length % 2 = 0 := by omega
  simp only [getAttrs, hne, if_false, hm, ne_eq, not_true_eq_false]
  exact ⟨trivial, getAttrs.loop_even lib n _ hn⟩

/-- C4 at the tag `"k1,v1,k2,v2"`: four tokens, two attributes `(k1, v1)` and `(k2, v2)`. -/
theorem getAttrs_even_witness :
    (Split (StructTag_Get embedEven.Tag attrsTag) comma).length = 2 * 2 ∧
    ((getAttrs sampleLib embedEven).2 = none ∧ (getAttrs sampleLib embedEven).1.length = 2) ∧
    (getAttrs sampleLib embedEven).1[0]? = some (kv "k1" "v1") ∧
    (getAttrs sampleLib embedEven).1[1]? = some (kv "k2" "v2") :=
  ⟨by decide,
   ⟨((getAttrs_even sampleLib embedEven).1 2 (by decide)).1,
    ((getAttrs_even sampleLib embedEven).1 2 (by decide)).2.1⟩,
   (((getAttrs_even sampleLib embedEven).1 2 (by decide)).2.2 0 (by decide)).trans (by decide),
   (((getAttrs_even sampleLib embedEven).1 2 (by decide)).2.2 1 (by decide)).trans (by decide)⟩

/-- The resolver `getAttrs` fails exactly on an odd `attrs` tag. -/
theorem getAttrs_err_iff (lib : Stdlib) (f : StructField) :
    (getAttrs lib f).2 ≠ none ↔ oddAttrs f = true := by
  unfold getAttrs oddAttrs
  by_cases h : StructTag_Get f.Tag attrsTag = []
  · simp [h]
  · by_cases h2 : (Split (StructTag_Get f.Tag attrsTag) comma).length % 2 = 1
    · simp [h, h2]
    · have : (Split (StructTag_Get f.Tag attrsTag) comma).length % 2 = 0 := by omega
      simp [h, this]

/-- The resolver `getAttrs` returns no attributes with an error. -/
theorem getAttrs_err_nil (lib : Stdlib) (f : StructField) (h : (getAttrs lib f).2 ≠ none) :
    (getAttrs lib f).1 = [] := by
  unfold getAttrs at h ⊢
  by_cases h1 : StructTag_Get f.Tag attrsTag = []
  · simp [h1]
  · by_cases h2 : (Split (StructTag_Get f.Tag attrsTag) comma).length % 2 = 0
    · simp [h1, h2] at h
    · simp [h1, h2]

theorem initRef.subtree_fails (env : Env) (field : StructField) (isPtr : Bool) (attrs : Slice)
    (w : World) (recur : Slice → World → Flow (Option GoString) × Value × World)
    (h : oddAttrs field = true ∨ ∀ e w1, (recur e w1).1 ≠ .ret none) :
    (initRef.subtree env field isPtr attrs w recur).1 ≠ .ret none := by
  unfold initRef.subtree
  simp only [extractTag]
  rcases hg : getAttrs env.lib field with ⟨inner, _ | err⟩
  · have hno : ¬ oddAttrs field = true := by
      rw [← getAttrs_err_iff env.lib, hg]; simp
    rcases h with h | h
    · exact absurd h hno
    · simp only []
      rcases ha : goAppend env.growslice (w.log (.resolve field.Name attrsTag)).heap attrs inner
        with ⟨e, h1⟩
      simp only []
      have := h e { w.log (.resolve field.Name attrsTag) with heap := h1 }
      rcases hr : recur e { w.log (.resolve field.Name attrsTag) with heap := h1 }
        with ⟨(_ | err) | msg, n, w2⟩
      · rw [hr] at this; simp at this
      · simp
      · simp
  · simp

theorem initRef.loop_step_fails (env : Env) (sName : GoString) (rest : FieldList) (s : Slice)
    (b : Flow (Option GoString) × Value × World)
    (h : b.1 ≠ .ret none ∨ ∀ w1, (initRef.loop env sName rest s w1).1 ≠ .ret none) :
    (match b with
      | (.ret none, v, w) =>
        match initRef.loop env sName rest s w with
        | (r, vals, w) => (r, v :: vals, w)
      | (r, v, w) => (r, v :: zeroValues rest, w)).1 ≠ .ret none := by
  obtain ⟨(_ | err) | msg, v, w1⟩ := b
  · rcases h with h | h
    · simp at h
    · simpa using h w1
  · simp
  · simp

mutual
/-- The walk does not end without fault on a blueprint with a reachable odd `attrs` tag. -/
theorem initRef_oddAttrs (env : Env) : ∀ (T : GoType) (s : Slice) (w : World),
    hasOddAttrs T = true → (initRef env T s w).1 ≠ .ret none
  | .struct name fields, s, w, h => by
    have := initRef.loop_oddAttrs env name fields s w (by simpa [hasOddAttrs] using h)
    simpa only [initRef] using this
  | .pointer _, s, w, h => by simp [hasOddAttrs] at h
  | .basic _ _ _, s, w, h => by simp [hasOddAttrs] at h
/-- The loop does not end without fault on fields with a reachable odd `attrs` tag. -/
theorem initRef.loop_oddAttrs (env : Env) (sName : GoString) :
    ∀ (fs : FieldList) (s : Slice) (w : World),
    hasOddAttrsFields fs = true → (initRef.loop env sName fs s w).1 ≠ .ret none
  | .nil, s, w, h => by simp [hasOddAttrsFields] at h
  | .cons field (.struct name fields) rest, s, w, h => by
    simp only [hasOddAttrsFields, Bool.or_eq_true, Bool.and_eq_true] at h
    by_cases hx : field.exported = true
    · have := initRef.loop_step_fails env sName rest s
        (initRef.subtree env field false s (w.log (.visit field.Name))
          (fun e w1 => initRef env (.struct name fields) e w1))
        (by
          rcases h with ⟨_, h | h⟩ | h
          · exact Or.inl (initRef.subtree_fails _ _ _ _ _ _ (Or.inl h))
          · exact Or.inl (initRef.subtree_fails _ _ _ _ _ _
              (Or.inr fun e w1 => initRef_oddAttrs env (.struct name fields) e w1 h))
          · exact Or.inr fun w1 => initRef.loop_oddAttrs env sName rest s w1 h)
      simpa [initRef.loop, hx] using this
    · have hr : hasOddAttrsFields rest = true := by
        rcases h with ⟨h, _⟩ | h
        · exact absurd h hx
        · exact h
      have := initRef.loop_oddAttrs env sName rest s w hr
      simpa [initRef.loop, hx] using this
  | .cons field (.pointer elem) rest, s, w, h => by
    simp only [hasOddAttrsFields, Bool.or_eq_true, Bool.and_eq_true] at h
    by_cases hx : field.exported = true
    · have := initRef.loop_step_fails env sName rest s
        (initRef.subtree env field true s (w.log (.visit field.Name))
          (fun e w1 => initRef env elem e w1))
        (by
          rcases h with ⟨_, h | h⟩ | h
          · exact Or.inl (initRef.subtree_fails _ _ _ _ _ _ (Or.inl h))
          · exact Or.inl (initRef.subtree_fails _ _ _ _ _ _
              (Or.inr fun e w1 => initRef_oddAttrs env elem e w1 h))
          · exact Or.inr fun w1 => initRef.loop_oddAttrs env sName rest s w1 h)
      simpa [initRef.loop, hx] using this
    · have hr : hasOddAttrsFields rest = true := by
        rcases h with ⟨h, _⟩ | h
        · exact absurd h hx
        · exact h
      have := initRef.loop_oddAttrs env sName rest s w hr
      simpa [initRef.loop, hx] using this
  | .cons field (.basic kind name methods) rest, s, w, h => by
    simp only [hasOddAttrsFields] at h
    by_cases hx : field.exported = true
    · have := initRef.loop_step_fails env sName rest s
        (initRef.leaf env sName field kind name methods s (w.log (.visit field.Name)))
        (Or.inr fun w1 => initRef.loop_oddAttrs env sName rest s w1 h)
      simpa [initRef.loop, hx] using this
    · have := initRef.loop_oddAttrs env sName rest s w h
      simpa [initRef.loop, hx] using this
end

/-- When the walk ends with a fault, `Init` returns a nil pointer and an error, or panics. -/
theorem Init_fails_of_initRef (env : Env) (T : GoType) (s : Slice) (w : World)
    (h : (initRef env T s w).1 ≠ .ret none) :
    (∃ err, (Init env T s w).1 = .ret (none, some err)) ∨
      ∃ msg, (Init env T s w).1 = .panic msg := by
  unfold Init
  rcases hr : initRef env T s w with ⟨(_ | err) | msg, v, w2⟩
  · rw [hr] at h; simp at h
  · exact Or.inl ⟨err, rfl⟩
  · exact Or.inr ⟨msg, rfl⟩

/-- C5, as stated, fails on an unexported field: `oddUnexported` has a sub-tree field with the
odd tag `"bad,attr,count"`, and `Init` succeeds on it, leaving the field at its zero value. -/
theorem Init_oddUnexported_succeeds :
    (getAttrs sampleLib { embedOdd with Name := str "embed", exported := false }).2 ≠ none ∧
    (InitWith envNil oddUnexported [] []).1 = .ret (some (.struct [.zero]), none) :=
  ⟨by decide, rfl⟩

/-- C5, amended. `getAttrs` returns an error iff the `attrs` tag is non-empty and splits on
`','` into an odd number of tokens, and then it returns no attributes; `Init` on a blueprint
with an exported sub-tree field carrying such a tag, reachable from the root through exported
sub-tree fields, returns no tree: it returns a nil pointer and an error, or panics. -/
theorem getAttrs_odd (lib : Stdlib) (f : StructField) (env : Env) (T : GoType) (s : Slice)
    (w : World) :
    ((getAttrs lib f).2 ≠ none ↔
      StructTag_Get f.Tag attrsTag ≠ [] ∧
        (Split (StructTag_Get f.Tag attrsTag) comma).length % 2 = 1) ∧
    ((getAttrs lib f).2 ≠ none → (getAttrs lib f).1 = []) ∧
    (hasOddAttrs T = true →
      (∃ err, (Init env T s w).1 = .ret (none, some err)) ∨
        ∃ msg, (Init env T s w).1 = .panic msg) := by
  refine ⟨?_, getAttrs_err_nil lib f, fun h =>
    Init_fails_of_initRef env T s w (initRef_oddAttrs env T s w h)⟩
  rw [getAttrs_err_iff]
  simp [oddAttrs]

/-- C5 at the tag `"bad,attr,count"` of the test: `getAttrs` fails with no attributes, and
`Init` on `oddBlueprint` returns a nil pointer and the error of `getAttrs`. -/
theorem getAttrs_odd_witness :
    (getAttrs sampleLib embedOdd).2 ≠ none ∧ (getAttrs sampleLib embedOdd).1 = [] ∧
    hasOddAttrs oddBlueprint = true ∧
    ((∃ err, (InitWith envNil oddBlueprint [] []).1 = .ret (none, some err)) ∨
      ∃ msg, (InitWith envNil oddBlueprint [] []).1 = .panic msg) ∧
    (InitWith envNil oddBlueprint [] []).1
      = .ret (none, some (str "invalid number of attributes on field Embed: 3")) :=
  ⟨by decide,
   (getAttrs_odd sampleLib embedOdd envNil oddBlueprint (callerSlice [] []).1
      (callerSlice [] []).2).2.1 (by decide),
   by decide,
   (getAttrs_odd sampleLib embedOdd envNil oddBlueprint (callerSlice [] []).1
      (callerSlice [] []).2).2.2 (by decide),
   rfl⟩

/-! ### `getBounds` -/

/-- The loop of `getBounds` on tokens that all parse: the parsed numbers, appended in order. -/
theorem getBounds.loop_ok (lib : Stdlib) (raw : GoString) :
    ∀ (toks : List GoString) (acc : List Float64),
      (∀ b ∈ toks, ∃ x, lib.ParseFloat (lib.TrimSpace b) = .ok x) →
      ∃ vals, getBounds.loop lib raw toks acc = (acc ++ vals, none) ∧
        toks.map (fun b => lib.ParseFloat (lib.TrimSpace b)) = vals.map .ok := by
  intro toks
  induction toks with
  | nil => intro acc _; exact ⟨[], by simp [getBounds.loop]⟩
  | cons b rest ih =>
    intro acc h
    obtain ⟨x, hx⟩ := h b (List.mem_cons_self _ _)
    obtain ⟨vals, h1, h2⟩ := ih (acc ++ [x]) (fun a ha => h a (List.mem_cons_of_mem _ ha))
    refine ⟨x :: vals, ?_, ?_⟩
    · simp only [getBounds.loop, hx, h1, List.append_assoc, List.singleton_append]
    · simp [hx, h2]

/-- The loop of `getBounds` on tokens one of which does not parse: the error of the first such
token, and no list. -/
theorem getBounds.loop_err (lib : Stdlib) (raw : GoString) :
    ∀ (toks : List GoString) (acc : List Float64),
      (∃ b ∈ toks, ∃ e, lib.ParseFloat (lib.TrimSpace b) = .error e) →
      ∃ pre b post e, toks = pre ++ b :: post ∧
        (∀ a ∈ pre, ∃ x, lib.ParseFloat (lib.TrimSpace a) = .ok x) ∧
        lib.ParseFloat (lib.TrimSpace b) = .error e ∧
        getBounds.loop lib raw toks acc
          = ([], some (str "failed parsing buckets [" ++ raw ++ str "]: " ++ e)) := by
  intro toks
  induction toks with
  | nil => intro acc h; simp at h
  | cons b rest ih =>
    intro acc h
    rcases hb : lib.ParseFloat (lib.TrimSpace b) with e | x
    · exact ⟨[], b, rest, e, rfl, by simp, hb, by simp [getBounds.loop, hb]⟩
    · have hrest : ∃ b ∈ rest, ∃ e, lib.ParseFloat (lib.TrimSpace b) = .error e := by
        obtain ⟨c, hc, e, he⟩ := h
        rcases List.mem_cons.mp hc with rfl | hc
        · rw [hb] at he; cases he
        · exact ⟨c, hc, e, he⟩
      obtain ⟨pre, c, post, e, h1, h2, h3, h4⟩ := ih (acc ++ [x]) hrest
      refine ⟨b :: pre, c, post, e, by simp [h1], ?_, h3, by simp [getBounds.loop, hb, h4]⟩
      intro a ha
      rcases List.mem_cons.mp ha with rfl | ha
      · exact ⟨x, hb⟩
      · exact h2 a ha

theorem parse_all_or_some (lib : Stdlib) (toks : List GoString) :
    (∀ b ∈ toks, ∃ x, lib.ParseFloat (lib.TrimSpace b) = .ok x) ∨
    (∃ b ∈ toks, ∃ e, lib.ParseFloat (lib.TrimSpace b) = .error e) := by
  by_cases h : ∃ b ∈ toks, ∃ e, lib.ParseFloat (lib.TrimSpace b) = .error e
  · exact Or.inr h
  · refine Or.inl fun b hb => ?_
    rcases hp : lib.ParseFloat (lib.TrimSpace b) with e | x
    · exact absurd ⟨b, hb, e, hp⟩ h
    · exact ⟨x, rfl⟩

/-- C6. For every field whose `buckets` tag is non-empty and whose comma-separated tokens,
once trimmed, all parse, `getBounds` returns no error and the parsed numbers in tag order, one
per token; for an absent or empty tag it returns the empty list and no error. -/
theorem getBounds_parsed (lib : Stdlib) (f : StructField) :
    (StructTag_Get f.Tag bucketsTag ≠ [] →
      (∀ b ∈ Split (StructTag_Get f.Tag bucketsTag) comma,
        ∃ x, lib.ParseFloat (lib.TrimSpace b) = .ok x) →
      (getBounds lib f).2 = none ∧
      (getBounds lib f).1.length = (Split (StructTag_Get f.Tag bucketsTag) comma).length ∧
      (Split (StructTag_Get f.Tag bucketsTag) comma).map
          (fun b => lib.ParseFloat (lib.TrimSpace b)) = (getBounds lib f).1.map .ok) ∧
    (StructTag_Get f.Tag bucketsTag = [] → getBounds lib f = ([], none)) := by
  refine ⟨fun hne hall => ?_, fun h => by simp [getBounds, h]⟩
  obtain ⟨vals, h1, h2⟩ := getBounds.loop_ok lib (StructTag_Get f.Tag bucketsTag) _ [] hall
  simp only [getBounds, hne, if_false, h1, List.nil_append]
  refine ⟨trivial, ?_, h2⟩
  have := congrArg List.length h2
  simpa using this.symm

/-- C6 at the tag `"1.0,0.5874697321, 5.343, 0.9"` of the test: four tokens, the four numbers
in tag order. -/
theorem getBounds_parsed_witness :
    StructTag_Get boundsGood.Tag bucketsTag ≠ [] ∧
    (∀ b ∈ Split (StructTag_Get boundsGood.Tag bucketsTag) comma,
      ∃ x, sampleLib.ParseFloat (sampleLib.TrimSpace b) = .ok x) ∧
    ((getBounds sampleLib boundsGood).2 = none ∧ (getBounds sampleLib boundsGood).1.length = 4) ∧
    getBounds sampleLib boundsGood
      = ([{ bits := 0x3FF0000000000000 }, { bits := 0x3FE2CC8D52D84CDA },
          { bits := 0x40155F3B645A1CAC }, { bits := 0x3FECCCCCCCCCCCCD }], none) :=
  have hall : ∀ b ∈ Split (StructTag_Get boundsGood.Tag bucketsTag) comma,
      ∃ x, sampleLib.ParseFloat (sampleLib.TrimSpace b) = .ok x := by
    intro b hb
    have hs : Split (StructTag_Get boundsGood.Tag bucketsTag) comma
        = [str "1.0", str "0.5874697321", str " 5.343", str " 0.9"] := by decide
    rw [hs] at hb
    simp only [List.mem_cons, List.mem_singleton, List.not_mem_nil, or_false] at hb
    rcases hb with rfl | rfl | rfl | rfl <;> exact ⟨_, rfl⟩
  ⟨by decide, hall,
   ⟨((getBounds_parsed sampleLib boundsGood).1 (by decide) hall).1,
    ((getBounds_parsed sampleLib boundsGood).1 (by decide) hall).2.1.trans (by decide)⟩,
   by decide⟩

/-- C7. `getBounds` returns an error iff the `buckets` tag is non-empty and one of its
comma-separated tokens, once trimmed, does not parse; the error text holds the raw tag between
brackets, followed by the error `ParseFloat` gave for the first such token; no boundary list
comes with the error; and when `ParseFloat` rejects the trimmed empty string, a tag with an
empty token (such as one ending in a comma) fails. -/
theorem getBounds_error (lib : Stdlib) (f : StructField) :
    ((getBounds lib f).2 ≠ none ↔
      StructTag_Get f.Tag bucketsTag ≠ [] ∧
        ∃ b ∈ Split (StructTag_Get f.Tag bucketsTag) comma,
          ∃ e, lib.ParseFloat (lib.TrimSpace b) = .error e) ∧
    (∀ msg, (getBounds lib f).2 = some msg →
      ∃ pre b post e, Split (StructTag_Get f.Tag bucketsTag) comma = pre ++ b :: post ∧
        (∀ a ∈ pre, ∃ x, lib.ParseFloat (lib.TrimSpace a) = .ok x) ∧
        lib.ParseFloat (lib.TrimSpace b) = .error e ∧
        msg = str "failed parsing buckets [" ++ StructTag_Get f.Tag bucketsTag ++ str "]: "
          ++ e) ∧
    ((getBounds lib f).2 ≠ none → (getBounds lib f).1 = []) ∧
    ((∃ e, lib.ParseFloat (lib.TrimSpace []) = .error e) →
      StructTag_Get f.Tag bucketsTag ≠ [] →
      [] ∈ Split (StructTag_Get f.Tag bucketsTag) comma → (getBounds lib f).2 ≠ none) := by
  have key : (getBounds lib f).2 ≠ none ↔
      StructTag_Get f.Tag bucketsTag ≠ [] ∧
        ∃ b ∈ Split (StructTag_Get f.Tag bucketsTag) comma,
          ∃ e, lib.ParseFloat (lib.TrimSpace b) = .error e := by
    by_cases hne : StructTag_Get f.Tag bucketsTag = []
    · simp [getBounds, hne]
    · rcases parse_all_or_some lib (Split (StructTag_Get f.Tag bucketsTag) comma) with h | h
      · obtain ⟨vals, h1, _⟩ := getBounds.loop_ok lib (StructTag_Get f.Tag bucketsTag) _ [] h
        simp only [getBounds, hne, if_false, h1, ne_eq, not_true_eq_false, not_false_eq_true,
          true_and, false_iff, not_exists, not_and]
        intro b hb e he
        obtain ⟨x, hx⟩ := h b hb
        rw [hx] at he
        cases he
      · obtain ⟨pre, b, post, e, _, _, _, h4⟩ :=
          getBounds.loop_err lib (StructTag_Get f.Tag bucketsTag) _ [] h
        simp only [getBounds, hne, if_false, h4]
        simpa using ⟨hne, h⟩
  refine ⟨key, fun msg hmsg => ?_, fun herr => ?_, fun he hne hmem =>
    key.mpr ⟨hne, [], hmem, he⟩⟩
  · have hk := key.mp (by rw [hmsg]; simp)
    obtain ⟨pre, b, post, e, h1, h2, h3, h4⟩ :=
      getBounds.loop_err lib (StructTag_Get f.Tag bucketsTag) _ [] hk.2
    refine ⟨pre, b, post, e, h1, h2, h3, ?_⟩
    simp only [getBounds, hk.1, if_false, h4, Option.some.injEq] at hmsg
    exact hmsg.symm
  · have hk := key.mp herr
    obtain ⟨pre, b, post, e, _, _, _, h4⟩ :=
      getBounds.loop_err lib (StructTag_Get f.Tag bucketsTag) _ [] hk.2
    simp only [getBounds, hk.1, if_false, h4]

/-- C7 at the tags `"1.0,2.0,3.0,something"` of the test and `"1.0,"`: both fail, the first
with the text naming the raw tag and the token `something`, and no boundary list. -/
theorem getBounds_error_witness :
    (getBounds sampleLib boundsBad).2 ≠ none ∧
    (getBounds sampleLib boundsBad).1 = [] ∧
    (getBounds sampleLib boundsBad).2 = some (str "failed parsing buckets ["
      ++ str "1.0,2.0,3.0,something" ++ str "]: " ++ str "strconv.ParseFloat: parsing \""
      ++ str "something" ++ str "\": invalid syntax") ∧
    (getBounds sampleLib boundsTrailing).2 ≠ none :=
  have h1 : (getBounds sampleLib boundsBad).2 ≠ none :=
    (getBounds_error sampleLib boundsBad).1.mpr
      ⟨by decide, str "something", by decide, _, rfl⟩
  ⟨h1, (getBounds_error sampleLib boundsBad).2.2.1 h1, by rfl,
   (getBounds_error sampleLib boundsTrailing).2.2.2 ⟨_, rfl⟩ (by decide) (by decide)⟩

/-! ## Binding with no provider -/

/-- With no provider, a non-empty `id` tag, one of the four kinds and (for a histogram) a
`buckets` tag that resolves, `initializeByKind` returns the no-op handle of the domain. -/
theorem initializeByKind_nil (env : Env) (t kind : GoString) (field : StructField)
    (attrs : Slice) (w : World) (hp : env.prov = none)
    (hid : StructTag_Get field.Tag idTag ≠ [])
    (hk : kind = counter ∨ kind = upDownCounter ∨ kind = gauge ∨ kind = histogram)
    (hb : kind = histogram → (getBounds env.lib field).2 = none) :
    (initializeByKind env t kind field attrs w).1
      = (some (.nilProv { T := if t = i64Type then .I64 else .F64 }), none) := by
  simp only [initializeByKind, extractTag, getID, hid, if_false, hp]
  by_cases hk1 : kind = counter ∨ kind = upDownCounter
  · simp only [hk1, if_true]
    by_cases ht : t = i64Type <;> simp [ht, provider.i64c, provider.f64c,
      initializeByKind.finish]
  · simp only [hk1, if_false]
    have hk2 : kind = gauge ∨ kind = histogram := by
      rcases hk with h | h | h | h
      · exact absurd (Or.inl h) hk1
      · exact absurd (Or.inr h) hk1
      · exact Or.inl h
      · exact Or.inr h
    simp only [hk2, if_true]
    by_cases hk3 : kind = histogram
    · have hb' := hb hk3
      rcases hg : getBounds env.lib field with ⟨bounds, _ | e⟩
      · simp only [hk3, if_true, hg]
        by_cases ht : t = i64Type <;> simp [ht, provider.i64r, provider.f64r,
          initializeByKind.finish]
      · rw [hg] at hb'; simp at hb'
    · simp only [hk3, if_false]
      by_cases ht : t = i64Type <;> simp [ht, provider.i64r, provider.f64r,
        initializeByKind.finish]

/-- With no provider the leaf branch ends without fault on a field that resolves. -/
theorem initRef.leaf_nil (env : Env) (sName : GoString) (field : StructField) (kind : Kind)
    (name : GoString) (methods : List Method) (attrs : Slice) (w : World)
    (hp : env.prov = none)
    (h : implementsOneOf methods supported = false ∨
      leafResolves env.lib field kind name methods = true) :
    (initRef.leaf env sName field kind name methods attrs w).1 = .ret none := by
  rcases h with h | h
  · simp [initRef.leaf, h]
  · simp only [leafResolves, Bool.and_eq_true, Bool.or_eq_true, decide_eq_true_eq] at h
    obtain ⟨⟨⟨hkind, hmem⟩, hid⟩, hbounds⟩ := h
    subst hkind
    have main : ∀ (t k : GoString), typeAndKindFor name = .ret (t, k) → name ≠ [] →
        (k = counter ∨ k = upDownCounter ∨ k = gauge ∨ k = histogram) →
        implementsOneOf methods supported = true →
        assignable (.nilProv { T := if t = i64Type then .I64 else .F64 }) .Interface methods
          = true →
        (k = histogram → name.drop 3 = histogram) →
        (initRef.leaf env sName field .Interface name methods attrs w).1 = .ret none := by
      intro t k htk hne hk himpl hassign hh
      have hb : k = histogram → (getBounds env.lib field).2 = none := by
        intro hk3
        rcases hbounds with hb | hb
        · exact absurd (hh hk3) hb
        · exact hb
      have hi := initializeByKind_nil env t k field attrs w hp hid hk hb
      unfold initRef.leaf
      simp only [himpl, if_true, hne, if_false, htk]
      rcases hr : initializeByKind env t k field attrs w with ⟨⟨v, e⟩, w2⟩
      rw [hr] at hi
      simp only [Prod.mk.injEq] at hi
      obtain ⟨rfl, rfl⟩ := hi
      simp [hassign]
    simp only [declaredInstruments, List.mem_cons, Prod.mk.injEq, List.mem_singleton,
      List.not_mem_nil, or_false] at hmem
    rcases hmem with ⟨rfl, rfl⟩ | ⟨rfl, rfl⟩ | ⟨rfl, rfl⟩ | ⟨rfl, rfl⟩ | ⟨rfl, rfl⟩ |
      ⟨rfl, rfl⟩ | ⟨rfl, rfl⟩ | ⟨rfl, rfl⟩
    · exact main (str "I") counter (by decide) (by decide) (by decide) (by decide)
        (by decide) (by decide)
    · exact main (str "I") upDownCounter (by decide) (by decide) (by decide) (by decide)
        (by decide) (by decide)
    · exact main (str "F") counter (by decide) (by decide) (by decide) (by decide)
        (by decide) (by decide)
    · exact main (str "F") upDownCounter (by decide) (by decide) (by decide) (by decide)
        (by decide) (by decide)
    · exact main (str "I") gauge (by decide) (by decide) (by decide) (by decide)
        (by decide) (by decide)
    · exact main (str "I") histogram (by decide) (by decide) (by decide) (by decide)
        (by decide) (by decide)
    · exact main (str "F") gauge (by decide) (by decide) (by decide) (by decide)
        (by decide) (by decide)
    · exact main (str "F") histogram (by decide) (by decide) (by decide) (by decide)
        (by decide) (by decide)

theorem initRef.subtree_ok (env : Env) (field : StructField) (isPtr : Bool) (attrs : Slice)
    (w : World) (recur : Slice → World → Flow (Option GoString) × Value × World)
    (h1 : oddAttrs field = false) (h2 : ∀ e w1, (recur e w1).1 = .ret none) :
    (initRef.subtree env field isPtr attrs w recur).1 = .ret none := by
  unfold initRef.subtree
  simp only [extractTag]
  rcases hg : getAttrs env.lib field with ⟨inner, _ | err⟩
  · simp only []
    rcases ha : goAppend env.growslice (w.log (.resolve field.Name attrsTag)).heap attrs inner
      with ⟨e, h1⟩
    simp only []
    have := h2 e { w.log (.resolve field.Name attrsTag) with heap := h1 }
    rcases hr : recur e { w.log (.resolve field.Name attrsTag) with heap := h1 }
      with ⟨(_ | err) | msg, n, w2⟩
    · rfl
    · rw [hr] at this; simp at this
    · rw [hr] at this; simp at this
  · have : oddAttrs field = true := by
      rw [← getAttrs_err_iff env.lib, hg]; simp
    rw [h1] at this
    cases this

theorem initRef.loop_step_ok (env : Env) (sName : GoString) (rest : FieldList) (s : Slice)
    (b : Flow (Option GoString) × Value × World)
    (h1 : b.1 = .ret none) (h2 : ∀ w1, (initRef.loop env sName rest s w1).1 = .ret none) :
    (match b with
      | (.ret none, v, w) =>
        match initRef.loop env sName rest s w with
        | (r, vals, w) => (r, v :: vals, w)
      | (r, v, w) => (r, v :: zeroValues rest, w)).1 = .ret none := by
  obtain ⟨(_ | err) | msg, v, w1⟩ := b
  · simpa using h2 w1
  · simp at h1
  · simp at h1

mutual
/-- With no provider the walk ends without fault on a blueprint that resolves. -/
theorem initRef_resolves (env : Env) (hp : env.prov = none) :
    ∀ (T : GoType) (s : Slice) (w : World),
    resolves env.lib T = true → (initRef env T s w).1 = .ret none
  | .struct name fields, s, w, h => by
    have := initRef.loop_resolves env hp name fields s w (by simpa [resolves] using h)
    simpa only [initRef] using this
  | .pointer _, s, w, h => by simp [resolves] at h
  | .basic _ _ _, s, w, h => by simp [resolves] at h
/-- With no provider the loop ends without fault on fields that resolve. -/
theorem initRef.loop_resolves (env : Env) (hp : env.prov = none) (sName : GoString) :
    ∀ (fs : FieldList) (s : Slice) (w : World),
    resolvesFields env.lib fs = true → (initRef.loop env sName fs s w).1 = .ret none
  | .nil, s, w, _ => by simp [initRef.loop]
  | .cons field (.struct name fields) rest, s, w, h => by
    simp only [resolvesFields, Bool.and_eq_true, Bool.or_eq_true, Bool.not_eq_true'] at h
    by_cases hx : field.exported = true
    · have hf : oddAttrs field = false ∧ resolves env.lib (.struct name fields) = true := by
        rcases h.1 with h1 | h1
        · rw [hx] at h1; cases h1
        · exact h1
      have := initRef.loop_step_ok env sName rest s
        (initRef.subtree env field false s (w.log (.visit field.Name))
          (fun e w1 => initRef env (.struct name fields) e w1))
        (initRef.subtree_ok _ _ _ _ _ _ hf.1
          (fun e w1 => initRef_resolves env hp (.struct name fields) e w1 hf.2))
        (fun w1 => initRef.loop_resolves env hp sName rest s w1 h.2)
      simpa [initRef.loop, hx] using this
    · have := initRef.loop_resolves env hp sName rest s w h.2
      simpa [initRef.loop, hx] using this
  | .cons field (.pointer elem) rest, s, w, h => by
    simp only [resolvesFields, Bool.and_eq_true, Bool.or_eq_true, Bool.not_eq_true'] at h
    by_cases hx : field.exported = true
    · have hf : oddAttrs field = false ∧ resolves env.lib elem = true := by
        rcases h.1 with h1 | h1
        · rw [hx] at h1; cases h1
        · exact h1
      have := initRef.loop_step_ok env sName rest s
        (initRef.subtree env field true s (w.log (.visit field.Name))
          (fun e w1 => initRef env elem e w1))
        (initRef.subtree_ok _ _ _ _ _ _ hf.1
          (fun e w1 => initRef_resolves env hp elem e w1 hf.2))
        (fun w1 => initRef.loop_resolves env hp sName rest s w1 h.2)
      simpa [initRef.loop, hx] using this
    · have := initRef.loop_resolves env hp sName rest s w h.2
      simpa [initRef.loop, hx] using this
  | .cons field (.basic kind name methods) rest, s, w, h => by
    simp only [resolvesFields, Bool.and_eq_true, Bool.or_eq_true, Bool.not_eq_true'] at h
    by_cases hx : field.exported = true
    · have hf : implementsOneOf methods supported = false ∨
          leafResolves env.lib field kind name methods = true := by
        rcases h.1 with (h1 | h1) | h1
        · rw [hx] at h1; cases h1
        · exact Or.inl h1
        · exact Or.inr h1
      have := initRef.loop_step_ok env sName rest s
        (initRef.leaf env sName field kind name methods s (w.log (.visit field.Name)))
        (initRef.leaf_nil env sName field kind name methods s _ hp hf)
        (fun w1 => initRef.loop_resolves env hp sName rest s w1 h.2)
      simpa [initRef.loop, hx] using this
    · have := initRef.loop_resolves env hp sName rest s w h.2
      simpa [initRef.loop, hx] using this
end

/-- C8, as stated, fails: on `missingId`, whose only leaf has no `id` tag, `Init` with no
provider configured returns a nil pointer and an error. -/
theorem Init_nil_provider_missing_id :
    envNil.prov = none ∧
    (InitWith envNil missingId [] []).1
      = .ret (none, some (str "error initializing field: missing id tag for field C")) :=
  ⟨rfl, rfl⟩

/-- C8, amended. With no provider configured `Init` returns a tree and no error on every
blueprint that resolves: a struct in which, at every depth reached through exported struct or
pointer-to-struct fields, each exported sub-tree field has an `attrs` tag that is empty or of
even token count, and each exported field implementing a capability set has one of the eight
declared instrument types, a non-empty `id` tag and, for a histogram, a `buckets` tag that is
empty or parses. -/
theorem Init_nil_provider (env : Env) (T : GoType) (s : Slice) (w : World)
    (hp : env.prov = none) (hr : resolves env.lib T = true) :
    ∃ tree, (Init env T s w).1 = .ret (some tree, none) := by
  have h := initRef_resolves env hp T s w hr
  unfold Init
  rcases hi : initRef env T s w with ⟨(_ | err) | msg, v, w2⟩
  · exact ⟨v, rfl⟩
  · rw [hi] at h; simp at h
  · rw [hi] at h; simp at h

/-- C8 at the blueprint `samplers` of `TestInitialize`, with no provider configured. -/
theorem Init_nil_provider_witness :
    envNil.prov = none ∧ resolves envNil.lib samplers = true ∧
    ∃ tree, (InitWith envNil samplers [] []).1 = .ret (some tree, none) :=
  ⟨rfl, by decide, Init_nil_provider envNil samplers _ _ rfl (by decide)⟩

/-! ## Leaves without an identifier -/

/-- The resolver `getID`: an error and the empty string when the `id` tag is absent or empty,
the tag as it is and no error otherwise. -/
theorem getID_spec (f : StructField) :
    ((getID f).2 ≠ none ↔ StructTag_Get f.Tag idTag = []) ∧
    (StructTag_Get f.Tag idTag = [] → (getID f).1 = []) ∧
    (StructTag_Get f.Tag idTag ≠ [] → getID f = (StructTag_Get f.Tag idTag, none)) := by
  unfold getID
  by_cases h : StructTag_Get f.Tag idTag = [] <;> simp [h]

theorem initRef.leaf_missing_id (env : Env) (sName : GoString) (field : StructField)
    (kind : Kind) (name : GoString) (methods : List Method) (attrs : Slice) (w : World)
    (hi : implementsOneOf methods supported = true) (hid : StructTag_Get field.Tag idTag = []) :
    (initRef.leaf env sName field kind name methods attrs w).1 ≠ .ret none := by
  unfold initRef.leaf
  simp only [hi, if_true]
  rcases typeAndKindFor (if name = [] then sName else name) with ⟨t, k⟩ | msg
  · simp [initializeByKind, extractTag, getID, hid]
  · simp

mutual
/-- The walk does not end without fault on a blueprint with a reachable leaf without `id`. -/
theorem initRef_missing_id (env : Env) : ∀ (T : GoType) (s : Slice) (w : World),
    hasMissingId T = true → (initRef env T s w).1 ≠ .ret none
  | .struct name fields, s, w, h => by
    have := initRef.loop_missing_id env name fields s w (by simpa [hasMissingId] using h)
    simpa only [initRef] using this
  | .pointer _, s, w, h => by simp [hasMissingId] at h
  | .basic _ _ _, s, w, h => by simp [hasMissingId] at h
/-- The loop does not end without fault on fields with a reachable leaf without `id`. -/
theorem initRef.loop_missing_id (env : Env) (sName : GoString) :
    ∀ (fs : FieldList) (s : Slice) (w : World),
    hasMissingIdFields fs = true → (initRef.loop env sName fs s w).1 ≠ .ret none
  | .nil, s, w, h => by simp [hasMissingIdFields] at h
  | .cons field (.struct name fields) rest, s, w, h => by
    simp only [hasMissingIdFields, Bool.or_eq_true, Bool.and_eq_true] at h
    by_cases hx : field.exported = true
    · have := initRef.loop_step_fails env sName rest s
        (initRef.subtree env field false s (w.log (.visit field.Name))
          (fun e w1 => initRef env (.struct name fields) e w1))
        (by
          rcases h with ⟨_, h⟩ | h
          · exact Or.inl (initRef.subtree_fails _ _ _ _ _ _
              (Or.inr fun e w1 => initRef_missing_id env (.struct name fields) e w1 h))
          · exact Or.inr fun w1 => initRef.loop_missing_id env sName rest s w1 h)
      simpa [initRef.loop, hx] using this
    · have hr : hasMissingIdFields rest = true := by
        rcases h with ⟨h, _⟩ | h
        · exact absurd h hx
        · exact h
      have := initRef.loop_missing_id env sName rest s w hr
      simpa [initRef.loop, hx] using this
  | .cons field (.pointer elem) rest, s, w, h => by
    simp only [hasMissingIdFields, Bool.or_eq_true, Bool.and_eq_true] at h
    by_cases hx : field.exported = true
    · have := initRef.loop_step_fails env sName rest s
        (initRef.subtree env field true s (w.log (.visit field.Name))
          (fun e w1 => initRef env elem e w1))
        (by
          rcases h with ⟨_, h⟩ | h
          · exact Or.inl (initRef.subtree_fails _ _ _ _ _ _
              (Or.inr fun e w1 => initRef_missing_id env elem e w1 h))
          · exact Or.inr fun w1 => initRef.loop_missing_id env sName rest s w1 h)
      simpa [initRef.loop, hx] using this
    · have hr : hasMissingIdFields rest = true := by
        rcases h with ⟨h, _⟩ | h
        · exact absurd h hx
        · exact h
      have := initRef.loop_missing_id env sName rest s w hr
      simpa [initRef.loop, hx] using this
  | .cons field (.basic kind name methods) rest, s, w, h => by
    simp only [hasMissingIdFields, Bool.or_eq_true, Bool.and_eq_true,
      decide_eq_true_eq] at h
    by_cases hx : field.exported = true
    · have := initRef.loop_step_fails env sName rest s
        (initRef.leaf env sName field kind name methods s (w.log (.visit field.Name)))
        (by
          rcases h with ⟨⟨_, hi⟩, hid⟩ | h
          · exact Or.inl (initRef.leaf_missing_id _ _ _ _ _ _ _ _ hi hid)
          · exact Or.inr fun w1 => initRef.loop_missing_id env sName rest s w1 h)
      simpa [initRef.loop, hx] using this
    · have hr : hasMissingIdFields rest = true := by
        rcases h with ⟨⟨h, _⟩, _⟩ | h
        · exact absurd h hx
        · exact h
      have := initRef.loop_missing_id env sName rest s w hr
      simpa [initRef.loop, hx] using this
end

/-- A blueprint with an exported leaf without `id` tag, reachable through exported sub-tree
fields, never yields a tree, with or without a provider: `Init` returns a nil pointer and an
error, or it panics (as on `opThenCounter`). -/
theorem Init_missing_id_no_tree (env : Env) (T : GoType) (s : Slice) (w : World)
    (h : hasMissingId T = true) :
    (∃ err, (Init env T s w).1 = .ret (none, some err)) ∨
      ∃ msg, (Init env T s w).1 = .panic msg :=
  Init_fails_of_initRef env T s w (initRef_missing_id env T s w h)

/-- C3, at the failing input: `opThenCounter` has the exported leaf `C` without `id` tag, yet
the walk panics at the field `X`, whose type name `Op` has two bytes (`typeName[3:]`), with or
without a provider; `Init` returns neither an error nor a nil pointer, and the leaf `C` is never
reached. -/
theorem Init_panics_before_missing_id :
    hasMissingId opThenCounter = true ∧
    (InitWith envNil opThenCounter [] []).1
      = .panic (str "runtime error: slice bounds out of range [3:2]") ∧
    (InitWith envLive opThenCounter [] []).1
      = .panic (str "runtime error: slice bounds out of range [3:2]") := by
  refine ⟨by decide, rfl, rfl⟩

/-! ## Binding through a provider -/

theorem provider.create_eq (p : provider) (call : MeterCall) (w : World) :
    p.create call w =
      (match p.m (backendCalls w.trace) call with
        | none => ((some (meterCalls w.trace).length, none), w.log (.meter call none))
        | some err => ((none, some err), w.log (.meter call (some err)))) := by
  unfold provider.create
  cases p.m (backendCalls w.trace) call <;> rfl

/-- C11, as stated, fails: with a provider configured, an `I64Counter` leaf without `id` tag
and an `I64Histogram` leaf with an unparsable `buckets` tag cause no creation call at all, and
when the backend refuses the instrument the one creation call yields no handle. -/
theorem initializeByKind_without_creation :
    envLive.prov.isSome = true ∧ envFailing.prov.isSome = true ∧
    (initializeByKind envLive (str "I") counter (field "C" []) nilSlice emptyWorld).1
      = (none, some (str "missing id tag for field C")) ∧
    meterCalls (initializeByKind envLive (str "I") counter (field "C" []) nilSlice
      emptyWorld).2.trace = [] ∧
    (initializeByKind envLive (str "I") histogram
      (field "H" [("id", "h"), ("buckets", "1.0,bad")]) nilSlice emptyWorld).1.1 = none ∧
    meterCalls (initializeByKind envLive (str "I") histogram
      (field "H" [("id", "h"), ("buckets", "1.0,bad")]) nilSlice emptyWorld).2.trace = [] ∧
    (initializeByKind envFailing (str "I") counter (field "C" [("id", "a")]) nilSlice
      emptyWorld).1 = (none, some (str "backend down")) ∧
    meterCalls (initializeByKind envFailing (str "I") counter (field "C" [("id", "a")]) nilSlice
      emptyWorld).2.trace = [.Int64Counter (str "a")] := by
  refine ⟨rfl, rfl, by decide, by decide, by decide, by decide, by decide, by decide⟩

/-- C11, amended. With a provider `p` configured, on a leaf whose `id` tag is non-empty,
`initializeByKind` called with the domain letter and kind of each of the eight declared leaf
types makes exactly one creation call on the meter, the one of that domain and kind, with the
`id` tag as identifier; the boundaries `getBounds` parsed are passed for `Histogram` (when the
`buckets` tag resolves) and none for the other kinds. When the backend creates the instrument
the result is an `addImpl` (Counter, UpDownCounter) or a `recordImpl` (Gauge, Histogram) of
the domain around it, holding the inherited slice `attrs`; when the backend fails the result is
its error and no handle. -/
theorem initializeByKind_creates (env : Env) (p : provider) (field : StructField)
    (attrs : Slice) (w : World) (hp : env.prov = some p)
    (hid : StructTag_Get field.Tag idTag ≠ []) :
    (typeAndKindFor (str "I64Counter") = .ret (str "I", counter) ∧
      initializeByKind env (str "I") counter field attrs w
        = createdBy p w
            [.resolve field.Name idTag,
             .dispatch .i64c counter (StructTag_Get field.Tag idTag) [] (w.heap.read attrs)]
            (.Int64Counter (StructTag_Get field.Tag idTag))
            (fun inst => .addImpl { T := .I64, baseAdd := some inst, parentAttrs := attrs })) ∧
    (typeAndKindFor (str "I64UpDownCounter") = .ret (str "I", upDownCounter) ∧
      initializeByKind env (str "I") upDownCounter field attrs w
        = createdBy p w
            [.resolve field.Name idTag,
             .dispatch .i64c upDownCounter (StructTag_Get field.Tag idTag) []
               (w.heap.read attrs)]
            (.Int64UpDownCounter (StructTag_Get field.Tag idTag))
            (fun inst => .addImpl { T := .I64, baseAdd := some inst, parentAttrs := attrs })) ∧
    (typeAndKindFor (str "F64Counter") = .ret (str "F", counter) ∧
      initializeByKind env (str "F") counter field attrs w
        = createdBy p w
            [.resolve field.Name idTag,
             .dispatch .f64c counter (StructTag_Get field.Tag idTag) [] (w.heap.read attrs)]
            (.Float64Counter (StructTag_Get field.Tag idTag))
            (fun inst => .addImpl { T := .F64, baseAdd := some inst, parentAttrs := attrs })) ∧
    (typeAndKindFor (str "F64UpDownCounter") = .ret (str "F", upDownCounter) ∧
      initializeByKind env (str "F") upDownCounter field attrs w
        = createdBy p w
            [.resolve field.Name idTag,
             .dispatch .f64c upDownCounter (StructTag_Get field.Tag idTag) []
               (w.heap.read attrs)]
            (.Float64UpDownCounter (StructTag_Get field.Tag idTag))
            (fun inst => .addImpl { T := .F64, baseAdd := some inst, parentAttrs := attrs })) ∧
    (typeAndKindFor (str "I64Gauge") = .ret (str "I", gauge) ∧
      initializeByKind env (str "I") gauge field attrs w
        = createdBy p w
            [.resolve field.Name idTag,
             .dispatch .i64r gauge (StructTag_Get field.Tag idTag) [] (w.heap.read attrs)]
            (.Int64Gauge (StructTag_Get field.Tag idTag))
            (fun inst => .recordImpl { T := .I64, baseRecord := some inst, attrs := attrs })) ∧
    (typeAndKindFor (str "F64Gauge") = .ret (str "F", gauge) ∧
      initializeByKind env (str "F") gauge field attrs w
        = createdBy p w
            [.resolve field.Name idTag,
             .dispatch .f64r gauge (StructTag_Get field.Tag idTag) [] (w.heap.read attrs)]
            (.Float64Gauge (StructTag_Get field.Tag idTag))
            (fun inst => .recordImpl { T := .F64, baseRecord := some inst, attrs := attrs })) ∧
    (typeAndKindFor (str "I64Histogram") = .ret (str "I", histogram) ∧
      ∀ bounds, getBounds env.lib field = (bounds, none) →
      initializeByKind env (str "I") histogram field attrs w
        = createdBy p w
            [.resolve field.Name idTag, .resolve field.Name bucketsTag,
             .dispatch .i64r histogram (StructTag_Get field.Tag idTag) bounds
               (w.heap.read attrs)]
            (.Int64Histogram (StructTag_Get field.Tag idTag) bounds)
            (fun inst => .recordImpl { T := .I64, baseRecord := some inst, attrs := attrs })) ∧
    (typeAndKindFor (str "F64Histogram") = .ret (str "F", histogram) ∧
      ∀ bounds, getBounds env.lib field = (bounds, none) →
      initializeByKind env (str "F") histogram field attrs w
        = createdBy p w
            [.resolve field.Name idTag, .resolve field.Name bucketsTag,
             .dispatch .f64r histogram (StructTag_Get field.Tag idTag) bounds
               (w.heap.read attrs)]
            (.Float64Histogram (StructTag_Get field.Tag idTag) bounds)
            (fun inst => .recordImpl { T := .F64, baseRecord := some inst, attrs := attrs })) := by
  have e1 : (upDownCounter = counter) = False := eq_false (by decide)
  have e2 : (gauge = counter) = False := eq_false (by decide)
  have e3 : (gauge = upDownCounter) = False := eq_false (by decide)
  have e4 : (histogram = counter) = False := eq_false (by decide)
  have e5 : (histogram = upDownCounter) = False := eq_false (by decide)
  have e6 : (histogram = gauge) = False := eq_false (by decide)
  have e7 : (gauge = histogram) = False := eq_false (by decide)
  have e8 : (str "I" = i64Type) = True := eq_true (by decide)
  have e9 : (str "F" = i64Type) = False := eq_false (by decide)
  refine ⟨⟨by decide, ?_⟩, ⟨by decide, ?_⟩, ⟨by decide, ?_⟩, ⟨by decide, ?_⟩, ⟨by decide, ?_⟩,
    ⟨by decide, ?_⟩, ⟨by decide, ?_⟩, ⟨by decide, ?_⟩⟩
  all_goals first
    | (intro bounds hb
       simp only [initializeByKind, extractTag, getID, hid, hp, hb, e1, e2, e3, e4, e5, e6, e7,
         e8, e9, if_true, if_false, or_true, true_or, or_false, false_or, provider.i64c,
         provider.f64c, provider.i64r, provider.f64r, provider.create_eq, createdBy, World.log,
         List.append_assoc, List.singleton_append, List.cons_append, List.nil_append]
       cases p.m _ _ <;> simp [initializeByKind.finish])
    | (simp only [initializeByKind, extractTag, getID, hid, hp, e1, e2, e3, e4, e5, e6, e7,
         e8, e9, if_true, if_false, or_true, true_or, or_false, false_or, provider.i64c,
         provider.f64c, provider.i64r, provider.f64r, provider.create_eq, createdBy, World.log,
         List.append_assoc, List.singleton_append, List.cons_append, List.nil_append]
       cases p.m _ _ <;> simp [initializeByKind.finish])

/-- C11 at an `I64Counter` leaf with `id:"a"` bound through a provider whose meter creates
every instrument: one `Int64Counter("a")` call, and an `addImpl[int64]` around instrument 0
holding the inherited slice. -/
theorem initializeByKind_creates_witness :
    envLive.prov = some { m := fun _ _ => none } ∧
    StructTag_Get (field "C" [("id", "a")]).Tag idTag ≠ [] ∧
    initializeByKind envLive (str "I") counter (field "C" [("id", "a")]) nilSlice emptyWorld
      = ((some (.addImpl { T := .I64, baseAdd := some 0, parentAttrs := nilSlice }), none),
         { heap := [[]],
           trace := [.resolve (str "C") idTag, .dispatch .i64c counter (str "a") [] [],
                     .meter (.Int64Counter (str "a")) none] }) :=
  ⟨rfl, by decide,
   (initializeByKind_creates envLive { m := fun _ _ => none } (field "C" [("id", "a")]) nilSlice
      emptyWorld rfl (by decide)).1.2.trans rfl⟩

/-! ## Fields that are no instruments -/

/-- C12, as stated, fails on its own example: on the blueprint `struct { P *int }` `Init`
returns a nil pointer and the invalid-shape error of the recursive call, with or without a
provider. -/
theorem Init_pointer_to_int_fails :
    (InitWith envNil ptrToInt [] []).1
      = .ret (none, some (str "field initialization failed: " ++
          str "expected a struct type, got int")) ∧
    (InitWith envLive ptrToInt [] []).1
      = .ret (none, some (str "field initialization failed: " ++
          str "expected a struct type, got int")) := by
  constructor <;> rfl

/-- C12, amended. An exported field whose type is neither a struct nor a pointer and implements
none of the four capability sets is skipped: the walk of the fields from it on is the walk of
the fields after it, started in the same heap and with the same slice, with the zero value put
in front for the field; between taking the field up (ghost event `visit`) and the next field no
tag is resolved and no backend call is made. -/
theorem initRef.loop_skips_plain_field (env : Env) (sName : GoString) (field : StructField)
    (kind : Kind) (name : GoString) (methods : List Method) (rest : FieldList) (s : Slice)
    (w : World) (he : field.exported = true)
    (hi : implementsOneOf methods supported = false) :
    initRef.loop env sName (.cons field (.basic kind name methods) rest) s w
      = ((initRef.loop env sName rest s (w.log (.visit field.Name))).1,
         .zero :: (initRef.loop env sName rest s (w.log (.visit field.Name))).2.1,
         (initRef.loop env sName rest s (w.log (.visit field.Name))).2.2) := by
  simp [initRef.loop, initRef.leaf, he, hi]

/-- C12 at the field `N int` followed by the leaf `C I64Counter (id c)`: `N` keeps its zero
value and `C` is bound; and `Init` on `plainThenCounter` skips the integer, string, slice and
map fields and binds the leaf. -/
theorem initRef.loop_skips_plain_field_witness :
    (field "N" []).exported = true ∧ implementsOneOf [] supported = false ∧
    initRef.loop envLive (str "T")
        (.cons (field "N" []) (.basic .Int (str "int") [])
          (.cons (field "C" [("id", "c")]) I64Counter .nil)) nilSlice emptyWorld
      = (.ret none,
         [.zero, .handle (.addImpl { T := .I64, baseAdd := some 0, parentAttrs := nilSlice })],
         { heap := [[]],
           trace := [.visit (str "N"), .visit (str "C"), .resolve (str "C") idTag,
                     .dispatch .i64c counter (str "c") [] [],
                     .meter (.Int64Counter (str "c")) none] }) ∧
    (Init envLive plainThenCounter nilSlice emptyWorld).1
      = .ret (some (.struct [.zero, .zero, .zero, .zero,
          .handle (.addImpl { T := .I64, baseAdd := some 0, parentAttrs := nilSlice })]),
          none) :=
  ⟨rfl, rfl,
   (initRef.loop_skips_plain_field envLive (str "T") (field "N" []) .Int (str "int") []
      (.cons (field "C" [("id", "c")]) I64Counter .nil) nilSlice emptyWorld rfl rfl).trans rfl,
   rfl⟩

/-! ## Unexported fields -/

theorem withUnexported_zero (T : GoType) : withUnexported T .zero = .zero := by
  cases T <;> simp [withUnexported]

theorem withUnexportedFields_zeroValues :
    ∀ fs : FieldList, withUnexportedFields fs (zeroValues (exportedOnlyFields fs)) = zeroValues fs
  | .nil => by simp [withUnexportedFields, zeroValues]
  | .cons field type rest => by
    have ih := withUnexportedFields_zeroValues rest
    by_cases hx : field.exported = true
    · simp [withUnexportedFields, exportedOnlyFields, zeroValues, hx, ih, withUnexported_zero]
    · simp [withUnexportedFields, exportedOnlyFields, zeroValues, hx, ih]

theorem initRef.subtree_congr (env : Env) (field : StructField) (isPtr : Bool) (attrs : Slice)
    (w : World) (recur recur2 : Slice → World → Flow (Option GoString) × Value × World)
    (f g : Value → Value)
    (h : ∀ e w1, recur e w1 = ((recur2 e w1).1, f (recur2 e w1).2.1, (recur2 e w1).2.2))
    (hz : g .zero = .zero)
    (hg : ∀ n, g (if isPtr then .pointer n else n) = if isPtr then .pointer (f n) else f n) :
    initRef.subtree env field isPtr attrs w recur
      = ((initRef.subtree env field isPtr attrs w recur2).1,
         g (initRef.subtree env field isPtr attrs w recur2).2.1,
         (initRef.subtree env field isPtr attrs w recur2).2.2) := by
  unfold initRef.subtree
  rcases extractTag attrsTag field (getAttrs env.lib) w with ⟨⟨inner, _ | err⟩, w1⟩
  · simp only []
    rcases goAppend env.growslice w1.heap attrs inner with ⟨e, h1⟩
    simp only [h]
    rcases recur2 e { w1 with heap := h1 } with ⟨(_ | err) | msg, n, w2⟩
    · simp [hg]
    · simp [hz]
    · simp [hz]
  · simp [hz]

theorem initRef.loop_step_congr (env : Env) (sName : GoString) (field : StructField)
    (type : GoType) (rest : FieldList) (s : Slice)
    (b : Flow (Option GoString) × Value × World)
    (ih : ∀ w1, initRef.loop env sName rest s w1
      = ((initRef.loop env sName (exportedOnlyFields rest) s w1).1,
         withUnexportedFields rest (initRef.loop env sName (exportedOnlyFields rest) s w1).2.1,
         (initRef.loop env sName (exportedOnlyFields rest) s w1).2.2))
    (hx : field.exported = true) :
    (match (b.1, withUnexported type b.2.1, b.2.2) with
      | (.ret none, v, w) =>
        match initRef.loop env sName rest s w with
        | (r, vals, w) => (r, v :: vals, w)
      | (r, v, w) => (r, v :: zeroValues rest, w))
    = ((match b with
        | (.ret none, v, w) =>
          match initRef.loop env sName (exportedOnlyFields rest) s w with
          | (r, vals, w) => (r, v :: vals, w)
        | (r, v, w) => (r, v :: zeroValues (exportedOnlyFields rest), w)).1,
       withUnexportedFields (.cons field type rest) (match b with
        | (.ret none, v, w) =>
          match initRef.loop env sName (exportedOnlyFields rest) s w with
          | (r, vals, w) => (r, v :: vals, w)
        | (r, v, w) => (r, v :: zeroValues (exportedOnlyFields rest), w)).2.1,
       (match b with
        | (.ret none, v, w) =>
          match initRef.loop env sName (exportedOnlyFields rest) s w with
          | (r, vals, w) => (r, v :: vals, w)
        | (r, v, w) => (r, v :: zeroValues (exportedOnlyFields rest), w)).2.2) := by
  obtain ⟨(_ | err) | msg, v, w1⟩ := b
  · simp only []
    rw [ih w1]
    simp [withUnexportedFields, hx]
  · simp [withUnexportedFields, hx, withUnexportedFields_zeroValues]
  · simp [withUnexportedFields, hx, withUnexportedFields_zeroValues]

mutual
/-- The walk of a blueprint is the walk of the blueprint without its unexported fields, with
the zero value at every unexported field. -/
theorem initRef_exportedOnly (env : Env) : ∀ (T : GoType) (s : Slice) (w : World),
    initRef env T s w
      = ((initRef env (exportedOnly T) s w).1,
         withUnexported T (initRef env (exportedOnly T) s w).2.1,
         (initRef env (exportedOnly T) s w).2.2)
  | .struct name fields, s, w => by
    have := initRef.loop_exportedOnly env name fields s w
    simp only [initRef, exportedOnly]
    rw [this]
    simp [withUnexported]
  | .pointer elem, s, w => by simp [initRef, exportedOnly, withUnexported]
  | .basic kind name methods, s, w => by simp [initRef, exportedOnly, withUnexported]
/-- The loop over the fields is the loop over the exported fields, with the zero value at
every unexported field. -/
theorem initRef.loop_exportedOnly (env : Env) (sName : GoString) :
    ∀ (fs : FieldList) (s : Slice) (w : World),
    initRef.loop env sName fs s w
      = ((initRef.loop env sName (exportedOnlyFields fs) s w).1,
         withUnexportedFields fs (initRef.loop env sName (exportedOnlyFields fs) s w).2.1,
         (initRef.loop env sName (exportedOnlyFields fs) s w).2.2)
  | .nil, s, w => by simp [initRef.loop, exportedOnlyFields, withUnexportedFields]
  | .cons field (.struct name fields) rest, s, w => by
    by_cases hx : field.exported = true
    · have hsub := initRef.subtree_congr env field false s (w.log (.visit field.Name))
        (fun e w1 => initRef env (.struct name fields) e w1)
        (fun e w1 => initRef env (exportedOnly (.struct name fields)) e w1)
        (withUnexported (.struct name fields)) (withUnexported (.struct name fields))
        (fun e w1 => initRef_exportedOnly env (.struct name fields) e w1)
        (withUnexported_zero _) (by simp)
      have := initRef.loop_step_congr env sName field (.struct name fields) rest s
        (initRef.subtree env field false s (w.log (.visit field.Name))
          (fun e w1 => initRef env (exportedOnly (.struct name fields)) e w1))
        (fun w1 => initRef.loop_exportedOnly env sName rest s w1) hx
      rw [← hsub] at this
      simpa [initRef.loop, hx, exportedOnlyFields, exportedOnly] using this
    · have := initRef.loop_exportedOnly env sName rest s w
      simp only [initRef.loop, hx, exportedOnlyFields, withUnexportedFields]
      rw [this]
      simp
  | .cons field (.pointer elem) rest, s, w => by
    by_cases hx : field.exported = true
    · have hsub := initRef.subtree_congr env field true s (w.log (.visit field.Name))
        (fun e w1 => initRef env elem e w1)
        (fun e w1 => initRef env (exportedOnly elem) e w1)
        (withUnexported elem) (withUnexported (.pointer elem))
        (fun e w1 => initRef_exportedOnly env elem e w1)
        (withUnexported_zero _) (by simp [withUnexported])
      have := initRef.loop_step_congr env sName field (.pointer elem) rest s
        (initRef.subtree env field true s (w.log (.visit field.Name))
          (fun e w1 => initRef env (exportedOnly elem) e w1))
        (fun w1 => initRef.loop_exportedOnly env sName rest s w1) hx
      rw [← hsub] at this
      simpa [initRef.loop, hx, exportedOnlyFields, exportedOnly] using this
    · have := initRef.loop_exportedOnly env sName rest s w
      simp only [initRef.loop, hx, exportedOnlyFields, withUnexportedFields]
      rw [this]
      simp
  | .cons field (.basic kind name methods) rest, s, w => by
    by_cases hx : field.exported = true
    · have := initRef.loop_step_congr env sName field (.basic kind name methods) rest s
        (initRef.leaf env sName field kind name methods s (w.log (.visit field.Name)))
        (fun w1 => initRef.loop_exportedOnly env sName rest s w1) hx
      simp only [withUnexported] at this
      simpa [initRef.loop, hx, exportedOnlyFields, exportedOnly] using this
    · have := initRef.loop_exportedOnly env sName rest s w
      simp only [initRef.loop, hx, exportedOnlyFields, withUnexportedFields]
      rw [this]
      simp
end

/-- C13. Unexported fields are skipped unconditionally. For every blueprint `T`, slice and
state, `Init` on `T` ends as `Init` on `T` with its unexported fields removed does: the same
outcome (success, the same error, or the same panic), the same final state (heap, tags
resolved, bindings dispatched and backend creation calls, in the same order), and the tree is
the tree of the reduced blueprint with the zero value at every unexported field, so every
exported leaf holds the same handle. -/
theorem Init_skips_unexported (env : Env) (T : GoType) (s : Slice) (w : World) :
    Init env T s w
      = (onTree (withUnexported T) (Init env (exportedOnly T) s w).1,
         (Init env (exportedOnly T) s w).2) := by
  unfold Init
  rw [initRef_exportedOnly env T s w]
  rcases initRef env (exportedOnly T) s w with ⟨(_ | err) | msg, v, w2⟩ <;> simp [onTree]

/-- C13 at `hiddenFaults`: the unexported leaf without `id` tag and the unexported sub-tree
with a malformed `attrs` tag keep the zero value, nothing of them is resolved, and the exported
leaf is bound. -/
theorem Init_skips_unexported_hiddenFaults :
    exportedOnly hiddenFaults
      = .struct (str "hiddenFaults") (.cons (field "C" [("id", "c")]) I64Counter .nil) ∧
    Init envLive hiddenFaults nilSlice emptyWorld
      = (.ret (some (.struct [.zero, .zero,
            .handle (.addImpl { T := .I64, baseAdd := some 0, parentAttrs := nilSlice })]),
            none),
         { heap := [[]],
           trace := [.visit (str "C"), .resolve (str "C") idTag,
                     .dispatch .i64c counter (str "c") [] [],
                     .meter (.Int64Counter (str "c")) none] }) :=
  ⟨rfl, (Init_skips_unexported envLive hiddenFaults nilSlice emptyWorld).trans rfl⟩

/-! ## The tree of a successful bind -/

theorem initializeByKind.finish_some (kind : GoString)
    (r : (Option Handle × Option GoString) × World) (h : Handle)
    (hh : (initializeByKind.finish kind r).1 = (some h, none)) : r.1 = (some h, none) := by
  obtain ⟨⟨_ | v, _ | e⟩, w⟩ := r <;> simp_all [initializeByKind.finish]

theorem provider.i64c_ready (p : Option provider) (kind id : GoString) (attrs : Slice)
    (w : World) (h : Handle) (hk : kind = counter ∨ kind = upDownCounter)
    (hh : (provider.i64c p kind id attrs w).1 = (some h, none)) : h.ready = true := by
  rcases p with _ | p
  · simp only [provider.i64c, Prod.mk.injEq, Option.some.injEq, and_true] at hh
    subst hh; rfl
  · unfold provider.i64c at hh
    simp only [provider.create_eq] at hh
    rcases hk with hk | hk
    · subst hk
      simp only [if_true] at hh
      rcases hm : p.m (backendCalls w.trace) (.Int64Counter id) with _ | e <;>
        simp only [hm, Prod.mk.injEq, Option.some.injEq, and_true, reduceCtorEq, and_false,
          false_and] at hh
      subst hh; rfl
    · subst hk
      simp only [(by decide : upDownCounter ≠ counter), if_false, if_true] at hh
      rcases hm : p.m (backendCalls w.trace) (.Int64UpDownCounter id) with _ | e <;>
        simp only [hm, Prod.mk.injEq, Option.some.injEq, and_true, reduceCtorEq, and_false,
          false_and] at hh
      subst hh; rfl

theorem provider.f64c_ready (p : Option provider) (kind id : GoString) (attrs : Slice)
    (w : World) (h : Handle) (hk : kind = counter ∨ kind = upDownCounter)
    (hh : (provider.f64c p kind id attrs w).1 = (some h, none)) : h.ready = true := by
  rcases p with _ | p
  · simp only [provider.f64c, Prod.mk.injEq, Option.some.injEq, and_true] at hh
    subst hh; rfl
  · unfold provider.f64c at hh
    simp only [provider.create_eq] at hh
    rcases hk with hk | hk
    · subst hk
      simp only [if_true] at hh
      rcases hm : p.m (backendCalls w.trace) (.Float64Counter id) with _ | e <;>
        simp only [hm, Prod.mk.injEq, Option.some.injEq, and_true, reduceCtorEq, and_false,
          false_and] at hh
      subst hh; rfl
    · subst hk
      simp only [(by decide : upDownCounter ≠ counter), if_false, if_true] at hh
      rcases hm : p.m (backendCalls w.trace) (.Float64UpDownCounter id) with _ | e <;>
        simp only [hm, Prod.mk.injEq, Option.some.injEq, and_true, reduceCtorEq, and_false,
          false_and] at hh
      subst hh; rfl

theorem provider.i64r_ready (p : Option provider) (kind id : GoString) (bounds : List Float64)
    (attrs : Slice) (w : World) (h : Handle) (hk : kind = gauge ∨ kind = histogram)
    (hh : (provider.i64r p kind id bounds attrs w).1 = (some h, none)) : h.ready = true := by
  rcases p with _ | p
  · simp only [provider.i64r, Prod.mk.injEq, Option.some.injEq, and_true] at hh
    subst hh; rfl
  · unfold provider.i64r at hh
    simp only [provider.create_eq] at hh
    rcases hk with hk | hk
    · subst hk
      simp only [if_true] at hh
      rcases hm : p.m (backendCalls w.trace) (.Int64Gauge id) with _ | e <;>
        simp only [hm, Prod.mk.injEq, Option.some.injEq, and_true, reduceCtorEq, and_false,
          false_and] at hh
      subst hh; rfl
    · subst hk
      simp only [(by decide : histogram ≠ gauge), if_false, if_true] at hh
      rcases hm : p.m (backendCalls w.trace) (.Int64Histogram id bounds) with _ | e <;>
        simp only [hm, Prod.mk.injEq, Option.some.injEq, and_true, reduceCtorEq, and_false,
          false_and] at hh
      subst hh; rfl

theorem provider.f64r_ready (p : Option provider) (kind id : GoString) (bounds : List Float64)
    (attrs : Slice) (w : World) (h : Handle) (hk : kind = gauge ∨ kind = histogram)
    (hh : (provider.f64r p kind id bounds attrs w).1 = (some h, none)) : h.ready = true := by
  rcases p with _ | p
  · simp only [provider.f64r, Prod.mk.injEq, Option.some.injEq, and_true] at hh
    subst hh; rfl
  · unfold provider.f64r at hh
    simp only [provider.create_eq] at hh
    rcases hk with hk | hk
    · subst hk
      simp only [if_true] at hh
      rcases hm : p.m (backendCalls w.trace) (.Float64Gauge id) with _ | e <;>
        simp only [hm, Prod.mk.injEq, Option.some.injEq, and_true, reduceCtorEq, and_false,
          false_and] at hh
      subst hh; rfl
    · subst hk
      simp only [(by decide : histogram ≠ gauge), if_false, if_true] at hh
      rcases hm : p.m (backendCalls w.trace) (.Float64Histogram id bounds) with _ | e <;>
        simp only [hm, Prod.mk.injEq, Option.some.injEq, and_true, reduceCtorEq, and_false,
          false_and] at hh
      subst hh; rfl

/-- A handle `initializeByKind` returns is ready for calls. -/
theorem initializeByKind_ready (env : Env) (t kind : GoString) (field : StructField)
    (attrs : Slice) (w : World) (h : Handle)
    (hh : (initializeByKind env t kind field attrs w).1 = (some h, none)) :
    h.ready = true := by
  unfold initializeByKind at hh
  simp only [extractTag] at hh
  rcases hid : getID field with ⟨id, _ | e⟩
  · rw [hid] at hh
    simp only [] at hh
    by_cases hk1 : kind = counter ∨ kind = upDownCounter
    · simp only [hk1, if_true] at hh
      by_cases ht : t = i64Type
      · simp only [ht, if_true] at hh
        exact provider.i64c_ready _ _ _ _ _ _ hk1 (initializeByKind.finish_some _ _ _ hh)
      · simp only [ht, if_false] at hh
        exact provider.f64c_ready _ _ _ _ _ _ hk1 (initializeByKind.finish_some _ _ _ hh)
    · simp only [hk1, if_false] at hh
      by_cases hk2 : kind = gauge ∨ kind = histogram
      · simp only [hk2, if_true] at hh
        by_cases hk3 : kind = histogram
        · simp only [hk3, if_true] at hh
          rcases hg : getBounds env.lib field with ⟨bounds, _ | e⟩
          · rw [hg] at hh
            simp only [] at hh
            by_cases ht : t = i64Type
            · simp only [ht, if_true] at hh
              exact provider.i64r_ready _ _ _ _ _ _ _ (Or.inr rfl)
                (initializeByKind.finish_some _ _ _ hh)
            · simp only [ht, if_false] at hh
              exact provider.f64r_ready _ _ _ _ _ _ _ (Or.inr rfl)
                (initializeByKind.finish_some _ _ _ hh)
          · rw [hg] at hh
            simp at hh
        · simp only [hk3, if_false] at hh
          by_cases ht : t = i64Type
          · simp only [ht, if_true] at hh
            exact provider.i64r_ready _ _ _ _ _ _ _ hk2 (initializeByKind.finish_some _ _ _ hh)
          · simp only [ht, if_false] at hh
            exact provider.f64r_ready _ _ _ _ _ _ _ hk2 (initializeByKind.finish_some _ _ _ hh)
      · simp [hk2, initializeByKind.finish] at hh
  · rw [hid] at hh
    simp at hh

theorem initRef.leaf_populated (env : Env) (sName : GoString) (field : StructField)
    (kind : Kind) (name : GoString) (methods : List Method) (attrs : Slice) (w : World)
    (h : (initRef.leaf env sName field kind name methods attrs w).1 = .ret none) :
    leafPopulated kind methods (initRef.leaf env sName field kind name methods attrs w).2.1
      = true := by
  unfold leafPopulated
  by_cases hi : implementsOneOf methods supported = true
  · unfold initRef.leaf at h ⊢
    simp only [hi, if_true] at h ⊢
    rcases htk : typeAndKindFor (if name = [] then sName else name) with ⟨t, k⟩ | msg
    · rw [htk] at h
      simp only [] at h ⊢
      rcases hr : initializeByKind env t k field attrs w with ⟨⟨_ | val, _ | err⟩, w2⟩
      · rw [hr] at h; simp at h
      · rw [hr] at h; simp at h
      · have hready := initializeByKind_ready env t k field attrs w val (by rw [hr])
        rw [hr] at h
        by_cases ha : assignable val kind methods = true
        · simp [ha, hready]
        · simp [ha] at h
      · rw [hr] at h; simp at h
    · rw [htk] at h; simp at h
  · simp [hi]

theorem initRef.subtree_inv (env : Env) (field : StructField) (isPtr : Bool) (attrs : Slice)
    (w : World) (recur : Slice → World → Flow (Option GoString) × Value × World)
    (h : (initRef.subtree env field isPtr attrs w recur).1 = .ret none) :
    ∃ e w1, (recur e w1).1 = .ret none ∧
      (initRef.subtree env field isPtr attrs w recur).2.1
        = if isPtr then .pointer (recur e w1).2.1 else (recur e w1).2.1 := by
  unfold initRef.subtree at h ⊢
  rcases ht : extractTag attrsTag field (getAttrs env.lib) w with ⟨⟨inner, _ | err⟩, w1⟩
  · rw [ht] at h
    simp only [] at h ⊢
    rcases ha : goAppend env.growslice w1.heap attrs inner with ⟨e, h1⟩
    rw [ha] at h
    simp only [] at h ⊢
    refine ⟨e, { w1 with heap := h1 }, ?_⟩
    rcases hr : recur e { w1 with heap := h1 } with ⟨(_ | err) | msg, n, w2⟩
    · simp
    · rw [hr] at h; simp at h
    · rw [hr] at h; simp at h
  · rw [ht] at h; simp at h

theorem initRef.loop_step_inv (env : Env) (sName : GoString) (rest : FieldList) (s : Slice)
    (b : Flow (Option GoString) × Value × World)
    (h : (match b with
      | (.ret none, v, w) =>
        match initRef.loop env sName rest s w with
        | (r, vals, w) => (r, v :: vals, w)
      | (r, v, w) => (r, v :: zeroValues rest, w)).1 = .ret none) :
    b.1 = .ret none ∧ (initRef.loop env sName rest s b.2.2).1 = .ret none ∧
    (match b with
      | (.ret none, v, w) =>
        match initRef.loop env sName rest s w with
        | (r, vals, w) => (r, v :: vals, w)
      | (r, v, w) => (r, v :: zeroValues rest, w)).2.1
      = b.2.1 :: (initRef.loop env sName rest s b.2.2).2.1 := by
  obtain ⟨(_ | err) | msg, v, w1⟩ := b
  · simpa using h
  · simp at h
  · simp at h

mutual
/-- A walk that ends without fault leaves a fully populated tree. -/
theorem initRef_populated (env : Env) : ∀ (T : GoType) (s : Slice) (w : World),
    (initRef env T s w).1 = .ret none → populated T (initRef env T s w).2.1 = true
  | .struct name fields, s, w, h => by
    have := initRef.loop_populated env name fields s w (by simpa only [initRef] using h)
    simpa only [initRef, populated] using this
  | .pointer _, s, w, h => by simp [initRef] at h
  | .basic _ _ _, s, w, h => by simp [initRef] at h
/-- A loop that ends without fault leaves every exported field populated. -/
theorem initRef.loop_populated (env : Env) (sName : GoString) :
    ∀ (fs : FieldList) (s : Slice) (w : World),
    (initRef.loop env sName fs s w).1 = .ret none →
    populatedFields fs (initRef.loop env sName fs s w).2.1 = true
  | .nil, s, w, h => by simp [initRef.loop, populatedFields]
  | .cons field (.struct name fields) rest, s, w, h => by
    by_cases hx : field.exported = true
    · simp only [initRef.loop, hx, Bool.not_true, Bool.false_eq_true, if_false] at h ⊢
      obtain ⟨h1, h2, h3⟩ := initRef.loop_step_inv env sName rest s _ h
      rw [h3]
      obtain ⟨e, w1, hr, hv⟩ := initRef.subtree_inv env field false s _ _ h1
      simp only [populatedFields, hx, Bool.not_true, Bool.false_or, Bool.and_eq_true]
      refine ⟨?_, initRef.loop_populated env sName rest s _ h2⟩
      rw [hv]
      exact initRef_populated env (.struct name fields) e w1 hr
    · simp only [initRef.loop, hx, Bool.not_false, if_true] at h ⊢
      have := initRef.loop_populated env sName rest s w h
      simpa [populatedFields, hx] using this
  | .cons field (.pointer elem) rest, s, w, h => by
    by_cases hx : field.exported = true
    · simp only [initRef.loop, hx, Bool.not_true, Bool.false_eq_true, if_false] at h ⊢
      obtain ⟨h1, h2, h3⟩ := initRef.loop_step_inv env sName rest s _ h
      rw [h3]
      obtain ⟨e, w1, hr, hv⟩ := initRef.subtree_inv env field true s _ _ h1
      simp only [populatedFields, hx, Bool.not_true, Bool.false_or, Bool.and_eq_true]
      refine ⟨?_, initRef.loop_populated env sName rest s _ h2⟩
      rw [hv]
      exact initRef_populated env elem e w1 hr
    · simp only [initRef.loop, hx, Bool.not_false, if_true] at h ⊢
      have := initRef.loop_populated env sName rest s w h
      simpa [populatedFields, hx] using this
  | .cons field (.basic kind name methods) rest, s, w, h => by
    by_cases hx : field.exported = true
    · simp only [initRef.loop, hx, Bool.not_true, Bool.false_eq_true, if_false] at h ⊢
      obtain ⟨h1, h2, h3⟩ := initRef.loop_step_inv env sName rest s _ h
      rw [h3]
      simp only [populatedFields, hx, Bool.not_true, Bool.false_or, Bool.and_eq_true]
      exact ⟨initRef.leaf_populated env sName field kind name methods s _ h1,
        initRef.loop_populated env sName rest s _ h2⟩
    · simp only [initRef.loop, hx, Bool.not_false, if_true] at h ⊢
      have := initRef.loop_populated env sName rest s w h
      simpa [populatedFields, hx] using this
end

/-- C14. Whenever `Init` succeeds the returned tree is fully populated: at every depth reached
through exported struct and pointer-to-struct fields, every exported instrument-leaf field
holds a handle (ready for calls and assignable to the field's type), every exported struct
field holds a populated sub-tree, and every exported pointer field points to a populated
sub-tree, never nil. -/
theorem Init_populated (env : Env) (T : GoType) (s : Slice) (w : World) (tree : Value)
    (h : (Init env T s w).1 = .ret (some tree, none)) : populated T tree = true := by
  unfold Init at h
  have := initRef_populated env T s w
  rcases hr : initRef env T s w with ⟨(_ | err) | msg, v, w2⟩
  · rw [hr] at h this
    simp only [Flow.ret.injEq, Prod.mk.injEq, Option.some.injEq, and_true] at h
    subst h
    exact this rfl
  · rw [hr] at h; simp at h
  · rw [hr] at h; simp at h

/-- C14 at the blueprint `scenario`, bound through a provider. -/
theorem Init_populated_witness :
    (InitWith envLive scenario [] []).1 = .ret (some scenarioTree, none) ∧
    populated scenario scenarioTree = true :=
  ⟨rfl, Init_populated envLive scenario (callerSlice [] []).1 (callerSlice [] []).2
    scenarioTree rfl⟩

/-! ## The outcomes of `Init` and `MustInit` -/

/-- What `Init` can do: return a tree and no error, return a nil pointer and an error, or
panic. It never returns a tree together with an error, nor a nil pointer without error. -/
theorem Init_outcome (env : Env) (T : GoType) (s : Slice) (w : World) :
    (∃ tree, (Init env T s w).1 = .ret (some tree, none)) ∨
    (∃ err, (Init env T s w).1 = .ret (none, some err)) ∨
    ∃ msg, (Init env T s w).1 = .panic msg := by
  unfold Init
  rcases initRef env T s w with ⟨(_ | err) | msg, v, w2⟩
  · exact Or.inl ⟨v, rfl⟩
  · exact Or.inr (Or.inl ⟨err, rfl⟩)
  · exact Or.inr (Or.inr ⟨msg, rfl⟩)

/-- C15, at the failing input: on `fooCounter` `Init` returns neither a tree nor an error. The
leaf `X` implements `add[int64]`, `typeAndKindFor` reads the domain `F` off its type name, the
handle made is one of `float64`, and storing it in the field panics; with a provider the
backend has by then created the instrument. -/
theorem Init_fooCounter_panics :
    typeAndKindFor (str "FooCounter") = .ret (str "F", counter) ∧
    InitWith envNil fooCounter [] []
      = (.panic (str "reflect.Set: value is not assignable to type " ++ str "FooCounter"),
         { heap := [[]],
           trace := [.visit (str "X"), .resolve (str "X") idTag,
                     .dispatch .f64c counter (str "x") [] []] }) ∧
    InitWith envLive fooCounter [] []
      = (.panic (str "reflect.Set: value is not assignable to type " ++ str "FooCounter"),
         { heap := [[]],
           trace := [.visit (str "X"), .resolve (str "X") idTag,
                     .dispatch .f64c counter (str "x") [] [],
                     .meter (.Float64Counter (str "x")) none] }) := by
  refine ⟨by decide, rfl, rfl⟩

/-- A round of the loop that does not end without fault ends the loop: the outcome and the
state of the loop are those of the round, so nothing is resolved or created for the fields
after it, which keep their zero value. -/
theorem initRef.loop_step_abort (env : Env) (sName : GoString) (rest : FieldList) (s : Slice)
    (b : Flow (Option GoString) × Value × World) (h : b.1 ≠ .ret none) :
    (match b with
      | (.ret none, v, w) =>
        match initRef.loop env sName rest s w with
        | (r, vals, w) => (r, v :: vals, w)
      | (r, v, w) => (r, v :: zeroValues rest, w)) = (b.1, b.2.1 :: zeroValues rest, b.2.2) := by
  obtain ⟨(_ | err) | msg, v, w1⟩ := b
  · simp at h
  · rfl
  · rfl

/-- C16, at the failing input: on `opThenHistogram`, whose first faulty field in declaration
order is `X` (its type `Op` is none of the eight kinds) and whose second is the histogram `H`
with an unparsable `buckets` tag, `Init` returns no error at all: `typeAndKindFor` panics on
the two-byte name. Nothing is resolved for `X` or `H`. The same on `anonLeaf`, where the name
handed to `typeAndKindFor` is empty. -/
theorem Init_first_fault_panics :
    InitWith envLive opThenHistogram [] []
      = (.panic (str "runtime error: slice bounds out of range [3:2]"),
         { heap := [[]], trace := [.visit (str "X")] }) ∧
    InitWith envNil opThenHistogram [] []
      = (.panic (str "runtime error: slice bounds out of range [3:2]"),
         { heap := [[]], trace := [.visit (str "X")] }) ∧
    (InitWith envLive anonLeaf [] []).1
      = .panic (str "runtime error: index out of range [0] with length 0") := by
  refine ⟨rfl, rfl, rfl⟩

/-- What `MustInit` does with each outcome of `Init`: it returns the tree when `Init` returns no
error, panics with the error when `Init` returns one, and panics as `Init` does when `Init`
panics; the state is the one `Init` leaves. -/
theorem MustInit_of_Init (env : Env) (T : GoType) (s : Slice) (w : World) :
    (MustInit env T s w).2 = (Init env T s w).2 ∧
    (∀ res, (Init env T s w).1 = .ret (res, none) → (MustInit env T s w).1 = .ret res) ∧
    (∀ res err, (Init env T s w).1 = .ret (res, some err) →
      (MustInit env T s w).1 = .panic err) ∧
    (∀ msg, (Init env T s w).1 = .panic msg → (MustInit env T s w).1 = .panic msg) := by
  unfold MustInit
  rcases Init env T s w with ⟨⟨res, _ | err⟩ | msg, w2⟩ <;> simp

/-- C19, at the failing input: on `opThenCounter` `MustInit` panics although `Init` returns no
error (`Init` itself panics), and the panic value is the runtime error of `typeAndKindFor`, not
an error of `Init`; likewise on `fooCounter` with the panic of `reflect.Set`. -/
theorem MustInit_panics_without_error :
    (MustInit envLive opThenCounter (callerSlice [] []).1 (callerSlice [] []).2).1
      = .panic (str "runtime error: slice bounds out of range [3:2]") ∧
    (Init envLive opThenCounter (callerSlice [] []).1 (callerSlice [] []).2).1
      = .panic (str "runtime error: slice bounds out of range [3:2]") ∧
    (MustInit envNil fooCounter (callerSlice [] []).1 (callerSlice [] []).2).1
      = .panic (str "reflect.Set: value is not assignable to type " ++ str "FooCounter") ∧
    (Init envNil fooCounter (callerSlice [] []).1 (callerSlice [] []).2).1
      = .panic (str "reflect.Set: value is not assignable to type " ++ str "FooCounter") := by
  refine ⟨rfl, rfl, rfl, rfl⟩

/-! ## Binding twice -/

theorem callerSliceIn_valid (w : World) (base spare : List KeyValue) :
    (callerSliceIn w base spare).1.valid (callerSliceIn w base spare).2.heap := by
  simp [callerSliceIn, Slice.valid, Heap.array]

/-- A bind on a caller slice with a backing array of its own leaves the arrays that existed
before the call as they were, so every slice held by a handle of an earlier bind reads the
same after it. -/
theorem InitIn_keeps_arrays (env : Env) (T : GoType) (w : World) (base spare : List KeyValue)
    (i : Nat) (hi : i < w.heap.length) :
    (InitIn env T w base spare).2.heap.array i = w.heap.array i := by
  have hp := initRef_post env T _ _ (callerSliceIn_valid w base spare)
  obtain ⟨⟨_, hf⟩, _⟩ := hp
  have hlt : i < (callerSliceIn w base spare).2.heap.length := by
    simp [callerSliceIn]; omega
  have hne : i ≠ (callerSliceIn w base spare).1.arr := by
    simp [callerSliceIn]; omega
  rw [InitIn, Init_world, (hf i hlt).2.1 hne]
  simp [callerSliceIn, Heap.array, List.getElem?_append_left hi]

/-- C17, at the failing input: `siblings` bound twice through a provider, first with
`[layer=1]` and then with `[layer=2]`, each caller slice in an array of its own with capacity
2. Both binds succeed, and the second leaves the array of the first as it was; but in each
tree the leaf `C` of the first sibling, bound with `sub=a`, ends up reading the attribute of
the second sibling: the first tree's `C` reads `[layer=1, sub=b]` and sends that on `Add`, the
second tree's `C` reads `[layer=2, sub=b]`. Without spare capacity in the caller slices, once
the runtime has doubled a capacity: after `deepSiblings` is bound twice the first tree's leaf
`C`, bound with `c=3`, reads `c=4`. -/
theorem Init_twice_siblings :
    (InitIn envLive siblings (InitWith envLive siblings [kv "layer" "1"] [KeyValue.zero]).2
        [kv "layer" "2"] [KeyValue.zero]).1
      = .ret (some (.struct [
          .struct [.handle (.addImpl { T := .I64, baseAdd := some 2,
                                       parentAttrs := { arr := 1, len := 2, cap := 2 } })],
          .struct [.handle (.addImpl { T := .I64, baseAdd := some 3,
                                       parentAttrs := { arr := 1, len := 2, cap := 2 } })]]),
          none) ∧
    dispatched (InitIn envLive siblings
        (InitWith envLive siblings [kv "layer" "1"] [KeyValue.zero]).2
        [kv "layer" "2"] [KeyValue.zero]).2.trace
      = [(str "a", [kv "layer" "1", kv "sub" "a"]), (str "b", [kv "layer" "1", kv "sub" "b"]),
         (str "a", [kv "layer" "2", kv "sub" "a"]), (str "b", [kv "layer" "2", kv "sub" "b"])] ∧
    (InitIn envLive siblings (InitWith envLive siblings [kv "layer" "1"] [KeyValue.zero]).2
        [kv "layer" "2"] [KeyValue.zero]).2.heap.read { arr := 0, len := 2, cap := 2 }
      = [kv "layer" "1", kv "sub" "b"] ∧
    (InitIn envLive siblings (InitWith envLive siblings [kv "layer" "1"] [KeyValue.zero]).2
        [kv "layer" "2"] [KeyValue.zero]).2.heap.read { arr := 1, len := 2, cap := 2 }
      = [kv "layer" "2", kv "sub" "b"] ∧
    measurements (addImpl.Add
        { T := .I64, baseAdd := some 0, parentAttrs := { arr := 0, len := 2, cap := 2 } }
        (.i64 1) []
        (InitIn envLive siblings (InitWith envLive siblings [kv "layer" "1"] [KeyValue.zero]).2
          [kv "layer" "2"] [KeyValue.zero]).2).2.trace
      = [.Add 0 .Background (.i64 1) [.WithAttributes [kv "layer" "1", kv "sub" "b"]]] ∧
    (InitIn envDoubling deepSiblings (InitWith envDoubling deepSiblings [kv "layer" "1"] []).2
        [kv "layer" "2"] []).2.heap.read { arr := 2, len := 4, cap := 4 }
      = [kv "layer" "1", kv "a" "1", kv "b" "2", kv "c" "4"] := by
  refine ⟨rfl, by decide, by decide, by decide, by decide, by decide⟩

/-! ## Faulty fields reachable from the root -/

mutual
/-- The walk does not end without fault on a blueprint with a reachable field marked by `bad`,
when the round of every such field does not. -/
theorem initRef_reaches (env : Env) (bad : StructField → GoType → Bool)
    (hS : ∀ field name fields s w, bad field (.struct name fields) = true →
      (initRef.subtree env field false s w
        (fun e w1 => initRef env (.struct name fields) e w1)).1 ≠ .ret none)
    (hP : ∀ field elem s w, bad field (.pointer elem) = true →
      (initRef.subtree env field true s w (fun e w1 => initRef env elem e w1)).1 ≠ .ret none)
    (hL : ∀ sName field kind name methods s w, bad field (.basic kind name methods) = true →
      (initRef.leaf env sName field kind name methods s w).1 ≠ .ret none) :
    ∀ (T : GoType) (s : Slice) (w : World),
    reaches bad T = true → (initRef env T s w).1 ≠ .ret none
  | .struct name fields, s, w, h => by
    have := initRef.loop_reaches env bad hS hP hL name fields s w (by simpa [reaches] using h)
    simpa only [initRef] using this
  | .pointer _, s, w, h => by simp [reaches] at h
  | .basic _ _ _, s, w, h => by simp [reaches] at h
/-- The loop does not end without fault on fields with a reachable field marked by `bad`. -/
theorem initRef.loop_reaches (env : Env) (bad : StructField → GoType → Bool)
    (hS : ∀ field name fields s w, bad field (.struct name fields) = true →
      (initRef.subtree env field false s w
        (fun e w1 => initRef env (.struct name fields) e w1)).1 ≠ .ret none)
    (hP : ∀ field elem s w, bad field (.pointer elem) = true →
      (initRef.subtree env field true s w (fun e w1 => initRef env elem e w1)).1 ≠ .ret none)
    (hL : ∀ sName field kind name methods s w, bad field (.basic kind name methods) = true →
      (initRef.leaf env sName field kind name methods s w).1 ≠ .ret none)
    (sName : GoString) :
    ∀ (fs : FieldList) (s : Slice) (w : World),
    reachesFields bad fs = true → (initRef.loop env sName fs s w).1 ≠ .ret none
  | .nil, s, w, h => by simp [reachesFields] at h
  | .cons field (.struct name fields) rest, s, w, h => by
    simp only [reachesFields, Bool.or_eq_true, Bool.and_eq_true] at h
    by_cases hx : field.exported = true
    · have := initRef.loop_step_fails env sName rest s
        (initRef.subtree env field false s (w.log (.visit field.Name))
          (fun e w1 => initRef env (.struct name fields) e w1))
        (by
          rcases h with ⟨_, h | h⟩ | h
          · exact Or.inl (hS _ _ _ _ _ h)
          · exact Or.inl (initRef.subtree_fails _ _ _ _ _ _
              (Or.inr fun e w1 =>
                initRef_reaches env bad hS hP hL (.struct name fields) e w1 h))
          · exact Or.inr fun w1 => initRef.loop_reaches env bad hS hP hL sName rest s w1 h)
      simpa [initRef.loop, hx] using this
    · have hr : reachesFields bad rest = true := by
        rcases h with ⟨h, _⟩ | h
        · exact absurd h hx
        · exact h
      have := initRef.loop_reaches env bad hS hP hL sName rest s w hr
      simpa [initRef.loop, hx] using this
  | .cons field (.pointer elem) rest, s, w, h => by
    simp only [reachesFields, Bool.or_eq_true, Bool.and_eq_true] at h
    by_cases hx : field.exported = true
    · have := initRef.loop_step_fails env sName rest s
        (initRef.subtree env field true s (w.log (.visit field.Name))
          (fun e w1 => initRef env elem e w1))
        (by
          rcases h with ⟨_, h | h⟩ | h
          · exact Or.inl (hP _ _ _ _ h)
          · exact Or.inl (initRef.subtree_fails _ _ _ _ _ _
              (Or.inr fun e w1 => initRef_reaches env bad hS hP hL elem e w1 h))
          · exact Or.inr fun w1 => initRef.loop_reaches env bad hS hP hL sName rest s w1 h)
      simpa [initRef.loop, hx] using this
    · have hr : reachesFields bad rest = true := by
        rcases h with ⟨h, _⟩ | h
        · exact absurd h hx
        · exact h
      have := initRef.loop_reaches env bad hS hP hL sName rest s w hr
      simpa [initRef.loop, hx] using this
  | .cons field (.basic kind name methods) rest, s, w, h => by
    simp only [reachesFields, Bool.or_eq_true, Bool.and_eq_true] at h
    by_cases hx : field.exported = true
    · have := initRef.loop_step_fails env sName rest s
        (initRef.leaf env sName field kind name methods s (w.log (.visit field.Name)))
        (by
          rcases h with ⟨_, h⟩ | h
          · exact Or.inl (hL _ _ _ _ _ _ _ h)
          · exact Or.inr fun w1 => initRef.loop_reaches env bad hS hP hL sName rest s w1 h)
      simpa [initRef.loop, hx] using this
    · have hr : reachesFields bad rest = true := by
        rcases h with ⟨h, _⟩ | h
        · exact absurd h hx
        · exact h
      have := initRef.loop_reaches env bad hS hP hL sName rest s w hr
      simpa [initRef.loop, hx] using this
end

/-! ## Blueprints that are no traversable record -/

theorem initRef_pointsToNonStruct (env : Env) (T : GoType) (s : Slice) (w : World)
    (h : reaches pointsToNonStruct T = true) : (initRef env T s w).1 ≠ .ret none := by
  refine initRef_reaches env pointsToNonStruct ?_ ?_ ?_ T s w h
  · intro field name fields s w hb
    simp [pointsToNonStruct] at hb
  · intro field elem s w hb
    refine initRef.subtree_fails _ _ _ _ _ _ (Or.inr fun e w1 => ?_)
    cases elem with
    | struct name fields => simp [pointsToNonStruct] at hb
    | pointer elem => simp [initRef]
    | basic kind name methods => simp [initRef]
  · intro sName field kind name methods s w hb
    simp [pointsToNonStruct] at hb

/-- C18. `Init` on a blueprint type that is not a struct returns a nil pointer and the
invalid-shape error naming the kind, and does nothing else: for every type of a kind other than
struct and pointer (scalars, strings, slices, maps, interfaces), and for every pointer type,
also a pointer to a struct (kind `ptr`). The same check makes the walk of a struct fail at an
exported pointer field whose referent is not a struct: when the `attrs` tag of the field
resolves, the loop ends there with the invalid-shape error of the referent, wrapped; and `Init`
returns no tree (a nil pointer and an error, or it does not return) on every blueprint in which
such a field is reachable from the root through exported struct and pointer-to-struct
fields. -/
theorem Init_invalid_shape (env : Env) (s : Slice) (w : World) :
    (∀ kind name methods, Init env (.basic kind name methods) s w
      = (.ret (none, some (str "expected a struct type, got " ++ kind.text)), w)) ∧
    (∀ elem, Init env (.pointer elem) s w
      = (.ret (none, some (str "expected a struct type, got " ++ str "ptr")), w)) ∧
    (∀ sName field kind name methods rest, field.exported = true →
      (getAttrs env.lib field).2 = none →
      (initRef.loop env sName (.cons field (.pointer (.basic kind name methods)) rest) s w).1
        = .ret (some (str "field initialization failed: " ++
            (str "expected a struct type, got " ++ kind.text)))) ∧
    (∀ sName field elem rest, field.exported = true →
      (getAttrs env.lib field).2 = none →
      (initRef.loop env sName (.cons field (.pointer (.pointer elem)) rest) s w).1
        = .ret (some (str "field initialization failed: " ++
            (str "expected a struct type, got " ++ str "ptr")))) ∧
    (∀ T, reaches pointsToNonStruct T = true →
      (∃ err, (Init env T s w).1 = .ret (none, some err)) ∨
        ∃ msg, (Init env T s w).1 = .panic msg) := by
  refine ⟨fun kind name methods => by simp [Init, initRef],
    fun elem => by simp [Init, initRef], ?_, ?_, ?_⟩
  · intro sName field kind name methods rest hx hg
    rcases hga : getAttrs env.lib field with ⟨inner, _ | e⟩
    · simp only [initRef.loop, hx, initRef.subtree, extractTag, hga, initRef]
      simp
    · rw [hga] at hg; simp at hg
  · intro sName field elem rest hx hg
    rcases hga : getAttrs env.lib field with ⟨inner, _ | e⟩
    · simp only [initRef.loop, hx, initRef.subtree, extractTag, hga, initRef]
      simp
    · rw [hga] at hg; simp at hg
  · intro T h
    exact Init_fails_of_initRef env T s w (initRef_pointsToNonStruct env T s w h)

/-- C18 at `int`, `[]string`, `map[string]int`, a pointer to the struct `scenario`, and at the
blueprints `ptrToInt` and `nestedPtrToInt` with an exported field `P *int`. -/
theorem Init_invalid_shape_witness :
    (Init envLive (.basic .Int (str "int") []) nilSlice emptyWorld).1
      = .ret (none, some (str "expected a struct type, got int")) ∧
    (Init envLive (.basic .Slice [] []) nilSlice emptyWorld).1
      = .ret (none, some (str "expected a struct type, got slice")) ∧
    (Init envLive (.basic .Map [] []) nilSlice emptyWorld).1
      = .ret (none, some (str "expected a struct type, got map")) ∧
    (Init envLive (.pointer scenario) nilSlice emptyWorld).1
      = .ret (none, some (str "expected a struct type, got ptr")) ∧
    (field "P" []).exported = true ∧ (getAttrs envLive.lib (field "P" [])).2 = none ∧
    (initRef.loop envLive (str "ptrToInt")
        (.cons (field "P" []) (.pointer (.basic .Int (str "int") [])) .nil) nilSlice
        emptyWorld).1
      = .ret (some (str "field initialization failed: " ++
          str "expected a struct type, got int")) ∧
    reaches pointsToNonStruct nestedPtrToInt = true ∧
    ((∃ err, (Init envLive nestedPtrToInt nilSlice emptyWorld).1 = .ret (none, some err)) ∨
      ∃ msg, (Init envLive nestedPtrToInt nilSlice emptyWorld).1 = .panic msg) :=
  ⟨congrArg Prod.fst
      ((Init_invalid_shape envLive nilSlice emptyWorld).1 .Int (str "int") []),
   rfl, rfl, rfl, rfl, rfl,
   (Init_invalid_shape envLive nilSlice emptyWorld).2.2.1 (str "ptrToInt") (field "P" []) .Int
      (str "int") [] .nil rfl rfl,
   by decide,
   (Init_invalid_shape envLive nilSlice emptyWorld).2.2.2.2 nestedPtrToInt (by decide)⟩

/-! ## The `buckets` tag -/

theorem backendCalls_append (a b : List Event) :
    backendCalls (a ++ b) = backendCalls a ++ backendCalls b := by
  induction a with
  | nil => rfl
  | cons e rest ih => cases e <;> simp [backendCalls, ih]

theorem initializeByKind_same_without_buckets (env : Env) (t kind : GoString)
    (f1 f2 : StructField) (attrs : Slice) (w : World)
    (hk : kind = counter ∨ kind = upDownCounter ∨ kind = gauge)
    (hn : f1.Name = f2.Name) (hid : StructTag_Get f1.Tag idTag = StructTag_Get f2.Tag idTag) :
    initializeByKind env t kind f1 attrs w = initializeByKind env t kind f2 attrs w := by
  have hne : kind ≠ histogram := by
    rcases hk with rfl | rfl | rfl <;> decide
  simp only [initializeByKind, extractTag, getID, hn, hid, hne, if_false]

theorem initializeByKind_no_buckets_event (env : Env) (t kind : GoString)
    (field : StructField) (attrs : Slice) (w : World)
    (hk : kind = counter ∨ kind = upDownCounter ∨ kind = gauge) :
    ∃ l, (initializeByKind env t kind field attrs w).2.trace = w.trace ++ l ∧
      l.all (fun e => !e.usesBuckets) = true := by
  have e1 : (upDownCounter = counter) = False := eq_false (by decide)
  have e2 : (gauge = counter) = False := eq_false (by decide)
  have e3 : (gauge = upDownCounter) = False := eq_false (by decide)
  have e7 : (gauge = histogram) = False := eq_false (by decide)
  have e8 : (idTag = bucketsTag) = False := eq_false (by decide)
  by_cases hid : StructTag_Get field.Tag idTag = []
  · refine ⟨[.resolve field.Name idTag], ?_, by simp [Event.usesBuckets, e8]⟩
    simp [initializeByKind, extractTag, getID, hid, World.log]
  · by_cases ht : t = i64Type <;> rcases hp : env.prov with _ | p <;>
      rcases hk with rfl | rfl | rfl <;>
      simp only [initializeByKind, extractTag, getID, hid, hp, ht, e1, e2, e3, e7, if_true,
        if_false, or_true, true_or, or_false, false_or, provider.i64c, provider.f64c,
        provider.i64r, provider.f64r, provider.create_eq, World.log, List.append_assoc,
        List.singleton_append, List.cons_append, List.nil_append]
    all_goals first
      | (cases p.m _ _ <;>
          simp [initializeByKind.finish, Event.usesBuckets, e8])
      | simp [initializeByKind.finish, Event.usesBuckets, e8]

theorem initializeByKind_histogram_fails (env : Env) (t : GoString) (field : StructField)
    (attrs : Slice) (w : World) (h : (getBounds env.lib field).2 ≠ none) :
    (initializeByKind env t histogram field attrs w).1.1 = none ∧
    (initializeByKind env t histogram field attrs w).1.2 ≠ none ∧
    backendCalls (initializeByKind env t histogram field attrs w).2.trace
      = backendCalls w.trace := by
  have e4 : (histogram = counter) = False := eq_false (by decide)
  have e5 : (histogram = upDownCounter) = False := eq_false (by decide)
  rcases hg : getBounds env.lib field with ⟨bounds, _ | err⟩
  · rw [hg] at h; simp at h
  · by_cases hid : StructTag_Get field.Tag idTag = []
    · simp [initializeByKind, extractTag, getID, hid, World.log, backendCalls_append,
        backendCalls]
    · simp [initializeByKind, extractTag, getID, hid, hg, e4, e5, World.log,
        backendCalls_append, backendCalls]

theorem initRef.leaf_badHistogram (env : Env) (sName : GoString) (field : StructField)
    (kind : Kind) (name : GoString) (methods : List Method) (s : Slice) (w : World)
    (h : badHistogram env.lib field (.basic kind name methods) = true) :
    (initRef.leaf env sName field kind name methods s w).1 ≠ .ret none := by
  simp only [badHistogram, Bool.and_eq_true, decide_eq_true_eq, Option.isSome_iff_ne_none]
    at h
  obtain ⟨⟨⟨hi, hlen⟩, hdrop⟩, hb⟩ := h
  have hne : name ≠ [] := by
    intro h0; rw [h0] at hlen; simp at hlen
  obtain ⟨c, tl, rfl⟩ := List.exists_cons_of_ne_nil hne
  have hf := initializeByKind_histogram_fails env (runeBytes c) field s w hb
  have htk : typeAndKindFor (c :: tl) = .ret (runeBytes c, histogram) := by
    have : ¬ (c :: tl).length < 3 := by omega
    simp only [typeAndKindFor, this, if_false, hdrop]
  unfold initRef.leaf
  simp only [hi, if_true, hne, if_false, htk]
  rcases hr : initializeByKind env (runeBytes c) histogram field s w with
    ⟨⟨_ | val, _ | err⟩, w2⟩
  · rw [hr] at hf; simp at hf
  · simp
  · rw [hr] at hf; simp at hf
  · simp

/-- C20. The `buckets` tag is read only for histograms. For the kinds `Counter`,
`UpDownCounter` and `Gauge`, `initializeByKind` does the same on two fields that differ in
nothing but tags other than `id`, whatever their `buckets` tags hold, and what it adds to the
trace holds no resolution of the `buckets` tag, no boundary list handed to a dispatcher and no
histogram creation. For the kind `Histogram`, a `buckets` tag that does not resolve makes
`initializeByKind` return no handle and an error, whatever the provider (also with none
configured), without any call on the backend; with an `id` tag the error is that of
`getBounds`. And `Init` returns no tree (a nil pointer and an error, or it does not return) on
every blueprint in which such a histogram leaf is reachable from the root through exported
struct and pointer-to-struct fields. -/
theorem initializeByKind_buckets (env : Env) (t : GoString) (attrs : Slice) (w : World) :
    (∀ kind f1 f2, kind = counter ∨ kind = upDownCounter ∨ kind = gauge →
      f1.Name = f2.Name → StructTag_Get f1.Tag idTag = StructTag_Get f2.Tag idTag →
      initializeByKind env t kind f1 attrs w = initializeByKind env t kind f2 attrs w) ∧
    (∀ kind field, kind = counter ∨ kind = upDownCounter ∨ kind = gauge →
      ∃ l, (initializeByKind env t kind field attrs w).2.trace = w.trace ++ l ∧
        l.all (fun e => !e.usesBuckets) = true) ∧
    (∀ field, (getBounds env.lib field).2 ≠ none →
      (initializeByKind env t histogram field attrs w).1.1 = none ∧
      (initializeByKind env t histogram field attrs w).1.2 ≠ none ∧
      backendCalls (initializeByKind env t histogram field attrs w).2.trace
        = backendCalls w.trace) ∧
    (∀ field, (getBounds env.lib field).2 ≠ none → StructTag_Get field.Tag idTag ≠ [] →
      (initializeByKind env t histogram field attrs w).1
        = (none, (getBounds env.lib field).2)) ∧
    (∀ T, reaches (badHistogram env.lib) T = true →
      (∃ err, (Init env T attrs w).1 = .ret (none, some err)) ∨
        ∃ msg, (Init env T attrs w).1 = .panic msg) := by
  refine ⟨fun kind f1 f2 hk hn hid =>
      initializeByKind_same_without_buckets env t kind f1 f2 attrs w hk hn hid,
    fun kind field hk => initializeByKind_no_buckets_event env t kind field attrs w hk,
    fun field h => initializeByKind_histogram_fails env t field attrs w h, ?_, ?_⟩
  · intro field h hid
    have e4 : (histogram = counter) = False := eq_false (by decide)
    have e5 : (histogram = upDownCounter) = False := eq_false (by decide)
    rcases hg : getBounds env.lib field with ⟨bounds, _ | err⟩
    · rw [hg] at h; simp at h
    · simp [initializeByKind, extractTag, getID, hid, hg, e4, e5]
  · intro T h
    refine Init_fails_of_initRef env T attrs w
      (initRef_reaches env (badHistogram env.lib) ?_ ?_ ?_ T attrs w h)
    · intro field name fields s w1 hb
      simp [badHistogram] at hb
    · intro field elem s w1 hb
      simp [badHistogram] at hb
    · intro sName field kind name methods s w1 hb
      exact initRef.leaf_badHistogram env sName field kind name methods s w1 hb

/-- C20 at a gauge and a histogram with the tag `buckets:"1.0,bad"`: the gauge is bound as
without the tag; the histogram fails with no provider configured, and so does `Init` on
`gaugeThenHistogram`. -/
theorem initializeByKind_buckets_witness :
    initializeByKind envLive (str "I") gauge (field "G" [("id", "g"), ("buckets", "1.0,bad")])
        nilSlice emptyWorld
      = initializeByKind envLive (str "I") gauge (field "G" [("id", "g")]) nilSlice
          emptyWorld ∧
    (initializeByKind envLive (str "I") gauge (field "G" [("id", "g"), ("buckets", "1.0,bad")])
        nilSlice emptyWorld).1
      = (some (.recordImpl { T := .I64, baseRecord := some 0, attrs := nilSlice }), none) ∧
    (getBounds envNil.lib (field "H" [("id", "h"), ("buckets", "1.0,bad")])).2 ≠ none ∧
    (initializeByKind envNil (str "I") histogram
        (field "H" [("id", "h"), ("buckets", "1.0,bad")]) nilSlice emptyWorld).1.1 = none ∧
    (initializeByKind envNil (str "I") histogram
        (field "H" [("id", "h"), ("buckets", "1.0,bad")]) nilSlice emptyWorld).1.2 ≠ none ∧
    reaches (badHistogram envNil.lib) gaugeThenHistogram = true ∧
    ((∃ err, (Init envNil gaugeThenHistogram nilSlice emptyWorld).1 = .ret (none, some err)) ∨
      ∃ msg, (Init envNil gaugeThenHistogram nilSlice emptyWorld).1 = .panic msg) :=
  ⟨(initializeByKind_buckets envLive (str "I") nilSlice emptyWorld).1 gauge
      (field "G" [("id", "g"), ("buckets", "1.0,bad")]) (field "G" [("id", "g")])
      (Or.inr (Or.inr rfl)) rfl (by decide),
   by decide, by decide,
   ((initializeByKind_buckets envNil (str "I") nilSlice emptyWorld).2.2.1
      (field "H" [("id", "h"), ("buckets", "1.0,bad")]) (by decide)).1,
   ((initializeByKind_buckets envNil (str "I") nilSlice emptyWorld).2.2.1
      (field "H" [("id", "h"), ("buckets", "1.0,bad")]) (by decide)).2.1,
   by decide,
   (initializeByKind_buckets envNil (str "I") nilSlice emptyWorld).2.2.2.2 gaugeThenHistogram
      (by decide)⟩

/-! ## `typeAndKindFor` -/

/-- C21, as stated, fails on a name that starts with a byte above `0x7F`: for the type name
`Écart` (bytes `C3 89 63 61 72 74`) `typeAndKindFor` returns the domain string `C3 83`, the
UTF-8 encoding of the code point `0xC3`, not the first byte `C3`. -/
theorem typeAndKindFor_ecart :
    ecart = [0xC3, 0x89, 0x63, 0x61, 0x72, 0x74] ∧
    typeAndKindFor ecart = .ret ([0xC3, 0x83], str "art") ∧
    typeAndKindFor ecart ≠ .ret ([0xC3], str "art") := by
  refine ⟨by decide, by decide, by decide⟩

/-- C21, amended. `typeAndKindFor` recovers the numeric domain and the kind from the eight leaf
type names: for the domain letters `I`, `F` and the kinds `Counter`, `UpDownCounter`, `Gauge`,
`Histogram` it returns the letter and the kind on the letter followed by `64` and the kind. In
general, on a name of at least three bytes it returns the UTF-8 encoding of the code point
numbered by the first byte, together with the suffix from byte 3 on; that encoding is the first
byte itself when the byte is below `0x80`, and two bytes otherwise. On a shorter name it
panics. -/
theorem typeAndKindFor_spec :
    (∀ d k, d = i64Type ∨ d = f64Type →
      k = counter ∨ k = upDownCounter ∨ k = gauge ∨ k = histogram →
      typeAndKindFor (d ++ str "64" ++ k) = .ret (d, k)) ∧
    (∀ c rest, 2 ≤ rest.length →
      typeAndKindFor (c :: rest) = .ret (runeBytes c, (c :: rest).drop 3)) ∧
    (∀ c rest, 2 ≤ rest.length → c < 0x80 →
      typeAndKindFor (c :: rest) = .ret ([c], (c :: rest).drop 3)) ∧
    (∀ c rest, 2 ≤ rest.length → 0x80 ≤ c → c < 0x100 →
      typeAndKindFor (c :: rest) = .ret ([0xC0 + c / 64, 0x80 + c % 64], (c :: rest).drop 3)) ∧
    (∀ name, name.length < 3 → ∃ msg, typeAndKindFor name = .panic msg) := by
  have gen : ∀ c rest, 2 ≤ rest.length →
      typeAndKindFor (c :: rest) = .ret (runeBytes c, (c :: rest).drop 3) := by
    intro c rest h
    have : ¬ (c :: rest).length < 3 := by simp only [List.length_cons]; omega
    simp only [typeAndKindFor, this, if_false]
  refine ⟨?_, gen, ?_, ?_, ?_⟩
  · intro d k hd hk
    rcases hd with rfl | rfl <;> rcases hk with rfl | rfl | rfl | rfl <;> decide
  · intro c rest h hc
    rw [gen c rest h]
    simp [runeBytes, hc]
  · intro c rest h h1 h2
    rw [gen c rest h]
    have a : ¬ c < 0x80 := by omega
    have b : c < 0x800 := by omega
    simp [runeBytes, a, b]
  · intro name h
    rcases name with _ | ⟨c, rest⟩
    · exact ⟨_, rfl⟩
    · simp only [typeAndKindFor, h, if_true]
      exact ⟨_, rfl⟩

/-- C21 at `F64UpDownCounter`, at the three-byte name `I64` and at `Écart`. -/
theorem typeAndKindFor_spec_witness :
    typeAndKindFor (str "F64UpDownCounter") = .ret (str "F", str "UpDownCounter") ∧
    typeAndKindFor (str "I64") = .ret (str "I", []) ∧
    typeAndKindFor ecart = .ret ([0xC3, 0x83], str "art") :=
  ⟨typeAndKindFor_spec.1 f64Type upDownCounter (Or.inr rfl) (Or.inr (Or.inl rfl)),
   typeAndKindFor_spec.2.2.1 73 [54, 52] (by decide) (by decide),
   typeAndKindFor_spec.2.2.2.1 0xC3 [0x89, 0x63, 0x61, 0x72, 0x74] (by decide) (by decide)
     (by decide)⟩

/-! ## Leaves whose type is none of the eight -/

/-- The leaf branch panics on a field that implements a capability set when the name handed to
`typeAndKindFor` is shorter than three bytes; nothing is resolved. -/
theorem initRef.leaf_short_name (env : Env) (sName : GoString) (field : StructField)
    (kind : Kind) (name : GoString) (methods : List Method) (attrs : Slice) (w : World)
    (hi : implementsOneOf methods supported = true)
    (hn : (if name = [] then sName else name).length < 3) :
    ∃ msg, initRef.leaf env sName field kind name methods attrs w = (.panic msg, .zero, w) := by
  unfold initRef.leaf
  simp only [hi, if_true]
  rcases hx : (if name = [] then sName else name) with _ | ⟨c, rest⟩
  · exact ⟨_, rfl⟩
  · rw [hx] at hn
    simp only [typeAndKindFor, hn, if_true]
    exact ⟨_, rfl⟩

/-- The leaf branch returns the unsupported-kind error when the name has at least three bytes,
its suffix from byte 3 on is none of the four kinds, and the field has an `id` tag. -/
theorem initRef.leaf_unsupported_kind (env : Env) (sName : GoString) (field : StructField)
    (kind : Kind) (c : Nat) (rest : GoString) (methods : List Method) (attrs : Slice)
    (w : World) (hi : implementsOneOf methods supported = true) (hn : 2 ≤ rest.length)
    (hid : StructTag_Get field.Tag idTag ≠ [])
    (h1 : rest.drop 2 ≠ counter) (h2 : rest.drop 2 ≠ upDownCounter)
    (h3 : rest.drop 2 ≠ gauge) (h4 : rest.drop 2 ≠ histogram) :
    initRef.leaf env sName field kind (c :: rest) methods attrs w
      = (.ret (some (str "error initializing field: " ++
            (str "unsupported kind found: " ++ rest.drop 2))), .zero,
         w.log (.resolve field.Name idTag)) := by
  have hlen : ¬ (c :: rest).length < 3 := by simp only [List.length_cons]; omega
  unfold initRef.leaf
  simp only [hi, if_true, List.cons_ne_nil, if_false, typeAndKindFor, hlen, List.drop_succ_cons,
    initializeByKind, extractTag, getID, hid, h1, h2, h3, h4, or_self,
    initializeByKind.finish]

/-- C22, at the failing inputs. `Init` panics on a leaf that implements `add[int64]` and whose
type is none of the eight: on `opOnly` (type name `Op`, two bytes) and on `anonInT` (unnamed
interface in the struct `T`, one byte) `typeAndKindFor` slices the name out of range; on
`anonLeaf` (unnamed interface in an unnamed struct) it indexes the empty name; on `fooCounter`
(type name `FooCounter`, methods of `int64`) the handle made is one of `float64` and storing it
panics. The unsupported-kind error is returned only on a name such as `I64Timer`. -/
theorem Init_panics_on_unresolvable_leaf :
    (InitWith envLive opOnly [] []).1
      = .panic (str "runtime error: slice bounds out of range [3:2]") ∧
    (InitWith envLive anonInT [] []).1
      = .panic (str "runtime error: slice bounds out of range [3:1]") ∧
    (InitWith envLive anonLeaf [] []).1
      = .panic (str "runtime error: index out of range [0] with length 0") ∧
    (InitWith envLive fooCounter [] []).1
      = .panic (str "reflect.Set: value is not assignable to type " ++ str "FooCounter") ∧
    (InitWith envNil opOnly [] []).1
      = .panic (str "runtime error: slice bounds out of range [3:2]") ∧
    (InitWith envNil fooCounter [] []).1
      = .panic (str "reflect.Set: value is not assignable to type " ++ str "FooCounter") ∧
    (InitWith envLive timer [] []).1
      = .ret (none, some (str "error initializing field: " ++
          str "unsupported kind found: Timer")) := by
  refine ⟨rfl, rfl, rfl, rfl, rfl, rfl, rfl⟩

/-! ## The fields the walk takes up -/

theorem visits_append (a b : List Event) : visits (a ++ b) = visits a ++ visits b := by
  induction a with
  | nil => rfl
  | cons e a ih => cases e <;> simp [visits, ih]

theorem provider.create_visits (p : provider) (call : MeterCall) (w : World) :
    visits (p.create call w).2.trace = visits w.trace := by
  rw [provider.create_eq]
  cases p.m (backendCalls w.trace) call <;> simp [World.log, visits_append, visits]

theorem provider.i64c_visits (p : Option provider) (kind id : GoString) (attrs : Slice)
    (w : World) : visits (provider.i64c p kind id attrs w).2.trace = visits w.trace := by
  unfold provider.i64c
  cases p with
  | none => rfl
  | some prov =>
    simp only []
    split_ifs
    · have := provider.create_visits prov (.Int64Counter id) w
      revert this
      cases prov.create (.Int64Counter id) w with
      | mk r w2 => cases r with | mk b e => cases e <;> exact fun h => h
    · have := provider.create_visits prov (.Int64UpDownCounter id) w
      revert this
      cases prov.create (.Int64UpDownCounter id) w with
      | mk r w2 => cases r with | mk b e => cases e <;> exact fun h => h
    · rfl

theorem provider.f64c_visits (p : Option provider) (kind id : GoString) (attrs : Slice)
    (w : World) : visits (provider.f64c p kind id attrs w).2.trace = visits w.trace := by
  unfold provider.f64c
  cases p with
  | none => rfl
  | some prov =>
    simp only []
    split_ifs
    · have := provider.create_visits prov (.Float64Counter id) w
      revert this
      cases prov.create (.Float64Counter id) w with
      | mk r w2 => cases r with | mk b e => cases e <;> exact fun h => h
    · have := provider.create_visits prov (.Float64UpDownCounter id) w
      revert this
      cases prov.create (.Float64UpDownCounter id) w with
      | mk r w2 => cases r with | mk b e => cases e <;> exact fun h => h
    · rfl

theorem provider.i64r_visits (p : Option provider) (kind id : GoString) (bounds : List Float64)
    (attrs : Slice) (w : World) :
    visits (provider.i64r p kind id bounds attrs w).2.trace = visits w.trace := by
  unfold provider.i64r
  cases p with
  | none => rfl
  | some prov =>
    simp only []
    split_ifs
    · have := provider.create_visits prov (.Int64Gauge id) w
      revert this
      cases prov.create (.Int64Gauge id) w with
      | mk r w2 => cases r with | mk b e => cases e <;> exact fun h => h
    · have := provider.create_visits prov (.Int64Histogram id bounds) w
      revert this
      cases prov.create (.Int64Histogram id bounds) w with
      | mk r w2 => cases r with | mk b e => cases e <;> exact fun h => h
    · rfl

theorem provider.f64r_visits (p : Option provider) (kind id : GoString) (bounds : List Float64)
    (attrs : Slice) (w : World) :
    visits (provider.f64r p kind id bounds attrs w).2.trace = visits w.trace := by
  unfold provider.f64r
  cases p with
  | none => rfl
  | some prov =>
    simp only []
    split_ifs
    · have := provider.create_visits prov (.Float64Gauge id) w
      revert this
      cases prov.create (.Float64Gauge id) w with
      | mk r w2 => cases r with | mk b e => cases e <;> exact fun h => h
    · have := provider.create_visits prov (.Float64Histogram id bounds) w
      revert this
      cases prov.create (.Float64Histogram id bounds) w with
      | mk r w2 => cases r with | mk b e => cases e <;> exact fun h => h
    · rfl

theorem visits_log (w : World) (e : Event) (h : ∀ f, e ≠ .visit f) :
    visits (w.log e).trace = visits w.trace := by
  cases e <;> simp [World.log, visits_append, visits]
  exact h _ rfl

/-- The function `initializeByKind` takes up no field. -/
theorem initializeByKind_visits (env : Env) (t kind : GoString) (field : StructField)
    (attrs : Slice) (w : World) :
    visits (initializeByKind env t kind field attrs w).2.trace = visits w.trace := by
  have r1 : ∀ (w1 : World) (f tag : GoString),
      visits (w1.log (.resolve f tag)).trace = visits w1.trace :=
    fun w1 f tag => visits_log w1 _ (by intro g h; cases h)
  have r2 : ∀ (w1 : World) fn k id b a,
      visits (w1.log (.dispatch fn k id b a)).trace = visits w1.trace :=
    fun w1 fn k id b a => visits_log w1 _ (by intro g h; cases h)
  by_cases hid : StructTag_Get field.Tag idTag = []
  · simp [initializeByKind, extractTag, getID, hid, r1]
  · simp only [initializeByKind, extractTag, getID, hid, if_false]
    by_cases hk1 : kind = counter ∨ kind = upDownCounter
    · simp only [hk1, if_true]
      by_cases ht : t = i64Type
      · simp only [ht, if_true, initializeByKind.finish_world, provider.i64c_visits, r2, r1]
      · simp only [ht, if_false, initializeByKind.finish_world, provider.f64c_visits, r2, r1]
    · simp only [hk1, if_false]
      by_cases hk2 : kind = gauge ∨ kind = histogram
      · simp only [hk2, if_true]
        by_cases hk3 : kind = histogram
        · simp only [hk3, if_true]
          rcases hb : getBounds env.lib field with ⟨bounds, _ | e⟩
          · simp only []
            by_cases ht : t = i64Type
            · simp only [ht, if_true, initializeByKind.finish_world, provider.i64r_visits, r2,
                r1]
            · simp only [ht, if_false, initializeByKind.finish_world, provider.f64r_visits,
                r2, r1]
          · simp only [r1]
        · simp only [hk3, if_false]
          by_cases ht : t = i64Type
          · simp only [ht, if_true, initializeByKind.finish_world, provider.i64r_visits, r2,
              r1]
          · simp only [ht, if_false, initializeByKind.finish_world, provider.f64r_visits, r2,
              r1]
      · simp only [hk2, if_false, initializeByKind.finish_world, r1]

theorem Walked.still {w w1 : World} (r : Flow (Option GoString))
    (q : visits w1.trace = visits w.trace) : Walked [] w r w1 :=
  ⟨[], List.prefix_refl _, by simp [q], fun _ => rfl⟩

theorem Walked.fault {w w1 : World} {r : Flow (Option GoString)} (E : List GoString)
    (q : visits w1.trace = visits w.trace) (hr : r ≠ .ret none) : Walked E w r w1 :=
  ⟨[], List.nil_prefix, by simp [q], fun h => absurd h hr⟩

theorem Walked.next {E1 E2 : List GoString} {w w1 w2 : World}
    {r2 : Flow (Option GoString)} (a : Walked E1 w (.ret none) w1) (b : Walked E2 w1 r2 w2) :
    Walked (E1 ++ E2) w r2 w2 := by
  obtain ⟨la, pa, da, ea⟩ := a
  obtain ⟨lb, pb, db, eb⟩ := b
  have hla := ea rfl
  subst hla
  refine ⟨la ++ lb, (List.prefix_append_right_inj la).mpr pb, ?_, fun h => ?_⟩
  · rw [db, da, List.append_assoc]
  · rw [eb h]

theorem Walked.stop {E1 : List GoString} (E2 : List GoString) {w w1 : World}
    {r1 : Flow (Option GoString)} (a : Walked E1 w r1 w1) (hr : r1 ≠ .ret none) :
    Walked (E1 ++ E2) w r1 w1 := by
  obtain ⟨la, pa, da, _⟩ := a
  exact ⟨la, pa.trans (List.prefix_append E1 E2), da, fun h => absurd h hr⟩

theorem Walked.taken {E : List GoString} {w w1 : World} {r : Flow (Option GoString)}
    (f : GoString) (h : Walked E (w.log (.visit f)) r w1) : Walked (f :: E) w r w1 := by
  obtain ⟨l, p, d, e⟩ := h
  refine ⟨f :: l, ?_, ?_, fun hr => by rw [e hr]⟩
  · obtain ⟨t, ht⟩ := p
    exact ⟨t, by simp [← ht]⟩
  · rw [d]
    simp [World.log, visits_append, visits]

/-- The leaf branch takes up no field. -/
theorem initRef.leaf_visits (env : Env) (sName : GoString) (field : StructField) (kind : Kind)
    (name : GoString) (methods : List Method) (attrs : Slice) (w : World) :
    visits (initRef.leaf env sName field kind name methods attrs w).2.2.trace
      = visits w.trace := by
  unfold initRef.leaf
  by_cases hi : implementsOneOf methods supported = true
  · simp only [hi, if_true]
    generalize (if name = [] then sName else name) = nm
    rcases typeAndKindFor nm with ⟨t, k⟩ | msg
    · simp only []
      have h := initializeByKind_visits env t k field attrs w
      rcases hr : initializeByKind env t k field attrs w with ⟨⟨_ | val, _ | e⟩, w2⟩ <;>
        rw [hr] at h <;> simp only [] at h ⊢
      · exact h
      · exact h
      · by_cases ha : assignable val kind methods = true
        · simpa only [ha, if_true] using h
        · simpa only [ha, if_false] using h
      · exact h
    · rfl
  · simp only [hi]
    rfl

/-- The sub-tree branch takes up the fields the recursive call takes up. -/
theorem initRef.subtree_walked (env : Env) (field : StructField) (isPtr : Bool) (attrs : Slice)
    (w : World) (recur : Slice → World → Flow (Option GoString) × Value × World)
    (E : List GoString)
    (hrec : ∀ e w1, Walked E w1 (recur e w1).1 (recur e w1).2.2) :
    Walked E w (initRef.subtree env field isPtr attrs w recur).1
      (initRef.subtree env field isPtr attrs w recur).2.2 := by
  have r1 : visits (w.log (.resolve field.Name attrsTag)).trace = visits w.trace :=
    visits_log w _ (by intro g h; cases h)
  unfold initRef.subtree
  simp only [extractTag]
  rcases getAttrs env.lib field with ⟨inner, _ | err⟩
  · simp only []
    rcases goAppend env.growslice (w.log (.resolve field.Name attrsTag)).heap attrs inner
      with ⟨e, h1⟩
    simp only []
    have hp := hrec e { w.log (.resolve field.Name attrsTag) with heap := h1 }
    obtain ⟨l, p, d, e1⟩ := hp
    have hP : ∀ r, (r = Flow.ret none →
        (recur e { w.log (.resolve field.Name attrsTag) with heap := h1 }).1 = .ret none) →
        Walked E w r
          (recur e { w.log (.resolve field.Name attrsTag) with heap := h1 }).2.2 := by
      intro r hr
      refine ⟨l, p, ?_, fun h => e1 (hr h)⟩
      rw [d]
      simp [World.log, visits_append, visits]
    rcases hr : recur e { w.log (.resolve field.Name attrsTag) with heap := h1 }
      with ⟨(_ | err) | msg, n, w2⟩
    all_goals
      rw [hr] at hP
      simp only [] at hP ⊢
    · exact hP _ (by simp)
    · exact hP _ (by simp)
    · exact hP _ (by simp)
  · exact Walked.fault _ r1 (by simp)

/-- One round of the loop followed by the rest of the loop. -/
theorem initRef.loop_step_walked (env : Env) (sName : GoString) (rest : FieldList) (s : Slice)
    (w : World) (E1 : List GoString) (b : Flow (Option GoString) × Value × World)
    (hb : Walked E1 w b.1 b.2.2)
    (hrest : ∀ w1, Walked (visitOrderFields rest) w1
        (initRef.loop env sName rest s w1).1 (initRef.loop env sName rest s w1).2.2) :
    Walked (E1 ++ visitOrderFields rest) w
      (match b with
        | (.ret none, v, w) =>
          match initRef.loop env sName rest s w with
          | (r, vals, w) => (r, v :: vals, w)
        | (r, v, w) => (r, v :: zeroValues rest, w)).1
      (match b with
        | (.ret none, v, w) =>
          match initRef.loop env sName rest s w with
          | (r, vals, w) => (r, v :: vals, w)
        | (r, v, w) => (r, v :: zeroValues rest, w)).2.2 := by
  obtain ⟨(_ | err) | msg, v, w1⟩ := b
  · exact Walked.next hb (hrest w1)
  · exact Walked.stop _ hb (by simp)
  · exact Walked.stop _ hb (by simp)

mutual
/-- The walk takes up the exported fields of the type in depth-first declaration order. -/
theorem initRef_walked (env : Env) : ∀ (T : GoType) (s : Slice) (w : World),
    Walked (visitOrder T) w (initRef env T s w).1 (initRef env T s w).2.2
  | .struct name fields, s, w => by
    have := initRef.loop_walked env name fields s w
    simpa only [initRef, visitOrder] using this
  | .pointer _, s, w => by
    simp only [initRef, visitOrder]
    exact Walked.fault _ rfl (by simp)
  | .basic _ _ _, s, w => by
    simp only [initRef, visitOrder]
    exact Walked.fault _ rfl (by simp)
/-- The loop takes up the exported fields in depth-first declaration order. -/
theorem initRef.loop_walked (env : Env) (sName : GoString) :
    ∀ (fs : FieldList) (s : Slice) (w : World),
    Walked (visitOrderFields fs) w
      (initRef.loop env sName fs s w).1 (initRef.loop env sName fs s w).2.2
  | .nil, s, w => by
    simp only [initRef.loop, visitOrderFields]
    exact Walked.still _ rfl
  | .cons field (.struct name fields) rest, s, w => by
    by_cases hx : field.exported = true
    · have hb := Walked.taken field.Name (initRef.subtree_walked env field false s
        (w.log (.visit field.Name)) (fun e w1 => initRef env (.struct name fields) e w1)
        (visitOrder (.struct name fields))
        (fun e w1 => initRef_walked env (.struct name fields) e w1))
      have := initRef.loop_step_walked env sName rest s w _ _ hb
        (fun w1 => initRef.loop_walked env sName rest s w1)
      simpa [initRef.loop, visitOrderFields, hx] using this
    · have := initRef.loop_walked env sName rest s w
      simpa [initRef.loop, visitOrderFields, hx] using this
  | .cons field (.pointer elem) rest, s, w => by
    by_cases hx : field.exported = true
    · have hb := Walked.taken field.Name (initRef.subtree_walked env field true s
        (w.log (.visit field.Name)) (fun e w1 => initRef env elem e w1)
        (visitOrder elem) (fun e w1 => initRef_walked env elem e w1))
      have := initRef.loop_step_walked env sName rest s w _ _ hb
        (fun w1 => initRef.loop_walked env sName rest s w1)
      simpa [initRef.loop, visitOrderFields, hx] using this
    · have := initRef.loop_walked env sName rest s w
      simpa [initRef.loop, visitOrderFields, hx] using this
  | .cons field (.basic kind name methods) rest, s, w => by
    by_cases hx : field.exported = true
    · have hb := Walked.taken field.Name (Walked.still
        (initRef.leaf env sName field kind name methods s (w.log (.visit field.Name))).1
        (initRef.leaf_visits env sName field kind name methods s (w.log (.visit field.Name))))
      have := initRef.loop_step_walked env sName rest s w _ _ hb
        (fun w1 => initRef.loop_walked env sName rest s w1)
      simpa [initRef.loop, visitOrderFields, hx] using this
    · have := initRef.loop_walked env sName rest s w
      simpa [initRef.loop, visitOrderFields, hx] using this
end

/-! ## Termination of the walk -/

theorem initRef.subtreeN_eq (env : Env) (field : StructField) (isPtr : Bool) (attrs : Slice)
    (w : World) (recurN : Slice → World → Option (Flow (Option GoString) × Value × World))
    (recur : Slice → World → Flow (Option GoString) × Value × World)
    (h : ∀ e w1, recurN e w1 = some (recur e w1)) :
    initRef.subtreeN env field isPtr attrs w recurN
      = some (initRef.subtree env field isPtr attrs w recur) := by
  unfold initRef.subtreeN initRef.subtree
  rcases extractTag attrsTag field (getAttrs env.lib) w with ⟨⟨inner, _ | err⟩, w1⟩
  · simp only []
    rcases goAppend env.growslice w1.heap attrs inner with ⟨e, h1⟩
    simp only [h]
    rcases recur e { w1 with heap := h1 } with ⟨(_ | err) | msg, n, w2⟩ <;> rfl
  · rfl

theorem initRef.loopN_step (env : Env) (sName : GoString) (rest : FieldList) (s : Slice)
    (recur : GoType → Slice → World → Option (Flow (Option GoString) × Value × World))
    (b : Flow (Option GoString) × Value × World)
    (hrest : ∀ w1, initRef.loopN env recur sName rest s w1
      = some (initRef.loop env sName rest s w1)) :
    (match some b with
      | none => none
      | some (.ret none, v, w) =>
        match initRef.loopN env recur sName rest s w with
        | none => none
        | some (r, vals, w) => some (r, v :: vals, w)
      | some (r, v, w) => some (r, v :: zeroValues rest, w))
    = some (match b with
      | (.ret none, v, w) =>
        match initRef.loop env sName rest s w with
        | (r, vals, w) => (r, v :: vals, w)
      | (r, v, w) => (r, v :: zeroValues rest, w)) := by
  obtain ⟨(_ | err) | msg, v, w1⟩ := b
  · simp only [hrest]
  · rfl
  · rfl

theorem depth_referent_lt (name : GoString) :
    ∀ (fields : FieldList) (T : GoType), T ∈ referents fields →
      depth T < depth (.struct name fields)
  | .nil, T, h => by simp [referents] at h
  | .cons field (.struct n fs) rest, T, h => by
    have ih := depth_referent_lt name rest T
    simp only [depth] at ih ⊢
    by_cases hx : field.exported = true
    · simp only [referents, hx, if_true, List.mem_cons] at h
      simp only [depthFields, hx, if_true]
      rcases h with rfl | h
      · simp only [depth]; omega
      · have := ih h; omega
    · simp only [referents, hx] at h
      simp only [depthFields, hx]
      have := ih h; omega
  | .cons field (.pointer elem) rest, T, h => by
    have ih := depth_referent_lt name rest T
    simp only [depth] at ih ⊢
    by_cases hx : field.exported = true
    · simp only [referents, hx, if_true, List.mem_cons] at h
      simp only [depthFields, hx, if_true]
      rcases h with rfl | h
      · omega
      · have := ih h; omega
    · simp only [referents, hx] at h
      simp only [depthFields, hx]
      have := ih h; omega
  | .cons field (.basic _ _ _) rest, T, h => by
    have ih := depth_referent_lt name rest T
    simp only [depth] at ih ⊢
    simp only [referents] at h
    simp only [depthFields]
    exact ih h

mutual
/-- With room for more nested calls than the nesting depth, the walk returns. -/
theorem initRefN_eq (env : Env) : ∀ (T : GoType) (n : Nat) (s : Slice) (w : World),
    depth T < n → initRefN env n T s w = some (initRef env T s w)
  | .struct name fields, n, s, w, h => by
    obtain ⟨m, rfl⟩ : ∃ m, n = m + 1 := ⟨n - 1, by omega⟩
    have := initRef.loopN_eq env name fields m s w (by simp only [depth] at h; omega)
    simp only [initRefN, initRef, this]
  | .pointer _, n, s, w, h => by
    obtain ⟨m, rfl⟩ : ∃ m, n = m + 1 := ⟨n - 1, by omega⟩
    simp only [initRefN, initRef]
  | .basic _ _ _, n, s, w, h => by
    obtain ⟨m, rfl⟩ : ∃ m, n = m + 1 := ⟨n - 1, by omega⟩
    simp only [initRefN, initRef]
/-- With room for as many nested calls as the fields need, the loop returns. -/
theorem initRef.loopN_eq (env : Env) (sName : GoString) :
    ∀ (fs : FieldList) (n : Nat) (s : Slice) (w : World), depthFields fs ≤ n →
    initRef.loopN env (fun T s1 w1 => initRefN env n T s1 w1) sName fs s w
      = some (initRef.loop env sName fs s w)
  | .nil, n, s, w, h => by simp only [initRef.loopN, initRef.loop]
  | .cons field (.struct name fields) rest, n, s, w, h => by
    simp only [depthFields] at h
    have hrest := fun w1 => initRef.loopN_eq env sName rest n s w1 (by omega)
    by_cases hx : field.exported = true
    · simp only [hx, if_true] at h
      have hsub := initRef.subtreeN_eq env field false s (w.log (.visit field.Name))
        (fun e w1 => initRefN env n (.struct name fields) e w1)
        (fun e w1 => initRef env (.struct name fields) e w1)
        (fun e w1 => initRefN_eq env (.struct name fields) n e w1 (by omega))
      have := initRef.loopN_step env sName rest s (fun T s1 w1 => initRefN env n T s1 w1)
        (initRef.subtree env field false s (w.log (.visit field.Name))
          (fun e w1 => initRef env (.struct name fields) e w1)) hrest
      simpa [initRef.loopN, initRef.loop, hx, hsub] using this
    · simp [initRef.loopN, initRef.loop, hx, hrest]
  | .cons field (.pointer elem) rest, n, s, w, h => by
    simp only [depthFields] at h
    have hrest := fun w1 => initRef.loopN_eq env sName rest n s w1 (by omega)
    by_cases hx : field.exported = true
    · simp only [hx, if_true] at h
      have hsub := initRef.subtreeN_eq env field true s (w.log (.visit field.Name))
        (fun e w1 => initRefN env n elem e w1)
        (fun e w1 => initRef env elem e w1)
        (fun e w1 => initRefN_eq env elem n e w1 (by omega))
      have := initRef.loopN_step env sName rest s (fun T s1 w1 => initRefN env n T s1 w1)
        (initRef.subtree env field true s (w.log (.visit field.Name))
          (fun e w1 => initRef env elem e w1)) hrest
      simpa [initRef.loopN, initRef.loop, hx, hsub] using this
    · simp [initRef.loopN, initRef.loop, hx, hrest]
  | .cons field (.basic kind name methods) rest, n, s, w, h => by
    simp only [depthFields] at h
    have hrest := fun w1 => initRef.loopN_eq env sName rest n s w1 h
    by_cases hx : field.exported = true
    · have := initRef.loopN_step env sName rest s (fun T s1 w1 => initRefN env n T s1 w1)
        (initRef.leaf env sName field kind name methods s (w.log (.visit field.Name))) hrest
      simpa [initRef.loopN, initRef.loop, hx] using this
    · simp [initRef.loopN, initRef.loop, hx, hrest]
end

theorem initRef.subtreeN_agrees (env : Env) (field : StructField) (isPtr : Bool)
    (attrs : Slice) (w : World)
    (recurN : Slice → World → Option (Flow (Option GoString) × Value × World))
    (recur : Slice → World → Flow (Option GoString) × Value × World)
    (h : ∀ e w1, recurN e w1 = none ∨ recurN e w1 = some (recur e w1)) :
    initRef.subtreeN env field isPtr attrs w recurN = none ∨
    initRef.subtreeN env field isPtr attrs w recurN
      = some (initRef.subtree env field isPtr attrs w recur) := by
  unfold initRef.subtreeN initRef.subtree
  rcases extractTag attrsTag field (getAttrs env.lib) w with ⟨⟨inner, _ | err⟩, w1⟩
  · simp only []
    rcases goAppend env.growslice w1.heap attrs inner with ⟨e, h1⟩
    simp only []
    rcases h e { w1 with heap := h1 } with hn | hs
    · rw [hn]; exact Or.inl rfl
    · rw [hs]
      rcases recur e { w1 with heap := h1 } with ⟨(_ | err) | msg, n, w2⟩ <;> exact Or.inr rfl
  · exact Or.inr rfl

theorem initRef.loopN_step_agrees (env : Env) (sName : GoString) (rest : FieldList) (s : Slice)
    (recur : GoType → Slice → World → Option (Flow (Option GoString) × Value × World))
    (b : Flow (Option GoString) × Value × World)
    (hrest : ∀ w1, initRef.loopN env recur sName rest s w1 = none ∨
      initRef.loopN env recur sName rest s w1 = some (initRef.loop env sName rest s w1)) :
    (match some b with
      | none => none
      | some (.ret none, v, w) =>
        match initRef.loopN env recur sName rest s w with
        | none => none
        | some (r, vals, w) => some (r, v :: vals, w)
      | some (r, v, w) => some (r, v :: zeroValues rest, w)) = none ∨
    (match some b with
      | none => none
      | some (.ret none, v, w) =>
        match initRef.loopN env recur sName rest s w with
        | none => none
        | some (r, vals, w) => some (r, v :: vals, w)
      | some (r, v, w) => some (r, v :: zeroValues rest, w))
    = some (match b with
      | (.ret none, v, w) =>
        match initRef.loop env sName rest s w with
        | (r, vals, w) => (r, v :: vals, w)
      | (r, v, w) => (r, v :: zeroValues rest, w)) := by
  obtain ⟨(_ | err) | msg, v, w1⟩ := b
  · rcases hrest w1 with hn | hs
    · simp only [hn]; exact Or.inl trivial
    · simp only [hs]; exact Or.inr trivial
  · exact Or.inr rfl
  · exact Or.inr rfl

mutual
/-- Whatever the room, the bounded walk either gives out or returns the result of `initRef`. -/
theorem initRefN_agrees (env : Env) : ∀ (T : GoType) (n : Nat) (s : Slice) (w : World),
    initRefN env n T s w = none ∨ initRefN env n T s w = some (initRef env T s w)
  | T, 0, s, w => by cases T <;> exact Or.inl rfl
  | .struct name fields, n + 1, s, w => by
    rcases initRef.loopN_agrees env name fields n s w with h | h
    · left; simp only [initRefN, h]
    · right; simp only [initRefN, initRef, h]
  | .pointer _, n + 1, s, w => by right; simp only [initRefN, initRef]
  | .basic _ _ _, n + 1, s, w => by right; simp only [initRefN, initRef]
/-- Whatever the room, the bounded loop either gives out or returns the result of the loop. -/
theorem initRef.loopN_agrees (env : Env) (sName : GoString) :
    ∀ (fs : FieldList) (n : Nat) (s : Slice) (w : World),
    initRef.loopN env (fun T s1 w1 => initRefN env n T s1 w1) sName fs s w = none ∨
    initRef.loopN env (fun T s1 w1 => initRefN env n T s1 w1) sName fs s w
      = some (initRef.loop env sName fs s w)
  | .nil, n, s, w => by right; simp only [initRef.loopN, initRef.loop]
  | .cons field (.struct name fields) rest, n, s, w => by
    have hrest := fun w1 => initRef.loopN_agrees env sName rest n s w1
    by_cases hx : field.exported = true
    · have hsub := initRef.subtreeN_agrees env field false s (w.log (.visit field.Name))
        (fun e w1 => initRefN env n (.struct name fields) e w1)
        (fun e w1 => initRef env (.struct name fields) e w1)
        (fun e w1 => initRefN_agrees env (.struct name fields) n e w1)
      rcases hsub with hn | hs
      · left; simp [initRef.loopN, hx, hn]
      · have := initRef.loopN_step_agrees env sName rest s
          (fun T s1 w1 => initRefN env n T s1 w1)
          (initRef.subtree env field false s (w.log (.visit field.Name))
            (fun e w1 => initRef env (.struct name fields) e w1)) hrest
        simpa [initRef.loopN, initRef.loop, hx, hs] using this
    · rcases hrest w with h | h
      · left; simp [initRef.loopN, hx, h]
      · right; simp [initRef.loopN, initRef.loop, hx, h]
  | .cons field (.pointer elem) rest, n, s, w => by
    have hrest := fun w1 => initRef.loopN_agrees env sName rest n s w1
    by_cases hx : field.exported = true
    · have hsub := initRef.subtreeN_agrees env field true s (w.log (.visit field.Name))
        (fun e w1 => initRefN env n elem e w1)
        (fun e w1 => initRef env elem e w1)
        (fun e w1 => initRefN_agrees env elem n e w1)
      rcases hsub with hn | hs
      · left; simp [initRef.loopN, hx, hn]
      · have := initRef.loopN_step_agrees env sName rest s
          (fun T s1 w1 => initRefN env n T s1 w1)
          (initRef.subtree env field true s (w.log (.visit field.Name))
            (fun e w1 => initRef env elem e w1)) hrest
        simpa [initRef.loopN, initRef.loop, hx, hs] using this
    · rcases hrest w with h | h
      · left; simp [initRef.loopN, hx, h]
      · right; simp [initRef.loopN, initRef.loop, hx, h]
  | .cons field (.basic kind name methods) rest, n, s, w => by
    have hrest := fun w1 => initRef.loopN_agrees env sName rest n s w1
    by_cases hx : field.exported = true
    · have := initRef.loopN_step_agrees env sName rest s
        (fun T s1 w1 => initRefN env n T s1 w1)
        (initRef.leaf env sName field kind name methods s (w.log (.visit field.Name))) hrest
      simpa [initRef.loopN, initRef.loop, hx] using this
    · rcases hrest w with h | h
      · left; simp [initRef.loopN, hx, h]
      · right; simp [initRef.loopN, initRef.loop, hx, h]
end

/-- C23, as stated, fails on a walk that ends with a fault: on `faultThenLeaf` the walk stops
at the leaf `C`, which has no `id` tag, and never takes up the exported field `D`; on
`oddPointer` the pointer field `P` is taken up but, its `attrs` tag being malformed, it is not
descended into, so the field `C` of its referent is never taken up. -/
theorem initRef_stops_at_fault :
    visitOrder faultThenLeaf = [str "C", str "D"] ∧
    (InitWith envLive faultThenLeaf [] []).1
      = .ret (none, some (str "error initializing field: " ++
          str "missing id tag for field C")) ∧
    visits (InitWith envLive faultThenLeaf [] []).2.trace = [str "C"] ∧
    visitOrder oddPointer = [str "P", str "C"] ∧
    (InitWith envLive oddPointer [] []).1
      = .ret (none, some (str "invalid number of attributes on field P: 1")) ∧
    (InitWith envLive oddPointer [] []).2.trace
      = [.visit (str "P"), .resolve (str "P") attrsTag] := by
  refine ⟨by decide, rfl, by decide, by decide, rfl, by decide⟩

/-- C23, amended. The walk terminates on every blueprint of finite nesting: run with room for
`n` nested calls of `initRef`, it returns, with the result of `initRef`, as soon as `n` exceeds
the nesting depth of the blueprint (with less room it gives out or returns that same result),
and every type the loop descends into, the referent of an exported struct or pointer field,
has a smaller nesting depth than the struct the loop runs over. The exported fields are taken
up in depth-first declaration order, each struct or pointer field followed by the exported
fields of its referent, none twice: the fields taken up are an initial part of that order, and
all of it when the walk ends without fault. -/
theorem initRef_terminates (env : Env) (T : GoType) (s : Slice) (w : World) :
    (∀ n, depth T < n → initRefN env n T s w = some (initRef env T s w)) ∧
    (∀ n, initRefN env n T s w = none ∨ initRefN env n T s w = some (initRef env T s w)) ∧
    (∀ name fields T1, T = .struct name fields → T1 ∈ referents fields →
      depth T1 < depth T) ∧
    (∃ l, l <+: visitOrder T ∧
      visits (initRef env T s w).2.2.trace = visits w.trace ++ l ∧
      ((initRef env T s w).1 = .ret none → l = visitOrder T)) := by
  refine ⟨fun n h => initRefN_eq env T n s w h, fun n => initRefN_agrees env T n s w, ?_,
    initRef_walked env T s w⟩
  intro name fields T1 hT h
  subst hT
  exact depth_referent_lt name fields T1 h

/-- C23 at `scenario`, of nesting depth 1: room for one call is not enough, room for two is;
the fields are taken up in the order `A`, `Sub`, `B`. -/
theorem initRef_terminates_witness :
    depth scenario = 1 ∧
    initRefN envLive 1 scenario (callerSlice [] []).1 (callerSlice [] []).2 = none ∧
    initRefN envLive 2 scenario (callerSlice [] []).1 (callerSlice [] []).2
      = some (initRef envLive scenario (callerSlice [] []).1 (callerSlice [] []).2) ∧
    (initRef envLive scenario (callerSlice [] []).1 (callerSlice [] []).2).1 = .ret none ∧
    visitOrder scenario = [str "A", str "Sub", str "B"] ∧
    visits (initRef envLive scenario (callerSlice [] []).1 (callerSlice [] []).2).2.2.trace
      = [str "A", str "Sub", str "B"] :=
  ⟨by decide, rfl,
   (initRef_terminates envLive scenario (callerSlice [] []).1 (callerSlice [] []).2).1 2
     (by decide),
   rfl, by decide, by decide⟩

end Em
